import Mathlib

/-!
Structured code generation: `if_`, `while_`, `break_`, `continue_`, `return_`

A shallow embedding of `include/codegen/module_builder.hpp`,
`include/codegen/statements.hpp` and `include/codegen/variable.hpp`.

The backend (LLVM) objects the builder talks to are represented by plain data:
basic blocks are records in a list indexed by creation order (a block is
identified by that index, a natural number), an instruction
records the debug location that was current when it was inserted, and the
function under construction is the list of the blocks attached to it.
Assertions are modelled as failures that carry the state reached so far.
-/

namespace codegen

/-! ## Backend data -/

/-- Size of the C++ `unsigned` type of `line_no_` and `indent_`. -/
abbrev UNSIGNED_MOD : Nat := 4294967296

/-- Debug scopes (`llvm::DIScope*`).  `undef` stands for what `top()` of an
empty `std::stack` yields, which C++ leaves undefined. -/
inductive DIScope where
  | undef
  | file (path : String)
  | subprogram (name : String) (parent : DIScope)
  | lexical_block (parent : DIScope) (file : DIScope) (line col : Nat)
  deriving DecidableEq, Repr

/-- Debug location `llvm::DILocation::get(ctx, line, col, scope)`. -/
structure DILocation where
  line : Nat
  col : Nat
  scope : DIScope
  deriving DecidableEq, Repr

/-- Backend operands (`llvm::Value*`), named by the instruction computing them. -/
inductive LLValue where
  | const (text : String)
  | arg (i : Nat)
  | alloca (ty name : String)
  | load (ptr : LLValue) (align : Nat)
  | gep (base idx : LLValue)
  | expr (opc : String) (a b : LLValue)
  | call_result (fn : String) (line : Nat)
  deriving DecidableEq, Repr

/-- Instructions that do not end a basic block. -/
inductive Op where
  | value (v : LLValue)
  | store (v ptr : LLValue) (align : Nat)
  | call (fn : String) (args : List LLValue)
  deriving DecidableEq, Repr

/-- Backend instructions: plain operations and the three kinds of terminator. -/
inductive Inst where
  | op (o : Op)
  | br (dest : Nat)
  | cond_br (cond : LLValue) (if_true if_false : Nat)
  | ret_void
  | ret (v : LLValue)
  deriving DecidableEq, Repr

/-- Terminators: unconditional branch, conditional branch, return. -/
def Inst.isTerminator : Inst → Bool
  | .op _ => false
  | .br _ => true
  | .cond_br _ _ _ => true
  | .ret_void => true
  | .ret _ => true

/-- Block ids an instruction branches to. -/
def Inst.targets : Inst → List Nat
  | .br d => [d]
  | .cond_br _ t f => [t, f]
  | _ => []

/-- An inserted instruction together with the debug location the IR builder
attached to it (`none` when no location was current). -/
structure Instruction where
  inst : Inst
  dbg : Option DILocation
  deriving DecidableEq, Repr

/-- A basic block: its name and its instructions in order. -/
structure BasicBlock where
  name : String
  insts : List Instruction
  deriving DecidableEq, Repr

/-- Number of terminator instructions in a block. -/
def BasicBlock.termCount (b : BasicBlock) : Nat :=
  (b.insts.filter (fun i => i.inst.isTerminator)).length

/-- Modelled from the spec: the expression/value classes of `types.hpp`
("an immutable handle pairing a backend-native operand with a compile-time-known
semantic type and a display name").  `name` is what formatting the value prints,
`ops` are the instructions `eval()` inserts at the cursor and `result` is the
operand `eval()` returns. -/
structure Value where
  name : String
  ops : List Op
  result : LLValue
  deriving DecidableEq, Repr

/-- Modelled from the spec: `detail::type<Type>` of `types.hpp`, the semantic
type of a variable: its printed name, its backend type and its alignment. -/
structure TypeInfo where
  name : String
  llvm : String
  alignment : Nat
  deriving DecidableEq, Repr

/-- Apply `f` to the element at position `i`; a position past the end changes nothing. -/
def modifyAt {α : Type} (f : α → α) : List α → Nat → List α
  | [], _ => []
  | x :: xs, 0 => f x :: xs
  | x :: xs, n + 1 => x :: modifyAt f xs n

/-- The block with `xs` appended to its instructions. -/
def BasicBlock.append (b : BasicBlock) (xs : List Instruction) : BasicBlock :=
  { b with insts := b.insts ++ xs }

/-- The block with `xs` put before its instructions. -/
def BasicBlock.prepend (b : BasicBlock) (xs : List Instruction) : BasicBlock :=
  { b with insts := xs ++ b.insts }

/-- Append `xs` to block `c` of a block store. -/
def appendAt (bs : List BasicBlock) (c : Nat) (xs : List Instruction) : List BasicBlock :=
  modifyAt (fun b => b.append xs) bs c

/-- Put `xs` at the beginning of block `c` of a block store. -/
def prependAt (bs : List BasicBlock) (c : Nat) (xs : List Instruction) : List BasicBlock :=
  modifyAt (fun b => b.prepend xs) bs c

/-! ## `source_code_generator` (module_builder.hpp 81-144) -/

/-- The recorder of synthetic source text and debug scopes.  `source_code_` is the
content of the string stream, kept as the list of the outputs `add_line` wrote to
it, in order: an output is the indentation followed by the line text, and the stream
follows each output by a newline.  The text of the stream is `get`; an output is not
necessarily one line of that text, since a line text may itself contain newlines.
`dbg_scopes_` is the scope stack, top first. -/
structure source_code_generator where
  source_code_ : List String
  line_no_ : Nat
  indent_ : Nat
  dbg_file_ : DIScope
  dbg_scopes_ : List DIScope
  deriving DecidableEq, Repr

namespace source_code_generator

/-- Constructor: empty text, line 1, indentation 0, the file scope on the stack. -/
def create (source_file : String) : source_code_generator :=
  { source_code_ := [], line_no_ := 1, indent_ := 0,
    dbg_file_ := DIScope.file source_file,
    dbg_scopes_ := [DIScope.file source_file] }

/-- `debug_scope()`: the top of the scope stack. -/
@[simp]
def debug_scope (g : source_code_generator) : DIScope :=
  match g.dbg_scopes_ with
  | [] => DIScope.undef
  | top :: _ => top

/-- `get_debug_location(line, col = 1)`. -/
@[simp]
def get_debug_location (g : source_code_generator) (line : Nat) : DILocation :=
  { line := line, col := 1, scope := g.debug_scope }

/-- `current_line()`. -/
@[simp]
def current_line (g : source_code_generator) : Nat := g.line_no_

/-- `add_line(line)`: writes the indented line, returns `line_no_++`. -/
@[simp]
def add_line (g : source_code_generator) (line : String) : Nat × source_code_generator :=
  let output := String.mk (List.replicate g.indent_ ' ') ++ line
  (g.line_no_,
    { g with source_code_ := g.source_code_ ++ [output],
             line_no_ := (g.line_no_ + 1) % UNSIGNED_MOD })

/-- `enter_scope()`: `indent_ += 4`, then push a lexical block under the current top. -/
@[simp]
def enter_scope (g : source_code_generator) : source_code_generator :=
  let g1 := { g with indent_ := (g.indent_ + 4) % UNSIGNED_MOD }
  { g1 with dbg_scopes_ :=
      DIScope.lexical_block g1.debug_scope g1.dbg_file_ g1.current_line 1 :: g1.dbg_scopes_ }

/-- `leave_scope()`: `indent_ -= 4` on an `unsigned` (below 4 the subtraction
wraps around `2^32`), then pop the scope stack. -/
@[simp]
def leave_scope (g : source_code_generator) : source_code_generator :=
  { g with indent_ := (if 4 ≤ g.indent_ then g.indent_ - 4 else UNSIGNED_MOD - (4 - g.indent_)),
           dbg_scopes_ := g.dbg_scopes_.tail }

/-- `get()`: the text written so far. -/
def get (g : source_code_generator) : String :=
  String.join (g.source_code_.map (fun l => l ++ "\n"))

end source_code_generator

/-! ## `jit_module_builder` (module_builder.hpp 71-225) -/

/-- `jit_module_builder::loop`: `none` is the null pointer. -/
structure loop where
  continue_block_ : Option Nat
  break_block_ : Option Nat
  deriving DecidableEq, Repr

/-- A debug-visible local registered with `createAutoVariable`. -/
structure DILocalVariable where
  scope : DIScope
  name : String
  line : Nat
  deriving DecidableEq, Repr

/-- The builder state the constructs read and write.  `blocks` are all basic
blocks created so far, `function_blocks` the ids of those attached to the
current function in order, `insert_block` the block the IR builder appends to,
`current_debug_location` the location it attaches to what it inserts. -/
structure jit_module_builder where
  blocks : List BasicBlock
  function_blocks : List Nat
  insert_block : Nat
  current_debug_location : Option DILocation
  dbg_locals : List DILocalVariable
  source_code_ : source_code_generator
  current_loop_ : loop
  exited_block_ : Bool
  deriving DecidableEq, Repr

/-- An assertion that failed: the state reached when it was checked and its text. -/
structure Failure where
  state : jit_module_builder
  assertion : String
  deriving DecidableEq, Repr

/-- Outcome of a construct: the new state, or the assertion that aborted it. -/
abbrev Result := Except Failure jit_module_builder

/-- Host code passed to a construct as a nested block. -/
abbrev Block := jit_module_builder → Result

namespace jit_module_builder

/-- `mb.source_code_.add_line(line)`. -/
@[simp]
def add_line (mb : jit_module_builder) (line : String) : Nat × jit_module_builder :=
  ((mb.source_code_.add_line line).1, { mb with source_code_ := (mb.source_code_.add_line line).2 })

/-- `mb.source_code_.enter_scope()`. -/
@[simp]
def enter_scope (mb : jit_module_builder) : jit_module_builder :=
  { mb with source_code_ := mb.source_code_.enter_scope }

/-- `mb.source_code_.leave_scope()`. -/
@[simp]
def leave_scope (mb : jit_module_builder) : jit_module_builder :=
  { mb with source_code_ := mb.source_code_.leave_scope }

/-- `get_debug_location(line, col = 1)` (module_builder.hpp 180-182). -/
@[simp]
def get_debug_location (mb : jit_module_builder) (line : Nat) : DILocation :=
  mb.source_code_.get_debug_location line

/-- `ir_builder().SetCurrentDebugLocation(loc)`. -/
@[simp]
def SetCurrentDebugLocation (mb : jit_module_builder) (loc : DILocation) : jit_module_builder :=
  { mb with current_debug_location := some loc }

/-- `ir_builder().SetInsertPoint(block)`: append at the end of `block`. -/
@[simp]
def SetInsertPoint (mb : jit_module_builder) (b : Nat) : jit_module_builder :=
  { mb with insert_block := b }

/-- `llvm::BasicBlock::Create(ctx, name)`: a new, empty, detached block. -/
@[simp]
def CreateBlock (mb : jit_module_builder) (name : String) : Nat × jit_module_builder :=
  (mb.blocks.length, { mb with blocks := mb.blocks ++ [{ name := name, insts := [] }] })

/-- `current_function()->getBasicBlockList().push_back(block)`. -/
@[simp]
def push_back (mb : jit_module_builder) (b : Nat) : jit_module_builder :=
  { mb with function_blocks := mb.function_blocks ++ [b] }

/-- `llvm::BasicBlock::Create(ctx, name, function)`: a new block attached at the
end of the function. -/
@[simp]
def CreateBlockIn (mb : jit_module_builder) (name : String) : Nat × jit_module_builder :=
  ((mb.CreateBlock name).1, (mb.CreateBlock name).2.push_back (mb.CreateBlock name).1)

/-- The IR builder inserts `i` at the end of the insertion block, with the
current debug location attached. -/
@[simp]
def Insert (mb : jit_module_builder) (i : Inst) : jit_module_builder :=
  { mb with blocks :=
      (appendAt mb.blocks mb.insert_block [Instruction.mk i mb.current_debug_location]) }

/-- `CreateBr(dest)`. -/
@[simp]
def CreateBr (mb : jit_module_builder) (dest : Nat) : jit_module_builder :=
  mb.Insert (Inst.br dest)

/-- `CreateCondBr(cond, t, f)`. -/
@[simp]
def CreateCondBr (mb : jit_module_builder) (c : LLValue) (t f : Nat) : jit_module_builder :=
  mb.Insert (Inst.cond_br c t f)

/-- `CreateRetVoid()`. -/
@[simp]
def CreateRetVoid (mb : jit_module_builder) : jit_module_builder :=
  mb.Insert Inst.ret_void

/-- `CreateRet(v)`. -/
@[simp]
def CreateRet (mb : jit_module_builder) (v : LLValue) : jit_module_builder :=
  mb.Insert (Inst.ret v)

/-- Insert a list of plain operations, in order. -/
def InsertOps (mb : jit_module_builder) : List Op → jit_module_builder
  | [] => mb
  | o :: os => (mb.Insert (Inst.op o)).InsertOps os

/-- `v.eval()`: inserts the value's instructions and returns its operand. -/
@[simp]
def eval (mb : jit_module_builder) (v : Value) : LLValue × jit_module_builder :=
  (v.result, mb.InsertOps v.ops)

/-- A second IR builder positioned at the beginning of the function's entry
block inserts `i` there, with no debug location.  A function without blocks has
no entry block; nothing is inserted then. -/
def InsertAtEntry (mb : jit_module_builder) (i : Inst) : jit_module_builder :=
  match mb.function_blocks with
  | [] => mb
  | entry :: _ =>
    { mb with blocks := (prependAt mb.blocks entry [Instruction.mk i none]) }

/-- A builder whose function has just been begun: one attached, empty entry
block holding the cursor, an empty recorder for `source_file`, no loop. -/
def fresh (source_file : String) : jit_module_builder :=
  { blocks := [{ name := "entry", insts := [] }],
    function_blocks := [0],
    insert_block := 0,
    current_debug_location := none,
    dbg_locals := [],
    source_code_ := source_code_generator.create source_file,
    current_loop_ := { continue_block_ := none, break_block_ := none },
    exited_block_ := false }

end jit_module_builder

/-- `assert(cond)`: continue with the state when `cond` holds, abort otherwise. -/
def assert_ (cond : Bool) (text : String) (mb : jit_module_builder) : Result :=
  if cond then Except.ok mb else Except.error { state := mb, assertion := text }

/-! ## Variables (variable.hpp) -/

/-- `variable<Type>` (capitalised, `variable` being a keyword): the stack slot (`variable_`, the alloca instruction) and the name. -/
structure Variable where
  variable_ : LLValue
  name_ : String
  type_ : TypeInfo
  deriving DecidableEq, Repr

namespace Variable

/-- `variable(n)` (variable.hpp 37-48): an alloca at the beginning of the entry
block, a declaration line and a debug-visible local; the `insertDeclare` call
is commented out in the source, so no instruction is tagged for the line. -/
def declare (ty : TypeInfo) (n : String) (mb : jit_module_builder) : Variable × jit_module_builder :=
  let slot := LLValue.alloca ty.llvm n
  let mb := mb.InsertAtEntry (Inst.op (Op.value slot))
  let (line_no, mb) := mb.add_line (ty.name ++ " " ++ n ++ ";")
  let mb := { mb with dbg_locals := mb.dbg_locals ++
    [DILocalVariable.mk mb.source_code_.debug_scope n line_no] }
  ({ variable_ := slot, name_ := n, type_ := ty }, mb)

/-- `get()` (variable.hpp 55-58): an aligned load of the slot at the cursor. -/
def get (x : Variable) (mb : jit_module_builder) : Value × jit_module_builder :=
  let v := LLValue.load x.variable_ x.type_.alignment
  ({ name := x.name_, ops := [], result := v }, mb.Insert (Inst.op (Op.value v)))

/-- `set(v)` (variable.hpp 60-66): an assignment line and an aligned store of
`v.eval()`; setting the debug location is commented out in the source. -/
def set (x : Variable) (v : Value) (mb : jit_module_builder) : jit_module_builder :=
  let (_, mb) := mb.add_line (x.name_ ++ " = " ++ v.name ++ ";")
  let (val, mb) := mb.eval v
  mb.Insert (Inst.op (Op.store val x.variable_ x.type_.alignment))

end Variable

/-! ## Statements (statements.hpp) -/

/-- Text of the arguments of a call line: each argument followed by `, `. -/
def format_args : List Value → String
  | [] => ""
  | a :: rest => a.name ++ ", " ++ format_args rest

/-- Evaluate the arguments of a call left to right. -/
def eval_args (mb : jit_module_builder) : List Value → List LLValue × jit_module_builder
  | [] => ([], mb)
  | a :: rest =>
    let (v, mb1) := mb.eval a
    let (vs, mb2) := eval_args mb1 rest
    (v :: vs, mb2)

/-- `call(fn, args...)` (statements.hpp 111-131). -/
def call (fn : String) (args : List Value) (mb : jit_module_builder) : Value × jit_module_builder :=
  let (line_no, mb) := mb.add_line (fn ++ "_ret = " ++ fn ++ "(" ++ format_args args ++ ");")
  let mb := mb.SetCurrentDebugLocation (mb.get_debug_location line_no)
  let (values, mb) := eval_args mb args
  let mb := mb.Insert (Inst.op (Op.call fn values))
  ({ name := fn ++ "_ret", ops := [], result := LLValue.call_result fn line_no }, mb)

/-- What the host code of a condition producer may do before it returns its
value: read a variable or call a function. -/
inductive HostStep where
  | get (x : Variable)
  | call (fn : String) (args : List Value)
  deriving DecidableEq, Repr

/-- Run the value-producing steps of a condition producer, in order. -/
def run_steps (mb : jit_module_builder) : List HostStep → jit_module_builder
  | [] => mb
  | HostStep.get x :: rest => run_steps (x.get mb).2 rest
  | HostStep.call fn args :: rest => run_steps (call fn args mb).2 rest

/-- A condition producer (`ConditionFn`): the value-producing statements it
runs each time it is invoked and the boolean value it returns. -/
structure ConditionFn where
  steps : List HostStep
  value : Value
  deriving DecidableEq, Repr

/-- Invoke a condition producer. -/
def ConditionFn.invoke (c : ConditionFn) (mb : jit_module_builder) : Value × jit_module_builder :=
  (c.value, run_steps mb c.steps)

/-- Local variables of the two-armed `if_` that outlive its nested blocks. -/
structure if_frame where
  false_block : Nat
  merge_block : Nat
  deriving DecidableEq, Repr

/-- Two-armed `if_`, statements.hpp 34-48: up to the call of the true block. -/
def if_open (cnd : Value) (mb : jit_module_builder) : Except Failure (if_frame × jit_module_builder) :=
  let (line_no, mb) := mb.add_line ("if (" ++ cnd.name ++ ") \x7b")
  let mb := mb.SetCurrentDebugLocation (mb.get_debug_location line_no)
  let (true_block, mb) := mb.CreateBlockIn "true_block"
  let (false_block, mb) := mb.CreateBlock "false_block"
  let (merge_block, mb) := mb.CreateBlock "merge_block"
  let (c, mb) := mb.eval cnd
  let mb := mb.CreateCondBr c true_block false_block
  let mb := mb.SetInsertPoint true_block
  let mb := mb.enter_scope
  if mb.exited_block_ then
    Except.error { state := mb, assertion := "!mb.exited_block_" }
  else
    Except.ok ({ false_block := false_block, merge_block := merge_block }, mb)

/-- Two-armed `if_`, statements.hpp 50-63: between the two nested blocks. -/
def if_middle (fr : if_frame) (mb : jit_module_builder) : jit_module_builder :=
  let mb := mb.leave_scope
  let (line_no, mb) := mb.add_line "\x7d else \x7b"
  let mb :=
    if mb.exited_block_ then mb
    else (mb.SetCurrentDebugLocation (mb.get_debug_location line_no)).CreateBr fr.merge_block
  let mb := { mb with exited_block_ := false }
  let mb := mb.push_back fr.false_block
  let mb := mb.SetInsertPoint fr.false_block
  mb.enter_scope

/-- Two-armed `if_`, statements.hpp 65-76: after the false block. -/
def if_close (fr : if_frame) (mb : jit_module_builder) : jit_module_builder :=
  let mb := mb.leave_scope
  let (line_no, mb) := mb.add_line "\x7d"
  let mb :=
    if mb.exited_block_ then mb
    else (mb.SetCurrentDebugLocation (mb.get_debug_location line_no)).CreateBr fr.merge_block
  let mb := { mb with exited_block_ := false }
  let mb := mb.push_back fr.merge_block
  mb.SetInsertPoint fr.merge_block

/-- `if_(cnd, tb, fb)` (statements.hpp 31-77). -/
def if_ (cnd : Value) (tb fb : Block) (mb : jit_module_builder) : Result := do
  let (fr, mb) ← if_open cnd mb
  let mb ← tb mb
  let mb ← fb (if_middle fr mb)
  pure (if_close fr mb)

/-- One-armed `if_`, statements.hpp 82-95: up to the call of the true block.
Returns the merge block. -/
def if_then_open (cnd : Value) (mb : jit_module_builder) : Except Failure (Nat × jit_module_builder) :=
  let (line_no, mb) := mb.add_line ("if (" ++ cnd.name ++ ") \x7b")
  let mb := mb.SetCurrentDebugLocation (mb.get_debug_location line_no)
  let (true_block, mb) := mb.CreateBlockIn "true_block"
  let (merge_block, mb) := mb.CreateBlock "merge_block"
  let (c, mb) := mb.eval cnd
  let mb := mb.CreateCondBr c true_block merge_block
  let mb := mb.SetInsertPoint true_block
  let mb := mb.enter_scope
  if mb.exited_block_ then
    Except.error { state := mb, assertion := "!mb.exited_block_" }
  else
    Except.ok (merge_block, mb)

/-- One-armed `if_`, statements.hpp 97-108: after the true block. -/
def if_then_close (merge_block : Nat) (mb : jit_module_builder) : jit_module_builder :=
  let mb := mb.leave_scope
  let (line_no, mb) := mb.add_line "\x7d"
  let mb :=
    if mb.exited_block_ then mb
    else (mb.SetCurrentDebugLocation (mb.get_debug_location line_no)).CreateBr merge_block
  let mb := { mb with exited_block_ := false }
  let mb := mb.push_back merge_block
  mb.SetInsertPoint merge_block

/-- `if_(cnd, tb)` (statements.hpp 79-109). -/
def if_then (cnd : Value) (tb : Block) (mb : jit_module_builder) : Result := do
  let (merge_block, mb) ← if_then_open cnd mb
  let mb ← tb mb
  pure (if_then_close merge_block mb)

/-- Local variables of `while_` that outlive the body. -/
structure while_frame where
  while_continue : Nat
  while_break : Nat
  parent_loop : loop
  deriving DecidableEq, Repr

/-- `while_`, statements.hpp 170-193: up to the call of the body. -/
def while_open (cnd_fn : ConditionFn) (mb : jit_module_builder) :
    Except Failure (while_frame × jit_module_builder) :=
  let line_no := (mb.source_code_.current_line + 1) % UNSIGNED_MOD
  let mb := mb.SetCurrentDebugLocation (mb.get_debug_location line_no)
  let (cnd, mb) := cnd_fn.invoke mb
  let (_, mb) := mb.add_line ("while (" ++ cnd.name ++ ") \x7b")
  let (while_continue, mb) := mb.CreateBlockIn "while_continue"
  let (while_iteration, mb) := mb.CreateBlock "while_iteration"
  let (while_break, mb) := mb.CreateBlock "while_break"
  let parent_loop := mb.current_loop_
  let mb := { mb with current_loop_ :=
    { continue_block_ := some while_continue, break_block_ := some while_break } }
  let mb := mb.CreateBr while_continue
  let mb := mb.SetInsertPoint while_continue
  let (cnd2, mb) := cnd_fn.invoke mb
  let (c, mb) := mb.eval cnd2
  let mb := mb.CreateCondBr c while_iteration while_break
  let mb := mb.enter_scope
  let mb := mb.push_back while_iteration
  let mb := mb.SetInsertPoint while_iteration
  if mb.exited_block_ then
    Except.error { state := mb, assertion := "!mb.exited_block_" }
  else
    Except.ok ({ while_continue := while_continue, while_break := while_break,
                 parent_loop := parent_loop }, mb)

/-- `while_`, statements.hpp 196-209: after the body. -/
def while_close (fr : while_frame) (mb : jit_module_builder) : jit_module_builder :=
  let mb := mb.leave_scope
  let (line_no, mb) := mb.add_line "\x7d"
  let mb :=
    if mb.exited_block_ then mb
    else (mb.SetCurrentDebugLocation (mb.get_debug_location line_no)).CreateBr fr.while_continue
  let mb := { mb with exited_block_ := false }
  let mb := mb.push_back fr.while_break
  let mb := mb.SetInsertPoint fr.while_break
  { mb with current_loop_ := fr.parent_loop }

/-- `while_(cnd_fn, bdy)` (statements.hpp 167-210). -/
def while_ (cnd_fn : ConditionFn) (bdy : Block) (mb : jit_module_builder) : Result := do
  let (fr, mb) ← while_open cnd_fn mb
  let mb ← bdy mb
  pure (while_close fr mb)

/-- `break_()` (statements.hpp 212-222). -/
def break_ (mb : jit_module_builder) : Result :=
  match mb.current_loop_.break_block_ with
  | none => Except.error { state := mb, assertion := "mb.current_loop_.break_block_" }
  | some break_block =>
    let mb := { mb with exited_block_ := true }
    let (line_no, mb) := mb.add_line "break;"
    let mb := mb.SetCurrentDebugLocation (mb.get_debug_location line_no)
    Except.ok (mb.CreateBr break_block)

/-- `continue_()` (statements.hpp 224-234). -/
def continue_ (mb : jit_module_builder) : Result :=
  match mb.current_loop_.continue_block_ with
  | none => Except.error { state := mb, assertion := "mb.current_loop_.continue_block_" }
  | some continue_block =>
    let mb := { mb with exited_block_ := true }
    let (line_no, mb) := mb.add_line "continue;"
    let mb := mb.SetCurrentDebugLocation (mb.get_debug_location line_no)
    Except.ok (mb.CreateBr continue_block)

/-- `return_()` (statements.hpp 244-250). -/
def return_ (mb : jit_module_builder) : Result :=
  let (line_no, mb) := mb.add_line "return;"
  let mb := { mb with exited_block_ := true }
  let mb := mb.SetCurrentDebugLocation (mb.get_debug_location line_no)
  Except.ok mb.CreateRetVoid

/-- `return_(v)` (statements.hpp 252-258). -/
def return_value (v : Value) (mb : jit_module_builder) : Result :=
  let mb := { mb with exited_block_ := true }
  let (line_no, mb) := mb.add_line ("return " ++ v.name ++ ";")
  let mb := mb.SetCurrentDebugLocation (mb.get_debug_location line_no)
  let (val, mb) := mb.eval v
  Except.ok (mb.CreateRet val)

/-! ## Host programs -/

/-- A host program: a finite sequence and nesting of construct calls. -/
inductive Prog where
  | skip
  | seq (a b : Prog)
  | if_ (c : Value) (tb fb : Prog)
  | if_then (c : Value) (tb : Prog)
  | while_ (c : ConditionFn) (body : Prog)
  | break_
  | continue_
  | return_
  | return_value (v : Value)
  | declare (ty : TypeInfo) (n : String)
  | set (x : Variable) (v : Value)
  | get (x : Variable)
  deriving Repr

/-- Run a host program: every construct call is the function of the same name. -/
def run : Prog → Block
  | Prog.skip => fun mb => Except.ok mb
  | Prog.seq a b => fun mb => run a mb >>= run b
  | Prog.if_ c tb fb => codegen.if_ c (run tb) (run fb)
  | Prog.if_then c tb => codegen.if_then c (run tb)
  | Prog.while_ c body => codegen.while_ c (run body)
  | Prog.break_ => codegen.break_
  | Prog.continue_ => codegen.continue_
  | Prog.return_ => codegen.return_
  | Prog.return_value v => codegen.return_value v
  | Prog.declare ty n => fun mb => Except.ok (Variable.declare ty n mb).2
  | Prog.set x v => fun mb => Except.ok (x.set v mb)
  | Prog.get x => fun mb => Except.ok (x.get mb).2

/-! ## Observations on the block store -/

/-- Number of terminators in a list of instructions. -/
def countTerms (xs : List Instruction) : Nat :=
  (xs.filter (fun i => i.inst.isTerminator)).length

/-- Number of terminators in block `i` of a block store (0 when there is no such block). -/
def termsIn (bs : List BasicBlock) (i : Nat) : Nat :=
  match bs[i]? with
  | some b => b.termCount
  | none => 0

/-- Number of terminators in all blocks of a block store. -/
def totalTerms (bs : List BasicBlock) : Nat :=
  (bs.map BasicBlock.termCount).sum

/-- Instructions of block `i` of a block store (none when there is no such block). -/
def instsAt (bs : List BasicBlock) (i : Nat) : List Instruction :=
  match bs[i]? with
  | some b => b.insts
  | none => []

/-- A list of instructions without terminators. -/
def Plain (xs : List Instruction) : Prop :=
  ∀ x ∈ xs, ∃ o, x.inst = Inst.op o

/-- The operations `os`, each tagged with the debug location `d`. -/
def tagOps (d : Option DILocation) (os : List Op) : List Instruction :=
  os.map (fun o => Instruction.mk (Inst.op o) d)

/-- The instructions `call(fn, args)` inserts at the cursor. -/
def call_insts (fn : String) (args : List Value) (mb : jit_module_builder) : List Instruction :=
  tagOps (some (mb.get_debug_location mb.source_code_.line_no_)) (args.flatMap Value.ops) ++
    [Instruction.mk (Inst.op (Op.call fn (args.map Value.result)))
      (some (mb.get_debug_location mb.source_code_.line_no_))]

/-- The instructions the steps of a condition producer insert at the cursor. -/
def steps_insts (mb : jit_module_builder) : List HostStep → List Instruction
  | [] => []
  | HostStep.get x :: rest =>
    Instruction.mk (Inst.op (Op.value (LLValue.load x.variable_ x.type_.alignment)))
      mb.current_debug_location :: steps_insts (x.get mb).2 rest
  | HostStep.call fn args :: rest =>
    call_insts fn args mb ++ steps_insts (call fn args mb).2 rest

/-- Number of synthetic lines one invocation of a condition producer appends:
one for each `call` among its steps. -/
def steps_lines : List HostStep → Nat
  | [] => 0
  | HostStep.get _ :: rest => steps_lines rest
  | HostStep.call _ _ :: rest => steps_lines rest + 1

/-- The name of block `i` in the state a run of the builder ended in (`none` when the
run failed an assertion or the block does not exist). -/
def finalBlockName (r : Result) (i : Nat) : Option String :=
  match r with
  | Except.ok s => (s.blocks[i]?).map BasicBlock.name
  | Except.error _ => none

/-- The last instruction of block `i` in the state a run of the builder ended in
(`none` when the run failed an assertion or the block is empty or missing). -/
def finalLastInst (r : Result) (i : Nat) : Option Inst :=
  match r with
  | Except.ok s => ((instsAt s.blocks i).getLast?).map Instruction.inst
  | Except.error _ => none

/-! ## Properties of host programs -/

/-- The `exited` flag after a program that does not fail, given the flag `e`
before it: the terminating statements set it, `if_` and `while_` clear it. -/
def exitsAfter (e : Bool) : Prog → Bool
  | Prog.skip => e
  | Prog.seq a b => exitsAfter (exitsAfter e a) b
  | Prog.if_ _ _ _ => false
  | Prog.if_then _ _ => false
  | Prog.while_ _ _ => false
  | Prog.break_ => true
  | Prog.continue_ => true
  | Prog.return_ => true
  | Prog.return_value _ => true
  | Prog.declare _ _ => e
  | Prog.set _ _ => e
  | Prog.get _ => e

/-- Every `break_`, `continue_` and `return_` of the program is called while
`exited` is false, `e` being the flag before the program. -/
def callsOnOpen (e : Bool) : Prog → Bool
  | Prog.skip => true
  | Prog.seq a b => callsOnOpen e a && callsOnOpen (exitsAfter e a) b
  | Prog.if_ _ tb fb => callsOnOpen false tb && callsOnOpen false fb
  | Prog.if_then _ tb => callsOnOpen false tb
  | Prog.while_ _ body => callsOnOpen false body
  | Prog.break_ => !e
  | Prog.continue_ => !e
  | Prog.return_ => !e
  | Prog.return_value _ => !e
  | Prog.declare _ _ => true
  | Prog.set _ _ => true
  | Prog.get _ => true

/-- Number of synthetic lines a program appends. -/
def linesOf : Prog → Nat
  | Prog.skip => 0
  | Prog.seq a b => linesOf a + linesOf b
  | Prog.if_ _ tb fb => 3 + linesOf tb + linesOf fb
  | Prog.if_then _ tb => 2 + linesOf tb
  | Prog.while_ c body => 2 + 2 * steps_lines c.steps + linesOf body
  | Prog.break_ => 1
  | Prog.continue_ => 1
  | Prog.return_ => 1
  | Prog.return_value _ => 1
  | Prog.declare _ _ => 1
  | Prog.set _ _ => 1
  | Prog.get _ => 0

/-- The state `x` has grown out of `s`: blocks were only added, the cursor is
where it was or on a block created since, and the blocks of `s` other than the
one that held the cursor kept their terminators and, the entry block of the
function apart, all their instructions. -/
structure GrowTo (s : jit_module_builder) (bs : List BasicBlock) (fbs : List Nat)
    (c : Nat) : Prop where
  len_le : s.blocks.length ≤ bs.length
  valid : c < bs.length
  cursor : c = s.insert_block ∨ s.blocks.length ≤ c
  terms : ∀ i, i < s.blocks.length → i ≠ s.insert_block → termsIn bs i = termsIn s.blocks i
  fblocks : ∃ l, fbs = s.function_blocks ++ l ∧ ∀ b ∈ l, s.blocks.length ≤ b
  content : ∀ i, i < s.blocks.length → i ≠ s.insert_block → s.function_blocks ≠ [] →
    s.function_blocks.head? ≠ some i → bs[i]? = s.blocks[i]?

/-- `GrowTo` between two states. -/
def Grow (s x : jit_module_builder) : Prop :=
  GrowTo s x.blocks x.function_blocks x.insert_block

/-- The parts of the state that a run leaves as it found them, and the two
that it changes in a way the program text determines. -/
structure Balanced (p : Prog) (s s' : jit_module_builder) : Prop where
  loop : s'.current_loop_ = s.current_loop_
  scopes : s'.source_code_.dbg_scopes_ = s.source_code_.dbg_scopes_
  file : s'.source_code_.dbg_file_ = s.source_code_.dbg_file_
  indent : s.source_code_.indent_ < UNSIGNED_MOD →
    s'.source_code_.indent_ = s.source_code_.indent_
  exited : s'.exited_block_ = exitsAfter s.exited_block_ p
  lines : s'.source_code_.source_code_.length = s.source_code_.source_code_.length + linesOf p


/-- The flag `exited` agrees with the block at the cursor: the cursor is on an
existing block, and `exited` is true exactly when that block has a terminator. -/
def CursorInv (s : jit_module_builder) : Prop :=
  s.insert_block < s.blocks.length ∧
    (s.exited_block_ = true ↔ 0 < termsIn s.blocks s.insert_block)

/-- Block `b` exists, is not at the cursor and has no terminator yet. -/
def Pending (s : jit_module_builder) (b : Nat) : Prop :=
  b < s.blocks.length ∧ b ≠ s.insert_block ∧ termsIn s.blocks b = 0

/-- Construct boundaries: `Boundary p s t` says that while the program `p`
runs from the state `s`, the state `t` is reached right before or right after a
call that does not fail, at any nesting depth.  Sequences and the variable
operations count as calls too. -/
inductive Boundary : Prog → jit_module_builder → jit_module_builder → Prop where
  | before (p : Prog) (s s' : jit_module_builder) :
      run p s = Except.ok s' → Boundary p s s
  | after (p : Prog) (s s' : jit_module_builder) :
      run p s = Except.ok s' → Boundary p s s'
  | seq_left (a b : Prog) (s t : jit_module_builder) :
      Boundary a s t → Boundary (Prog.seq a b) s t
  | seq_right (a b : Prog) (s s1 t : jit_module_builder) :
      run a s = Except.ok s1 → Boundary b s1 t → Boundary (Prog.seq a b) s t
  | if_true (c : Value) (tb fb : Prog) (s : jit_module_builder) (fr : if_frame)
      (s1 t : jit_module_builder) :
      if_open c s = Except.ok (fr, s1) → Boundary tb s1 t → Boundary (Prog.if_ c tb fb) s t
  | if_false (c : Value) (tb fb : Prog) (s : jit_module_builder) (fr : if_frame)
      (s1 s2 t : jit_module_builder) :
      if_open c s = Except.ok (fr, s1) → run tb s1 = Except.ok s2 →
      Boundary fb (if_middle fr s2) t → Boundary (Prog.if_ c tb fb) s t
  | if_then_true (c : Value) (tb : Prog) (s : jit_module_builder) (m : Nat)
      (s1 t : jit_module_builder) :
      if_then_open c s = Except.ok (m, s1) → Boundary tb s1 t → Boundary (Prog.if_then c tb) s t
  | while_body (c : ConditionFn) (body : Prog) (s : jit_module_builder) (fr : while_frame)
      (s1 t : jit_module_builder) :
      while_open c s = Except.ok (fr, s1) → Boundary body s1 t →
      Boundary (Prog.while_ c body) s t

/-- How a construct closes a nested block.  `x` is the state in which the nested
block finished and `y` the state after the construct has closed it with the
synthetic line `text` and, unless the block exited, a branch to `dest` tagged
with the number of that line. -/
structure Closes (x y : jit_module_builder) (dest : Nat) (text : String) : Prop where
  branch : x.exited_block_ = false →
    y.blocks = appendAt x.blocks x.insert_block
      [Instruction.mk (Inst.br dest)
        (some (x.leave_scope.get_debug_location x.source_code_.line_no_))]
  no_branch : x.exited_block_ = true → y.blocks = x.blocks
  line : y.source_code_.source_code_ = x.source_code_.source_code_ ++
    [String.mk (List.replicate x.leave_scope.source_code_.indent_ ' ') ++ text]
  exited : y.exited_block_ = false

/-- Calls of `break_` and `continue_` and the loop they belong to.
`ExitCall p s L t L'` says: while the program `p` runs from the state `s`, in which
`L` holds the targets of the nearest enclosing `while_` whose body is being built
(by the nesting of the program text), a `break_` or `continue_` is called in the
state `t`, and `L'` holds the targets (guard block, break block) of the nearest
`while_` enclosing that call. -/
inductive ExitCall : Prog → jit_module_builder → loop → jit_module_builder → loop → Prop where
  | break_ (s : jit_module_builder) (L : loop) : ExitCall Prog.break_ s L s L
  | continue_ (s : jit_module_builder) (L : loop) : ExitCall Prog.continue_ s L s L
  | seq_left (a b : Prog) (s : jit_module_builder) (L : loop) (t : jit_module_builder)
      (L' : loop) : ExitCall a s L t L' → ExitCall (Prog.seq a b) s L t L'
  | seq_right (a b : Prog) (s s1 : jit_module_builder) (L : loop) (t : jit_module_builder)
      (L' : loop) : run a s = Except.ok s1 → ExitCall b s1 L t L' →
      ExitCall (Prog.seq a b) s L t L'
  | if_true (c : Value) (tb fb : Prog) (s : jit_module_builder) (fr : if_frame)
      (s1 : jit_module_builder) (L : loop) (t : jit_module_builder) (L' : loop) :
      if_open c s = Except.ok (fr, s1) → ExitCall tb s1 L t L' →
      ExitCall (Prog.if_ c tb fb) s L t L'
  | if_false (c : Value) (tb fb : Prog) (s : jit_module_builder) (fr : if_frame)
      (s1 s2 : jit_module_builder) (L : loop) (t : jit_module_builder) (L' : loop) :
      if_open c s = Except.ok (fr, s1) → run tb s1 = Except.ok s2 →
      ExitCall fb (if_middle fr s2) L t L' → ExitCall (Prog.if_ c tb fb) s L t L'
  | if_then_true (c : Value) (tb : Prog) (s : jit_module_builder) (m : Nat)
      (s1 : jit_module_builder) (L : loop) (t : jit_module_builder) (L' : loop) :
      if_then_open c s = Except.ok (m, s1) → ExitCall tb s1 L t L' →
      ExitCall (Prog.if_then c tb) s L t L'
  | while_body (c : ConditionFn) (body : Prog) (s : jit_module_builder) (fr : while_frame)
      (s1 : jit_module_builder) (L : loop) (t : jit_module_builder) (L' : loop) :
      while_open c s = Except.ok (fr, s1) →
      ExitCall body s1
        { continue_block_ := some fr.while_continue, break_block_ := some fr.while_break } t L' →
      ExitCall (Prog.while_ c body) s L t L'

/-- Number of terminator instructions a program inserts: one for each terminating
statement, the conditional branch of each `if_`, the two header branches of each
`while_`, and the closing branch of each nested block that does not end exited. -/
def termsOf : Prog → Nat
  | Prog.skip => 0
  | Prog.seq a b => termsOf a + termsOf b
  | Prog.if_ _ tb fb =>
    1 + termsOf tb + (if exitsAfter false tb then 0 else 1) +
      termsOf fb + (if exitsAfter false fb then 0 else 1)
  | Prog.if_then _ tb => 1 + termsOf tb + (if exitsAfter false tb then 0 else 1)
  | Prog.while_ _ body => 2 + termsOf body + (if exitsAfter false body then 0 else 1)
  | Prog.break_ => 1
  | Prog.continue_ => 1
  | Prog.return_ => 1
  | Prog.return_value _ => 1
  | Prog.declare _ _ => 0
  | Prog.set _ _ => 0
  | Prog.get _ => 0

/-- Number of `while_` calls in a program. -/
def whileCalls : Prog → Nat
  | Prog.seq a b => whileCalls a + whileCalls b
  | Prog.if_ _ tb fb => whileCalls tb + whileCalls fb
  | Prog.if_then _ tb => whileCalls tb
  | Prog.while_ _ body => 1 + whileCalls body
  | _ => 0

/-- Number of nested blocks (arms of `if_`, bodies of `while_`) that end exited. -/
def exitedBlocks : Prog → Nat
  | Prog.seq a b => exitedBlocks a + exitedBlocks b
  | Prog.if_ _ tb fb =>
    exitedBlocks tb + (if exitsAfter false tb then 1 else 0) +
      exitedBlocks fb + (if exitsAfter false fb then 1 else 0)
  | Prog.if_then _ tb => exitedBlocks tb + (if exitsAfter false tb then 1 else 0)
  | Prog.while_ _ body => exitedBlocks body + (if exitsAfter false body then 1 else 0)
  | _ => 0

/-- Number of lines appended by variable declarations, assignments and the calls
made by condition producers. -/
def plainLines : Prog → Nat
  | Prog.seq a b => plainLines a + plainLines b
  | Prog.if_ _ tb fb => plainLines tb + plainLines fb
  | Prog.if_then _ tb => plainLines tb
  | Prog.while_ c body => 2 * steps_lines c.steps + plainLines body
  | Prog.declare _ _ => 1
  | Prog.set _ _ => 1
  | _ => 0

/-- Every terminator in the block store carries a debug location. -/
def AllTagged (bs : List BasicBlock) : Prop :=
  ∀ b ∈ bs, ∀ x ∈ b.insts, x.inst.isTerminator = true → x.dbg ≠ none

/-- Number of instructions in the block store that carry a debug location. -/
def taggedCount (bs : List BasicBlock) : Nat :=
  ((bs.flatMap BasicBlock.insts).filter (fun x => x.dbg.isSome)).length

/-- The program ends with a terminating statement (`break_`, `continue_` or `return_`). -/
def endsExit : Prog → Bool
  | Prog.seq _ b => endsExit b
  | Prog.break_ => true
  | Prog.continue_ => true
  | Prog.return_ => true
  | Prog.return_value _ => true
  | _ => false

/-- The program opens no nested block: it contains no `if_` and no `while_`. -/
def flat : Prog → Bool
  | Prog.seq a b => flat a && flat b
  | Prog.if_ _ _ _ => false
  | Prog.if_then _ _ => false
  | Prog.while_ _ _ => false
  | _ => true

/-- Every instruction of the block store satisfies `P`. -/
def AllInsts (P : Instruction → Prop) (bs : List BasicBlock) : Prop :=
  ∀ b ∈ bs, ∀ x ∈ b.insts, P x

/-- Nothing refers to the block `m`: no instruction branches to it and it is not a
target of the loop context.  Blocks created later get other ids. -/
def NoRef (m : Nat) (s : jit_module_builder) : Prop :=
  m < s.blocks.length ∧ AllInsts (fun x => m ∉ x.inst.targets) s.blocks ∧
    s.current_loop_.continue_block_ ≠ some m ∧ s.current_loop_.break_block_ ≠ some m

/-- The block ids a state mentions are ids of existing blocks: the cursor, the
branch targets, the blocks attached to the function (of which there is at least the
entry block) and the targets of the loop context. -/
structure WellFormed (s : jit_module_builder) : Prop where
  cursor : s.insert_block < s.blocks.length
  targets : AllInsts (fun x => ∀ t ∈ x.inst.targets, t < s.blocks.length) s.blocks
  entry : s.function_blocks ≠ []
  attached : ∀ b ∈ s.function_blocks, b < s.blocks.length
  loop_continue : ∀ b, s.current_loop_.continue_block_ = some b → b < s.blocks.length
  loop_break : ∀ b, s.current_loop_.break_block_ = some b → b < s.blocks.length

/-! ## Small programs used as concrete instances -/

/-- The condition `x > 0` on the first argument; its evaluation inserts one comparison. -/
def demo_cond : Value :=
  { name := "x > 0",
    ops := [Op.value (LLValue.expr "icmp sgt" (LLValue.arg 0) (LLValue.const "0"))],
    result := LLValue.expr "icmp sgt" (LLValue.arg 0) (LLValue.const "0") }

/-- A condition producer that returns `demo_cond` without running anything else. -/
def demo_cond_fn : ConditionFn :=
  { steps := [], value := demo_cond }

/-- `return_(); return_();` -/
def demo_double_return : Prog :=
  Prog.seq Prog.return_ Prog.return_

/-- `if_(x > 0, [] { return_(); }, [] { return_(); });` -/
def demo_if_return : Prog :=
  Prog.if_ demo_cond Prog.return_ Prog.return_

/-- The builder right after a function was begun, writing to `f.c`. -/
def demo_start : jit_module_builder :=
  jit_module_builder.fresh "f.c"

/-- `while_(c, [] { while_(c, [] {}); if_(x > 0, [] { break_(); }, [] {}); });` -/
def demo_nested_loops : Prog :=
  Prog.while_ demo_cond_fn
    (Prog.seq (Prog.while_ demo_cond_fn Prog.skip) (Prog.if_ demo_cond Prog.break_ Prog.skip))

/-- `if_(x > 0, [] { if_(x > 0, [] { return_(); }); return_(); }, [] { return_(); });` -/
def demo_if_nested : Prog :=
  Prog.if_ demo_cond (Prog.seq (Prog.if_then demo_cond Prog.return_) Prog.return_) Prog.return_

/-! ## Blocks a program creates and attaches -/

/-- Number of basic blocks a program creates: three for each two-armed `if_`, two
for each one-armed `if_`, three for each `while_`. -/
def blocksOf : Prog → Nat
  | Prog.seq a b => blocksOf a + blocksOf b
  | Prog.if_ _ tb fb => 3 + blocksOf tb + blocksOf fb
  | Prog.if_then _ tb => 2 + blocksOf tb
  | Prog.while_ _ body => 3 + blocksOf body
  | _ => 0

/-- Names of the blocks a program creates, in the order of creation. -/
def namesOf : Prog → List String
  | Prog.seq a b => namesOf a ++ namesOf b
  | Prog.if_ _ tb fb => ["true_block", "false_block", "merge_block"] ++ namesOf tb ++ namesOf fb
  | Prog.if_then _ tb => ["true_block", "merge_block"] ++ namesOf tb
  | Prog.while_ _ body => ["while_continue", "while_iteration", "while_break"] ++ namesOf body
  | _ => []

/-- The ids of the blocks a program attaches to the function, in the order in which
it attaches them, `n` being the number of blocks that exist when the program starts
(so that the construct at the head creates the blocks `n`, `n + 1`, ...). -/
def attachOrder (n : Nat) : Prog → List Nat
  | Prog.seq a b => attachOrder n a ++ attachOrder (n + blocksOf a) b
  | Prog.if_ _ tb fb =>
    [n] ++ attachOrder (n + 3) tb ++ [n + 1] ++ attachOrder (n + 3 + blocksOf tb) fb ++ [n + 2]
  | Prog.if_then _ tb => [n] ++ attachOrder (n + 2) tb ++ [n + 1]
  | Prog.while_ _ body => [n, n + 1] ++ attachOrder (n + 3) body ++ [n + 2]
  | _ => []
/-! ## Array element access (variable.hpp 83-127) -/
/-! ## Array element access (variable.hpp 84-126) -/

/-- An integral index type (`Value::value_type` of the index operand): `sizeof` in
bytes and `std::is_unsigned_v`. -/
structure IndexType where
  size : Nat
  is_unsigned : Bool
  deriving DecidableEq, Repr

namespace jit_module_builder

/-- The widening of the index in `operator[]` and `setElem` (variable.hpp 90-97 and
116-123).  `if constexpr (sizeof(typename Value::value_type) < sizeof(uint64_t))`
selects, for an index type smaller than `uint64_t`, a branch that is to choose
between `CreateZExt` and `CreateSExt` by
`if constexpr (std::is_unsigned_v<Value::value_type>)`.  The dependent name
`Value::value_type` is written there without `typename`, so it does not name a type
and the branch is ill-formed once it is instantiated: for such an index type the
member function has no instantiation, whatever the signedness, and there is no
result (`none`).  For any other index type the branch is discarded, the index is
used as it is and nothing is inserted. -/
def widen_index (mb : jit_module_builder) (it : IndexType) (idx : LLValue) :
    Option (LLValue × jit_module_builder) :=
  if it.size < 8 then
    none
  else
    some (idx, mb)

end jit_module_builder

namespace Variable

/-- `operator[](v)` (variable.hpp 83-106), `elem` being `detail::type<ElementType>`:
the index is evaluated and widened, the address is computed by `CreateInBoundsGEP`
with the slot and that single index, a stack slot `temporary_storage` is allocated at
the cursor, and the address is loaded with the alignment of the element type; the
value returned is named `test_name`.  There is no result for an index type for which
the widening has none. -/
def index (x : Variable) (elem : TypeInfo) (it : IndexType) (v : Value)
    (mb : jit_module_builder) : Option (Value × jit_module_builder) :=
  let (idx, mb) := mb.eval v
  match mb.widen_index it idx with
  | none => none
  | some (idx, mb) =>
    let elem_ptr := LLValue.gep x.variable_ idx
    let mb := mb.Insert (Inst.op (Op.value elem_ptr))
    let temp_storage := LLValue.alloca elem.llvm "temporary_storage"
    let mb := mb.Insert (Inst.op (Op.value temp_storage))
    let load := LLValue.load elem_ptr elem.alignment
    let mb := mb.Insert (Inst.op (Op.value load))
    some ({ name := "test_name", ops := [], result := load }, mb)

/-- `setElem(idx_v, value_v)` (variable.hpp 112-127), `vty` being
`detail::type<Value::value_type>`: the index is evaluated and widened, the element
address `elem` is computed, and the value is stored with `idx` as the address
operand of `CreateAlignedStore`.  There is no result for an index type for which the
widening has none. -/
def setElem (x : Variable) (vty : TypeInfo) (it : IndexType) (idx_v value_v : Value)
    (mb : jit_module_builder) : Option (Value × jit_module_builder) :=
  let (idx, mb) := mb.eval idx_v
  match mb.widen_index it idx with
  | none => none
  | some (idx, mb) =>
    let elem := LLValue.gep x.variable_ idx
    let mb := mb.Insert (Inst.op (Op.value elem))
    let (val, mb) := mb.eval value_v
    let mb := mb.Insert (Inst.op (Op.store val idx vty.alignment))
    some (value_v, mb)

end Variable

/-! ### Meaning of the backend's address computation -/

/-- Modelled from the spec: an array type `E[N]` of `types.hpp` ("array-of-T"),
with the element type, the size of an element in bytes and the number of elements. -/
structure ArrayInfo where
  elem : TypeInfo
  elem_size : Nat
  count : Nat
  deriving DecidableEq, Repr

/-- Modelled from the spec: the size in bytes of the stack slot of an array variable
("one fixed-size stack slot sized/aligned per its semantic type"): the whole array. -/
def ArrayInfo.slot_size (a : ArrayInfo) : Nat := a.count * a.elem_size

/-- The address a `getelementptr` with the single index `i` computes from a pointer
`base` whose pointee type has `pointee_size` bytes: the index steps over whole
pointees. -/
def gep_address (base pointee_size i : Nat) : Nat := base + i * pointee_size

/-- The address `operator[]` loads from for the index `i`, the slot of the array `a`
being at `base`: `CreateInBoundsGEP(variable_, idx)` applies the single index to
the pointer to the slot, whose pointee is the slot's type. -/
def index_address (a : ArrayInfo) (base i : Nat) : Nat :=
  gep_address base a.slot_size i

/-! ## Construction with an initial value, and what loads and stores mean -/

namespace Variable

/-- `variable(n, v)` (variable.hpp 50): the constructor delegates to `variable(n)`
and then calls `set(v)`. -/
def declare_init (ty : TypeInfo) (n : String) (v : Value) (mb : jit_module_builder) :
    Variable × jit_module_builder :=
  let (x, mb) := declare ty n mb
  (x, x.set v mb)

end Variable

/-- Memory as the generated code sees it: what was last stored through each address
operand (`none` where nothing was stored). -/
abbrev Memory := LLValue → Option LLValue

/-- The effect of one instruction on memory: a store overwrites what its address
operand holds, every other instruction leaves memory as it is. -/
def exec_inst (m : Memory) (i : Instruction) : Memory :=
  match i.inst with
  | Inst.op (Op.store v ptr _) => fun p => if p = ptr then some v else m p
  | _ => m

/-- The effect of a list of instructions on memory, in order. -/
def exec (m : Memory) (xs : List Instruction) : Memory :=
  xs.foldl exec_inst m

/-- The value a load through `ptr` yields in the memory `m`. -/
def load_value (m : Memory) (ptr : LLValue) : Option LLValue := m ptr

/-- The instructions `set(v)` inserts at the cursor, tagged with `d`. -/
def set_insts (x : Variable) (v : Value) (d : Option DILocation) : List Instruction :=
  tagOps d v.ops ++ [Instruction.mk (Inst.op (Op.store v.result x.variable_ x.type_.alignment)) d]

/-- The instruction `get()` inserts at the cursor, tagged with `d`. -/
def get_insts (x : Variable) (d : Option DILocation) : List Instruction :=
  [Instruction.mk (Inst.op (Op.value (LLValue.load x.variable_ x.type_.alignment))) d]

/-- A 32-bit integer type. -/
def demo_int32 : TypeInfo := { name := "i32", llvm := "i32", alignment := 4 }

/-- The array type `int32_t[4]`. -/
def demo_array : ArrayInfo := { elem := demo_int32, elem_size := 4, count := 4 }

/-- A variable `x` of type `i32`. -/
def demo_var : Variable :=
  { variable_ := LLValue.alloca "i32" "x", name_ := "x", type_ := demo_int32 }

/-- A variable `a` of the array type `int32_t[4]`. -/
def demo_array_var : Variable :=
  { variable_ := LLValue.alloca "[4 x i32]" "a", name_ := "a",
    type_ := { name := "i32[4]", llvm := "[4 x i32]", alignment := 4 } }

/-- The index type `int32_t`: 4 bytes, signed. -/
def demo_index32 : IndexType := { size := 4, is_unsigned := false }

/-- The index type `uint32_t`: 4 bytes, unsigned. -/
def demo_uindex32 : IndexType := { size := 4, is_unsigned := true }

/-- The index type `int64_t`: 8 bytes, signed. -/
def demo_index64 : IndexType := { size := 8, is_unsigned := false }

/-- The constant `1`, a value whose evaluation inserts nothing. -/
def demo_one : Value := { name := "1", ops := [], result := LLValue.const "1" }

/-- The constant `7`, a value whose evaluation inserts nothing. -/
def demo_seven : Value := { name := "7", ops := [], result := LLValue.const "7" }

/-! ## `build()` and the registration of the builder (module_builder.hpp 152-212) -/

/-- Modelled from the spec: the parts of `compiler_context` (`compiler_context.hpp`)
that `build()` reads: the JIT session `lljit_`, represented by the modules it holds,
and the name mangler `mangle_`. -/
structure compiler_context where
  lljit_ : List String
  mangle_ : String
  deriving DecidableEq, Repr

/-- Modelled from the spec: `codegen::module` (`module.hpp`), the handle of a compiled
artifact, constructed from the JIT session and the mangler. -/
structure module where
  session_ : List String
  mangle_ : String
  deriving DecidableEq, Repr

/-- What `std::move(mb).build()` hands back and leaves behind: the text written to
the source file and the value it returns. -/
structure build_result where
  source_file : String
  returned : module
  deriving DecidableEq, Repr

/-- `build()` (module_builder.hpp 196-210).  `compileModule` is the backend step
(`compiler_context::compileModule`), which reports success or failure and may update
the context.  Both branches of the `if` on its result are empty in the source (a
`TODO` comment, and a commented-out `llvm_unreachable("Failed to compile")`), and the
`return` after it constructs the module handle from the context. -/
def build (compileModule : compiler_context → jit_module_builder → Bool × compiler_context)
    (compiler_ : compiler_context) (mb : jit_module_builder) : build_result :=
  let ofs := mb.source_code_.get
  let (compiled, compiler_) := compileModule compiler_ mb
  let _ := if compiled then () else ()
  { source_file := ofs,
    returned := { session_ := compiler_.lljit_, mangle_ := compiler_.mangle_ } }

/-- The thread-local `current_builder_`: the builder registered for the thread
(builders are told apart by an id), `none` being the null pointer; `live` lists the
builders that have been constructed and not destroyed. -/
structure thread_state where
  current_builder_ : Option Nat
  live : List Nat
  deriving DecidableEq, Repr

/-- An assertion of the constructor that failed: the thread state then, and its text. -/
structure ctor_failure where
  state : thread_state
  assertion : String
  deriving DecidableEq, Repr

namespace thread_state

/-- A thread on which no builder has been constructed. -/
def init : thread_state := { current_builder_ := none, live := [] }

/-- `current_builder()`. -/
def current_builder (t : thread_state) : Option Nat := t.current_builder_

/-- `register_current_builder(builder)`: `current_builder_.reset(builder)`. -/
def register_current_builder (t : thread_state) (builder : Nat) : thread_state :=
  { t with current_builder_ := some builder }

/-- `deregister_current_builder()`: `current_builder_.release()`. -/
def deregister_current_builder (t : thread_state) : thread_state :=
  { t with current_builder_ := none }

/-- The constructor of `jit_module_builder` (module_builder.hpp 156-166), for the
builder `this`: `assert(current_builder_.get() == nullptr)`, then
`register_current_builder(this)`. -/
def construct (this : Nat) (t : thread_state) : Except ctor_failure thread_state :=
  if t.current_builder_ = none then
    Except.ok ({ t with live := this :: t.live }.register_current_builder this)
  else
    Except.error { state := t, assertion := "jit_module_builder::current_builder_.get() == nullptr" }

/-- The destructor `~jit_module_builder()` of the live builder `this`:
`deregister_current_builder()`. -/
def destroy (this : Nat) (t : thread_state) : thread_state :=
  { t with live := t.live.erase this }.deregister_current_builder

end thread_state

/-- The thread states reachable by constructing builders and destroying live ones. -/
inductive Reachable : thread_state → Prop where
  | init : Reachable thread_state.init
  | construct (this : Nat) (t t' : thread_state) :
      Reachable t → this ∉ t.live → thread_state.construct this t = Except.ok t' → Reachable t'
  | destroy (this : Nat) (t : thread_state) :
      Reachable t → this ∈ t.live → Reachable (thread_state.destroy this t)

/-- A compile step that reports failure and leaves the context as it is. -/
def demo_compile_fails : compiler_context → jit_module_builder → Bool × compiler_context :=
  fun c _ => (false, c)

/-- A compile step that reports success and adds the module to the session. -/
def demo_compile_ok : compiler_context → jit_module_builder → Bool × compiler_context :=
  fun c _ => (true, { c with lljit_ := c.lljit_ ++ ["m"] })

/-- A compiler context with an empty session. -/
def demo_context : compiler_context := { lljit_ := [], mangle_ := "mangle" }

/-! ## Terminating statements -/

/-- What a terminating statement does between the state `s` it is called in and the
state `s'` it returns: `exited` is set; one line, `text` behind the indentation, is
appended; the instructions `pre` of the evaluation of its operand (none when there is
no operand or the operand is already computed) and then the one terminator `t` are
inserted at the cursor, each carrying the number `add_line` returned for that line
and the scope on top of the scope stack; the cursor, the loop context, the scope
stack and the indentation are as before. -/
structure Terminates (s s' : jit_module_builder) (text : String) (pre : List Op)
    (t : Inst) : Prop where
  exited : s'.exited_block_ = true
  line : s'.source_code_.source_code_ = s.source_code_.source_code_ ++
    [String.mk (List.replicate s.source_code_.indent_ ' ') ++ text]
  insts : s'.blocks = appendAt s.blocks s.insert_block
    (tagOps (some (DILocation.mk (s.source_code_.add_line text).1 1 s.source_code_.debug_scope)) pre ++
      [Instruction.mk t
        (some (DILocation.mk (s.source_code_.add_line text).1 1 s.source_code_.debug_scope))])
  terminator : t.isTerminator = true
  cursor : s'.insert_block = s.insert_block
  loop : s'.current_loop_ = s.current_loop_
  scopes : s'.source_code_.dbg_scopes_ = s.source_code_.dbg_scopes_
  indent : s'.source_code_.indent_ = s.source_code_.indent_

/-! ## Sequences of recorder calls -/

namespace source_code_generator

/-- A sequence of `add_line` calls, one for each line of `ls` in order: the numbers
the calls return, and the recorder after the last call. -/
def add_lines (g : source_code_generator) : List String → List Nat × source_code_generator
  | [] => ([], g)
  | l :: ls => ((g.add_line l).1 :: (add_lines (g.add_line l).2 ls).1,
                (add_lines (g.add_line l).2 ls).2)

/-- The number of lines of a text of the stream: the number of newline characters in
it, every line of the text being ended by one. -/
def line_count (text : String) : Nat :=
  text.data.count '\n'

/-- The recorder after `n` calls of `enter_scope`. -/
def enter_scopes (g : source_code_generator) : Nat → source_code_generator
  | 0 => g
  | n + 1 => (enter_scopes g n).enter_scope

end source_code_generator

/-- The recorder states reached from a fresh recorder through `add_line` and the
`enter_scope`/`leave_scope` pairs of `if_` and `while_`, with never more than `B`
nested blocks open.  `Recorded B d g` says that `g` is such a state and that `d`
nested blocks are open in it: each `enter_scope` opens one, and `leave_scope` is
called only to close one that is open. -/
inductive Recorded (B : Nat) : Nat → source_code_generator → Prop where
  | fresh (source_file : String) : Recorded B 0 (source_code_generator.create source_file)
  | add_line (d : Nat) (g : source_code_generator) (line : String) :
      Recorded B d g → Recorded B d (g.add_line line).2
  | enter_scope (d : Nat) (g : source_code_generator) :
      Recorded B d g → d + 1 ≤ B → Recorded B (d + 1) g.enter_scope
  | leave_scope (d : Nat) (g : source_code_generator) :
      Recorded B (d + 1) g → Recorded B d g.leave_scope

/-! ## The text a program writes -/

/-- A line: `text` behind `i` spaces. -/
def indented (i : Nat) (text : String) : String :=
  String.mk (List.replicate i ' ') ++ text

/-- The lines one invocation of a condition producer appends at the indentation
`i`: one for each `call` among its steps. -/
def steps_text (i : Nat) : List HostStep → List String
  | [] => []
  | HostStep.get _ :: rest => steps_text i rest
  | HostStep.call fn args :: rest =>
    indented i (fn ++ "_ret = " ++ fn ++ "(" ++ format_args args ++ ");") :: steps_text i rest

/-- The lines a program appends when it starts with the indentation counter at `i`:
the lines of a nested block are written with the counter at `(i + 4) % 2 ^ 32`. -/
def textAt (i : Nat) : Prog → List String
  | Prog.skip => []
  | Prog.seq a b => textAt i a ++ textAt i b
  | Prog.if_ c tb fb =>
    [indented i ("if (" ++ c.name ++ ") \x7b")] ++ textAt ((i + 4) % UNSIGNED_MOD) tb ++
      [indented i "\x7d else \x7b"] ++ textAt ((i + 4) % UNSIGNED_MOD) fb ++ [indented i "\x7d"]
  | Prog.if_then c tb =>
    [indented i ("if (" ++ c.name ++ ") \x7b")] ++ textAt ((i + 4) % UNSIGNED_MOD) tb ++
      [indented i "\x7d"]
  | Prog.while_ c body =>
    steps_text i c.steps ++ [indented i ("while (" ++ c.value.name ++ ") \x7b")] ++
      steps_text i c.steps ++ textAt ((i + 4) % UNSIGNED_MOD) body ++ [indented i "\x7d"]
  | Prog.break_ => [indented i "break;"]
  | Prog.continue_ => [indented i "continue;"]
  | Prog.return_ => [indented i "return;"]
  | Prog.return_value v => [indented i ("return " ++ v.name ++ ";")]
  | Prog.declare ty n => [indented i (ty.name ++ " " ++ n ++ ";")]
  | Prog.set x v => [indented i (x.name_ ++ " = " ++ v.name ++ ";")]
  | Prog.get _ => []

/-- The lines of a program that starts while `d` nested blocks are open, each
written as its statement text behind `4 * d'` spaces, `d'` being the number of nested
blocks open when it is appended: a construct's own lines have the `d` of the
construct, the lines of its nested blocks one more. -/
def textOf (d : Nat) : Prog → List String
  | Prog.skip => []
  | Prog.seq a b => textOf d a ++ textOf d b
  | Prog.if_ c tb fb =>
    [indented (4 * d) ("if (" ++ c.name ++ ") \x7b")] ++ textOf (d + 1) tb ++
      [indented (4 * d) "\x7d else \x7b"] ++ textOf (d + 1) fb ++ [indented (4 * d) "\x7d"]
  | Prog.if_then c tb =>
    [indented (4 * d) ("if (" ++ c.name ++ ") \x7b")] ++ textOf (d + 1) tb ++
      [indented (4 * d) "\x7d"]
  | Prog.while_ c body =>
    steps_text (4 * d) c.steps ++ [indented (4 * d) ("while (" ++ c.value.name ++ ") \x7b")] ++
      steps_text (4 * d) c.steps ++ textOf (d + 1) body ++ [indented (4 * d) "\x7d"]
  | Prog.break_ => [indented (4 * d) "break;"]
  | Prog.continue_ => [indented (4 * d) "continue;"]
  | Prog.return_ => [indented (4 * d) "return;"]
  | Prog.return_value v => [indented (4 * d) ("return " ++ v.name ++ ";")]
  | Prog.declare ty n => [indented (4 * d) (ty.name ++ " " ++ n ++ ";")]
  | Prog.set x v => [indented (4 * d) (x.name_ ++ " = " ++ v.name ++ ";")]
  | Prog.get _ => []

/-- The nesting depth of a program: the largest number of its nested blocks open
at a time. -/
def depthOf : Prog → Nat
  | Prog.seq a b => max (depthOf a) (depthOf b)
  | Prog.if_ _ tb fb => 1 + max (depthOf tb) (depthOf fb)
  | Prog.if_then _ tb => 1 + depthOf tb
  | Prog.while_ _ body => 1 + depthOf body
  | _ => 0

/-- `n` one-armed `if_(x > 0, ...)` nested in one another around a `return_()`. -/
def deep : Nat → Prog
  | 0 => Prog.return_
  | n + 1 => Prog.if_then demo_cond (deep n)

/-! ## The one-armed `if_` against the two-armed `if_` with an empty false block -/

/-- Block ids after the block `k` is identified with the block `k + 1` and taken out
of the block store: ids up to `k` stay, later ids move down by one. -/
def shift (k i : Nat) : Nat := if i ≤ k then i else i - 1

/-- An instruction with its branch targets renumbered by `f`. -/
def Inst.rename (f : Nat → Nat) : Inst → Inst
  | Inst.br d => Inst.br (f d)
  | Inst.cond_br c t e => Inst.cond_br c (f t) (f e)
  | Inst.op o => Inst.op o
  | Inst.ret_void => Inst.ret_void
  | Inst.ret v => Inst.ret v

/-- An inserted instruction with its branch targets renumbered, its debug location kept. -/
def Instruction.rename (f : Nat → Nat) (x : Instruction) : Instruction :=
  { inst := x.inst.rename f, dbg := x.dbg }

/-- A block with the branch targets of its instructions renumbered. -/
def BasicBlock.rename (f : Nat → Nat) (b : BasicBlock) : BasicBlock :=
  { name := b.name, insts := b.insts.map (Instruction.rename f) }

/-- A loop context with its two targets renumbered. -/
def loop.rename (f : Nat → Nat) (L : loop) : loop :=
  { continue_block_ := L.continue_block_.map f, break_block_ := L.break_block_.map f }

/-- The control-flow graph of the block store `bs` with the block `k` identified with
the block `k + 1`: block `k` is taken out and the ids are renumbered by `shift k`. -/
def merged (k : Nat) (bs : List BasicBlock) : List BasicBlock :=
  (bs.eraseIdx k).map (BasicBlock.rename (shift k))

/-- The states `x` and `y` hold the same code once the block `k` of `x`, which is
detached and not at the cursor, is identified with the block after it: the block
stores coincide after the identification, the attached blocks, the cursor and the
loop context are the same up to the renumbering, and the debug location, the
debug-visible locals, the recorder and the `exited` flag are equal. -/
structure Sim (k : Nat) (x y : jit_module_builder) : Prop where
  valid : k < x.blocks.length
  blocks : y.blocks = merged k x.blocks
  fblocks : y.function_blocks = x.function_blocks.map (shift k)
  detached : k ∉ x.function_blocks
  cursor : y.insert_block = shift k x.insert_block
  cursor_ne : x.insert_block ≠ k
  dbg : y.current_debug_location = x.current_debug_location
  locals : y.dbg_locals = x.dbg_locals
  source : y.source_code_ = x.source_code_
  loop : y.current_loop_ = x.current_loop_.rename (shift k)
  exited : y.exited_block_ = x.exited_block_

/-- Whether a program runs without an assertion failure, given the `exited` flag
and whether the loop context has a break block and a continuation block when it
starts. -/
def succeeds (e brk cnt : Bool) : Prog → Bool
  | Prog.skip => true
  | Prog.seq a b => succeeds e brk cnt a && succeeds (exitsAfter e a) brk cnt b
  | Prog.if_ _ tb fb => !e && succeeds false brk cnt tb && succeeds false brk cnt fb
  | Prog.if_then _ tb => !e && succeeds false brk cnt tb
  | Prog.while_ _ body => !e && succeeds false true true body
  | Prog.break_ => brk
  | Prog.continue_ => cnt
  | Prog.return_ => true
  | Prog.return_value _ => true
  | Prog.declare _ _ => true
  | Prog.set _ _ => true
  | Prog.get _ => true

/-! ## Where a program leaves the cursor, and the terminator it ends with -/

/-- The block that holds the cursor when a program returns, `n` being the number of
blocks that exist and `c` the block at the cursor when it starts: the merge block of
the last `if_`, respectively the break block of the last `while_`, of the statement
sequence, and `c` when the sequence has neither. -/
def exitBlock (n c : Nat) : Prog → Nat
  | Prog.seq a b => exitBlock (n + blocksOf a) (exitBlock n c a) b
  | Prog.if_ _ _ _ => n + 2
  | Prog.if_then _ _ => n + 1
  | Prog.while_ _ _ => n + 2
  | _ => c

/-- The terminator that the statement ending a program inserts, `L` being the loop
context: the branch to the break block or to the continuation block, the void return
or the return of the value (`none` when the program does not end with a terminating
statement, or the loop target is null). -/
def endInst (L : loop) : Prog → Option Inst
  | Prog.seq _ b => endInst L b
  | Prog.break_ => L.break_block_.map Inst.br
  | Prog.continue_ => L.continue_block_.map Inst.br
  | Prog.return_ => some Inst.ret_void
  | Prog.return_value v => some (Inst.ret v.result)
  | _ => none

/-! ## Lemmas on the block store -/

theorem length_modifyAt {α : Type} (f : α → α) (l : List α) (i : Nat) :
    (modifyAt f l i).length = l.length := by
  induction l generalizing i with
  | nil => rfl
  | cons x xs ih => cases i <;> simp [modifyAt, ih]

theorem getElem?_modifyAt {α : Type} (f : α → α) (l : List α) (i j : Nat) :
    (modifyAt f l i)[j]? = if i = j then (l[j]?).map f else l[j]? := by
  induction l generalizing i j with
  | nil => simp [modifyAt]
  | cons x xs ih =>
    cases i with
    | zero => cases j <;> simp [modifyAt]
    | succ i => cases j <;> simp [modifyAt, ih]

theorem modifyAt_modifyAt {α : Type} (f g : α → α) (l : List α) (i : Nat) :
    modifyAt f (modifyAt g l i) i = modifyAt (fun x => f (g x)) l i := by
  induction l generalizing i with
  | nil => rfl
  | cons x xs ih => cases i <;> simp [modifyAt, ih]

theorem modifyAt_append_left {α : Type} (f : α → α) (l r : List α) (i : Nat) (h : i < l.length) :
    modifyAt f (l ++ r) i = modifyAt f l i ++ r := by
  induction l generalizing i with
  | nil => simp at h
  | cons x xs ih =>
    cases i with
    | zero => simp [modifyAt]
    | succ i => simp [modifyAt]; exact ih i (by simpa using h)

@[simp] theorem length_appendAt (bs : List BasicBlock) (c : Nat) (xs : List Instruction) :
    (appendAt bs c xs).length = bs.length := length_modifyAt _ _ _

@[simp] theorem length_prependAt (bs : List BasicBlock) (c : Nat) (xs : List Instruction) :
    (prependAt bs c xs).length = bs.length := length_modifyAt _ _ _

theorem getElem?_appendAt (bs : List BasicBlock) (c i : Nat) (xs : List Instruction) :
    (appendAt bs c xs)[i]? = if c = i then (bs[i]?).map (fun b => b.append xs) else bs[i]? :=
  getElem?_modifyAt _ _ _ _

theorem getElem?_prependAt (bs : List BasicBlock) (c i : Nat) (xs : List Instruction) :
    (prependAt bs c xs)[i]? = if c = i then (bs[i]?).map (fun b => b.prepend xs) else bs[i]? :=
  getElem?_modifyAt _ _ _ _

@[simp] theorem appendAt_nil (bs : List BasicBlock) (c : Nat) : appendAt bs c [] = bs := by
  apply List.ext_getElem?
  intro i
  rw [getElem?_appendAt]
  split
  · cases bs[i]? <;> simp [BasicBlock.append]
  · rfl

@[simp] theorem appendAt_appendAt (bs : List BasicBlock) (c : Nat) (xs ys : List Instruction) :
    appendAt (appendAt bs c xs) c ys = appendAt bs c (xs ++ ys) := by
  unfold appendAt
  rw [modifyAt_modifyAt]
  simp [BasicBlock.append, List.append_assoc]

@[simp] theorem countTerms_nil : countTerms [] = 0 := rfl

@[simp] theorem countTerms_append (xs ys : List Instruction) :
    countTerms (xs ++ ys) = countTerms xs + countTerms ys := by
  simp [countTerms, List.filter_append]

@[simp] theorem countTerms_cons (x : Instruction) (xs : List Instruction) :
    countTerms (x :: xs) = (if x.inst.isTerminator = true then 1 else 0) + countTerms xs := by
  by_cases h : x.inst.isTerminator = true
  · simp [countTerms, List.filter_cons, h]; omega
  · simp [countTerms, List.filter_cons, h]

theorem countTerms_plain {xs : List Instruction} (h : Plain xs) : countTerms xs = 0 := by
  induction xs with
  | nil => rfl
  | cons x xs ih =>
    obtain ⟨o, ho⟩ := h x (List.mem_cons_self _ _)
    have := ih (fun y hy => h y (List.mem_cons_of_mem _ hy))
    simp [ho, Inst.isTerminator, this]

theorem plain_nil : Plain [] := fun _ h => by simp at h

theorem plain_append {xs ys : List Instruction} (hx : Plain xs) (hy : Plain ys) : Plain (xs ++ ys) := by
  intro x h
  rcases List.mem_append.mp h with h | h
  · exact hx x h
  · exact hy x h

theorem plain_tagOps (d : Option DILocation) (os : List Op) : Plain (tagOps d os) := by
  intro x h
  simp only [tagOps, List.mem_map] at h
  obtain ⟨o, _, rfl⟩ := h
  exact ⟨o, rfl⟩

theorem plain_single_op (o : Op) (d : Option DILocation) :
    Plain [Instruction.mk (Inst.op o) d] := by
  intro x hx
  simp at hx
  exact ⟨o, by rw [hx]⟩

@[simp] theorem countTerms_tagOps (d : Option DILocation) (os : List Op) :
    countTerms (tagOps d os) = 0 := countTerms_plain (plain_tagOps d os)

theorem termsIn_ge (bs : List BasicBlock) (i : Nat) (h : bs.length ≤ i) : termsIn bs i = 0 := by
  unfold termsIn
  rw [List.getElem?_eq_none h]

theorem termsIn_append_left (bs news : List BasicBlock) (i : Nat) (h : i < bs.length) :
    termsIn (bs ++ news) i = termsIn bs i := by
  unfold termsIn
  rw [List.getElem?_append_left h]

theorem termsIn_appendAt (bs : List BasicBlock) (xs : List Instruction) (c i : Nat) :
    termsIn (appendAt bs c xs) i =
      termsIn bs i + (if i = c ∧ c < bs.length then countTerms xs else 0) := by
  unfold termsIn
  rw [getElem?_appendAt]
  by_cases hic : c = i
  · subst hic
    by_cases hlt : c < bs.length
    · rw [List.getElem?_eq_getElem hlt]
      simp [BasicBlock.termCount, BasicBlock.append, List.filter_append, hlt, countTerms]
    · rw [List.getElem?_eq_none (Nat.le_of_not_lt hlt)]
      simp [hlt]
  · have : ¬ (i = c) := fun h => hic h.symm
    simp [hic, this]

theorem termsIn_prependAt (bs : List BasicBlock) (xs : List Instruction) (c i : Nat)
    (h : Plain xs) : termsIn (prependAt bs c xs) i = termsIn bs i := by
  unfold termsIn
  rw [getElem?_prependAt]
  have h0 := countTerms_plain h
  unfold countTerms at h0
  by_cases hic : c = i
  · subst hic
    cases hb : bs[c]? <;> simp [BasicBlock.termCount, BasicBlock.prepend, List.filter_append, h0]
  · simp [hic]

theorem instsAt_ge (bs : List BasicBlock) (i : Nat) (h : bs.length ≤ i) : instsAt bs i = [] := by
  unfold instsAt
  rw [List.getElem?_eq_none h]

theorem instsAt_appendAt (bs : List BasicBlock) (xs : List Instruction) (c i : Nat) :
    instsAt (appendAt bs c xs) i =
      instsAt bs i ++ (if i = c ∧ c < bs.length then xs else []) := by
  unfold instsAt
  rw [getElem?_appendAt]
  by_cases hic : c = i
  · subst hic
    by_cases hlt : c < bs.length
    · rw [List.getElem?_eq_getElem hlt]
      simp [BasicBlock.append, hlt]
    · rw [List.getElem?_eq_none (Nat.le_of_not_lt hlt)]
      simp [hlt]
  · have : ¬ (i = c) := fun h => hic h.symm
    simp [hic, this]

theorem termsIn_eq_countTerms (bs : List BasicBlock) (i : Nat) :
    termsIn bs i = countTerms (instsAt bs i) := by
  unfold termsIn instsAt
  cases bs[i]? <;> simp [BasicBlock.termCount, countTerms]

theorem totalTerms_append (bs news : List BasicBlock) :
    totalTerms (bs ++ news) = totalTerms bs + totalTerms news := by
  simp [totalTerms]

theorem totalTerms_appendAt (bs : List BasicBlock) (xs : List Instruction) (c : Nat) :
    totalTerms (appendAt bs c xs) = totalTerms bs + (if c < bs.length then countTerms xs else 0) := by
  unfold appendAt
  induction bs generalizing c with
  | nil => simp [modifyAt, totalTerms]
  | cons b bs ih =>
    cases c with
    | zero =>
      simp [modifyAt, totalTerms, BasicBlock.termCount, BasicBlock.append, List.filter_append, countTerms]
      omega
    | succ c =>
      have := ih c
      simp only [totalTerms, modifyAt, List.map_cons, List.sum_cons, List.length_cons] at this ⊢
      rw [this]
      by_cases hc : c < bs.length
      · simp [hc]; omega
      · simp [hc]

theorem totalTerms_prependAt (bs : List BasicBlock) (xs : List Instruction) (c : Nat)
    (h : Plain xs) : totalTerms (prependAt bs c xs) = totalTerms bs := by
  have h0 := countTerms_plain h
  unfold countTerms at h0
  unfold prependAt
  induction bs generalizing c with
  | nil => simp [modifyAt, totalTerms]
  | cons b bs ih =>
    cases c with
    | zero =>
      simp [modifyAt, totalTerms, BasicBlock.termCount, BasicBlock.prepend, List.filter_append, h0]
    | succ c =>
      have := ih c
      simp only [totalTerms, modifyAt, List.map_cons, List.sum_cons] at this ⊢
      rw [this]

theorem termsIn_append_right (bs news : List BasicBlock) (i : Nat) (h : bs.length ≤ i) :
    termsIn (bs ++ news) i = termsIn news (i - bs.length) := by
  unfold termsIn
  rw [List.getElem?_append_right h]

theorem termsIn_append_empty (bs news : List BasicBlock) (i : Nat)
    (h : ∀ b ∈ news, b.insts = []) : termsIn (bs ++ news) i = termsIn bs i := by
  rcases Nat.lt_or_ge i bs.length with hi | hi
  · exact termsIn_append_left bs news i hi
  · rw [termsIn_append_right bs news i hi, termsIn_ge bs i hi]
    unfold termsIn
    cases hb : news[i - bs.length]? with
    | none => rfl
    | some b =>
      have := h b (List.getElem?_mem hb)
      simp [BasicBlock.termCount, this]

/-! ## What the value-producing helpers do -/

theorem InsertOps_eq (mb : jit_module_builder) (os : List Op) :
    mb.InsertOps os =
      { mb with blocks :=
          (appendAt mb.blocks mb.insert_block (tagOps mb.current_debug_location os)) } := by
  induction os generalizing mb with
  | nil => simp [jit_module_builder.InsertOps, tagOps]
  | cons o os ih => simp [jit_module_builder.InsertOps, ih, tagOps]

theorem InsertOps_append (mb : jit_module_builder) (xs ys : List Op) :
    mb.InsertOps (xs ++ ys) = (mb.InsertOps xs).InsertOps ys := by
  induction xs generalizing mb with
  | nil => rfl
  | cons o os ih => simp [jit_module_builder.InsertOps, ih]

theorem eval_args_eq (mb : jit_module_builder) (args : List Value) :
    eval_args mb args = (args.map Value.result, mb.InsertOps (args.flatMap Value.ops)) := by
  induction args generalizing mb with
  | nil => rfl
  | cons a rest ih =>
    simp [eval_args, ih, List.flatMap_cons, InsertOps_append]

theorem call_eq (fn : String) (args : List Value) (mb : jit_module_builder) :
    (call fn args mb).2 =
      { mb with
        blocks := (appendAt mb.blocks mb.insert_block (call_insts fn args mb)),
        current_debug_location := some (mb.get_debug_location mb.source_code_.line_no_),
        source_code_ :=
          (mb.source_code_.add_line (fn ++ "_ret = " ++ fn ++ "(" ++ format_args args ++ ");")).2 } := by
  simp [call, eval_args_eq, InsertOps_eq, call_insts]

theorem plain_call_insts (fn : String) (args : List Value) (mb : jit_module_builder) :
    Plain (call_insts fn args mb) := by
  unfold call_insts
  apply plain_append (plain_tagOps _ _)
  intro x hx
  simp at hx
  exact ⟨_, by rw [hx]⟩

theorem plain_steps_insts (mb : jit_module_builder) (steps : List HostStep) :
    Plain (steps_insts mb steps) := by
  induction steps generalizing mb with
  | nil => exact plain_nil
  | cons st rest ih =>
    cases st with
    | get x =>
      intro y hy
      simp only [steps_insts, List.mem_cons] at hy
      rcases hy with rfl | hy
      · exact ⟨_, rfl⟩
      · exact ih _ y hy
    | call fn args =>
      exact plain_append (plain_call_insts fn args mb) (ih _)

@[simp] theorem run_steps_insert_block (mb : jit_module_builder) (steps : List HostStep) :
    (run_steps mb steps).insert_block = mb.insert_block := by
  induction steps generalizing mb with
  | nil => rfl
  | cons st rest ih => cases st <;> simp [run_steps, ih, call_eq, Variable.get]

@[simp] theorem run_steps_exited (mb : jit_module_builder) (steps : List HostStep) :
    (run_steps mb steps).exited_block_ = mb.exited_block_ := by
  induction steps generalizing mb with
  | nil => rfl
  | cons st rest ih => cases st <;> simp [run_steps, ih, call_eq, Variable.get]

@[simp] theorem run_steps_loop (mb : jit_module_builder) (steps : List HostStep) :
    (run_steps mb steps).current_loop_ = mb.current_loop_ := by
  induction steps generalizing mb with
  | nil => rfl
  | cons st rest ih => cases st <;> simp [run_steps, ih, call_eq, Variable.get]

@[simp] theorem run_steps_function_blocks (mb : jit_module_builder) (steps : List HostStep) :
    (run_steps mb steps).function_blocks = mb.function_blocks := by
  induction steps generalizing mb with
  | nil => rfl
  | cons st rest ih => cases st <;> simp [run_steps, ih, call_eq, Variable.get]

@[simp] theorem run_steps_dbg_locals (mb : jit_module_builder) (steps : List HostStep) :
    (run_steps mb steps).dbg_locals = mb.dbg_locals := by
  induction steps generalizing mb with
  | nil => rfl
  | cons st rest ih => cases st <;> simp [run_steps, ih, call_eq, Variable.get]

@[simp] theorem run_steps_indent (mb : jit_module_builder) (steps : List HostStep) :
    (run_steps mb steps).source_code_.indent_ = mb.source_code_.indent_ := by
  induction steps generalizing mb with
  | nil => rfl
  | cons st rest ih => cases st <;> simp [run_steps, ih, call_eq, Variable.get]

@[simp] theorem run_steps_dbg_scopes (mb : jit_module_builder) (steps : List HostStep) :
    (run_steps mb steps).source_code_.dbg_scopes_ = mb.source_code_.dbg_scopes_ := by
  induction steps generalizing mb with
  | nil => rfl
  | cons st rest ih => cases st <;> simp [run_steps, ih, call_eq, Variable.get]

@[simp] theorem run_steps_dbg_file (mb : jit_module_builder) (steps : List HostStep) :
    (run_steps mb steps).source_code_.dbg_file_ = mb.source_code_.dbg_file_ := by
  induction steps generalizing mb with
  | nil => rfl
  | cons st rest ih => cases st <;> simp [run_steps, ih, call_eq, Variable.get]

@[simp] theorem run_steps_lines (mb : jit_module_builder) (steps : List HostStep) :
    (run_steps mb steps).source_code_.source_code_.length =
      mb.source_code_.source_code_.length + steps_lines steps := by
  induction steps generalizing mb with
  | nil => rfl
  | cons st rest ih =>
    cases st <;> simp [run_steps, ih, call_eq, Variable.get, steps_lines]
    omega

@[simp] theorem run_steps_blocks (mb : jit_module_builder) (steps : List HostStep) :
    (run_steps mb steps).blocks = appendAt mb.blocks mb.insert_block (steps_insts mb steps) := by
  induction steps generalizing mb with
  | nil => simp [run_steps, steps_insts]
  | cons st rest ih =>
    cases st <;> simp [run_steps, ih, call_eq, Variable.get, steps_insts]

@[simp] theorem countTerms_steps_insts (mb : jit_module_builder) (steps : List HostStep) :
    countTerms (steps_insts mb steps) = 0 := countTerms_plain (plain_steps_insts mb steps)

/-! ## Normal forms of the constructs -/

/-- The three blocks a two-armed `if_` creates. -/
theorem if_open_ok {c : Value} {s : jit_module_builder} {fr : if_frame} {s1 : jit_module_builder}
    (h : if_open c s = Except.ok (fr, s1)) :
    s.exited_block_ = false ∧
    fr = { false_block := s.blocks.length + 1, merge_block := s.blocks.length + 2 } ∧
    s1 = { s with
      blocks := (appendAt
        (s.blocks ++ [{ name := "true_block", insts := [] }, { name := "false_block", insts := [] },
          { name := "merge_block", insts := [] }])
        s.insert_block
        (tagOps (some (s.get_debug_location s.source_code_.line_no_)) c.ops ++
          [Instruction.mk (Inst.cond_br c.result s.blocks.length (s.blocks.length + 1))
            (some (s.get_debug_location s.source_code_.line_no_))])),
      function_blocks := s.function_blocks ++ [s.blocks.length],
      insert_block := s.blocks.length,
      current_debug_location := some (s.get_debug_location s.source_code_.line_no_),
      source_code_ := (s.source_code_.add_line ("if (" ++ c.name ++ ") \x7b")).2.enter_scope } := by
  simp only [if_open] at h
  split at h
  · exact absurd h (by simp)
  · rename_i hex
    simp at h
    obtain ⟨rfl, rfl⟩ := h
    simp [InsertOps_eq] at hex ⊢
    exact hex

/-- Instructions a closing phase appends: a branch to `dest` unless the block exited. -/
theorem if_middle_eq (fr : if_frame) (s : jit_module_builder) :
    if_middle fr s = { s with
      blocks := (appendAt s.blocks s.insert_block
        (if s.exited_block_ = true then []
         else [Instruction.mk (Inst.br fr.merge_block)
           (some (s.leave_scope.get_debug_location s.source_code_.line_no_))])),
      function_blocks := s.function_blocks ++ [fr.false_block],
      insert_block := fr.false_block,
      current_debug_location :=
        (if s.exited_block_ = true then s.current_debug_location
         else some (s.leave_scope.get_debug_location s.source_code_.line_no_)),
      source_code_ := (s.source_code_.leave_scope.add_line "\x7d else \x7b").2.enter_scope,
      exited_block_ := false } := by
  cases hex : s.exited_block_ <;> simp [if_middle, hex]

theorem if_close_eq (fr : if_frame) (s : jit_module_builder) :
    if_close fr s = { s with
      blocks := (appendAt s.blocks s.insert_block
        (if s.exited_block_ = true then []
         else [Instruction.mk (Inst.br fr.merge_block)
           (some (s.leave_scope.get_debug_location s.source_code_.line_no_))])),
      function_blocks := s.function_blocks ++ [fr.merge_block],
      insert_block := fr.merge_block,
      current_debug_location :=
        (if s.exited_block_ = true then s.current_debug_location
         else some (s.leave_scope.get_debug_location s.source_code_.line_no_)),
      source_code_ := (s.source_code_.leave_scope.add_line "\x7d").2,
      exited_block_ := false } := by
  cases hex : s.exited_block_ <;> simp [if_close, hex]

theorem if_then_open_ok {c : Value} {s : jit_module_builder} {m : Nat} {s1 : jit_module_builder}
    (h : if_then_open c s = Except.ok (m, s1)) :
    s.exited_block_ = false ∧
    m = s.blocks.length + 1 ∧
    s1 = { s with
      blocks := (appendAt
        (s.blocks ++ [{ name := "true_block", insts := [] }, { name := "merge_block", insts := [] }])
        s.insert_block
        (tagOps (some (s.get_debug_location s.source_code_.line_no_)) c.ops ++
          [Instruction.mk (Inst.cond_br c.result s.blocks.length (s.blocks.length + 1))
            (some (s.get_debug_location s.source_code_.line_no_))])),
      function_blocks := s.function_blocks ++ [s.blocks.length],
      insert_block := s.blocks.length,
      current_debug_location := some (s.get_debug_location s.source_code_.line_no_),
      source_code_ := (s.source_code_.add_line ("if (" ++ c.name ++ ") \x7b")).2.enter_scope } := by
  simp only [if_then_open] at h
  split at h
  · exact absurd h (by simp)
  · rename_i hex
    simp at h
    obtain ⟨rfl, rfl⟩ := h
    simp [InsertOps_eq] at hex ⊢
    exact hex

theorem if_then_close_eq (m : Nat) (s : jit_module_builder) :
    if_then_close m s = { s with
      blocks := (appendAt s.blocks s.insert_block
        (if s.exited_block_ = true then []
         else [Instruction.mk (Inst.br m)
           (some (s.leave_scope.get_debug_location s.source_code_.line_no_))])),
      function_blocks := s.function_blocks ++ [m],
      insert_block := m,
      current_debug_location :=
        (if s.exited_block_ = true then s.current_debug_location
         else some (s.leave_scope.get_debug_location s.source_code_.line_no_)),
      source_code_ := (s.source_code_.leave_scope.add_line "\x7d").2,
      exited_block_ := false } := by
  cases hex : s.exited_block_ <;> simp [if_then_close, hex]

theorem while_close_eq (fr : while_frame) (s : jit_module_builder) :
    while_close fr s = { s with
      blocks := (appendAt s.blocks s.insert_block
        (if s.exited_block_ = true then []
         else [Instruction.mk (Inst.br fr.while_continue)
           (some (s.leave_scope.get_debug_location s.source_code_.line_no_))])),
      function_blocks := s.function_blocks ++ [fr.while_break],
      insert_block := fr.while_break,
      current_debug_location :=
        (if s.exited_block_ = true then s.current_debug_location
         else some (s.leave_scope.get_debug_location s.source_code_.line_no_)),
      source_code_ := (s.source_code_.leave_scope.add_line "\x7d").2,
      current_loop_ := fr.parent_loop,
      exited_block_ := false } := by
  cases hex : s.exited_block_ <;> simp [while_close, hex]

theorem break_ok {s s1 : jit_module_builder} (h : break_ s = Except.ok s1) :
    ∃ b, s.current_loop_.break_block_ = some b ∧
    s1 = { s with
      blocks := (appendAt s.blocks s.insert_block
        [Instruction.mk (Inst.br b) (some (s.get_debug_location s.source_code_.line_no_))]),
      current_debug_location := some (s.get_debug_location s.source_code_.line_no_),
      source_code_ := (s.source_code_.add_line "break;").2,
      exited_block_ := true } := by
  unfold break_ at h
  split at h
  · exact absurd h (by simp)
  · rename_i b hb
    refine ⟨b, hb, ?_⟩
    simp at h
    subst h
    simp

theorem continue_ok {s s1 : jit_module_builder} (h : continue_ s = Except.ok s1) :
    ∃ b, s.current_loop_.continue_block_ = some b ∧
    s1 = { s with
      blocks := (appendAt s.blocks s.insert_block
        [Instruction.mk (Inst.br b) (some (s.get_debug_location s.source_code_.line_no_))]),
      current_debug_location := some (s.get_debug_location s.source_code_.line_no_),
      source_code_ := (s.source_code_.add_line "continue;").2,
      exited_block_ := true } := by
  unfold continue_ at h
  split at h
  · exact absurd h (by simp)
  · rename_i b hb
    refine ⟨b, hb, ?_⟩
    simp at h
    subst h
    simp

theorem return_eq (s : jit_module_builder) :
    return_ s = Except.ok { s with
      blocks := (appendAt s.blocks s.insert_block
        [Instruction.mk Inst.ret_void (some (s.get_debug_location s.source_code_.line_no_))]),
      current_debug_location := some (s.get_debug_location s.source_code_.line_no_),
      source_code_ := (s.source_code_.add_line "return;").2,
      exited_block_ := true } := by
  simp [return_]

theorem return_value_eq (v : Value) (s : jit_module_builder) :
    return_value v s = Except.ok { s with
      blocks := (appendAt s.blocks s.insert_block
        (tagOps (some (s.get_debug_location s.source_code_.line_no_)) v.ops ++
          [Instruction.mk (Inst.ret v.result) (some (s.get_debug_location s.source_code_.line_no_))])),
      current_debug_location := some (s.get_debug_location s.source_code_.line_no_),
      source_code_ := (s.source_code_.add_line ("return " ++ v.name ++ ";")).2,
      exited_block_ := true } := by
  simp [return_value, InsertOps_eq]

theorem declare_eq (ty : TypeInfo) (n : String) (s : jit_module_builder) :
    (Variable.declare ty n s).2 = { s with
      blocks := (s.InsertAtEntry (Inst.op (Op.value (LLValue.alloca ty.llvm n)))).blocks,
      dbg_locals := s.dbg_locals ++
        [DILocalVariable.mk s.source_code_.debug_scope n s.source_code_.line_no_],
      source_code_ := (s.source_code_.add_line (ty.name ++ " " ++ n ++ ";")).2 } := by
  simp only [Variable.declare]
  unfold jit_module_builder.InsertAtEntry
  cases h : s.function_blocks <;> simp [h]

theorem set_eq (x : Variable) (v : Value) (s : jit_module_builder) :
    x.set v s = { s with
      blocks := (appendAt s.blocks s.insert_block
        (tagOps s.current_debug_location v.ops ++
          [Instruction.mk (Inst.op (Op.store v.result x.variable_ x.type_.alignment))
            s.current_debug_location])),
      source_code_ := (s.source_code_.add_line (x.name_ ++ " = " ++ v.name ++ ";")).2 } := by
  simp [Variable.set, InsertOps_eq]

theorem get_eq (x : Variable) (s : jit_module_builder) :
    (x.get s).2 = { s with
      blocks := (appendAt s.blocks s.insert_block
        [Instruction.mk (Inst.op (Op.value (LLValue.load x.variable_ x.type_.alignment)))
          s.current_debug_location]) } := by
  simp [Variable.get]

theorem InsertAtEntry_blocks (s : jit_module_builder) (o : Op) :
    ∃ e, (s.InsertAtEntry (Inst.op o)).blocks = prependAt s.blocks e [Instruction.mk (Inst.op o) none] ∧
      (s.function_blocks.head? = some e ∨ s.blocks.length ≤ e) := by
  unfold jit_module_builder.InsertAtEntry
  cases h : s.function_blocks with
  | nil =>
    refine ⟨s.blocks.length, ?_, Or.inr (Nat.le_refl _)⟩
    simp only
    apply List.ext_getElem?
    intro i
    rw [getElem?_prependAt]
    split
    · rename_i hi
      subst hi
      simp
    · rfl
  | cons e rest => exact ⟨e, rfl, Or.inl rfl⟩

theorem run_steps_no_call (mb : jit_module_builder) (steps : List HostStep)
    (h : steps_lines steps = 0) :
    (run_steps mb steps).current_debug_location = mb.current_debug_location ∧
    (run_steps mb steps).source_code_ = mb.source_code_ := by
  induction steps generalizing mb with
  | nil => exact ⟨rfl, rfl⟩
  | cons st rest ih =>
    cases st with
    | get x =>
      simp only [steps_lines] at h
      simpa [run_steps, Variable.get] using ih (x.get mb).2 h
    | call fn args => simp [steps_lines] at h

theorem run_steps_dbg_ne_none (mb : jit_module_builder) (steps : List HostStep)
    (h : mb.current_debug_location ≠ none) :
    (run_steps mb steps).current_debug_location ≠ none := by
  induction steps generalizing mb with
  | nil => exact h
  | cons st rest ih =>
    cases st with
    | get x =>
      apply ih
      simpa [Variable.get] using h
    | call fn args =>
      apply ih
      rw [call_eq]
      simp

/-- What `while_` has done when it hands over to the body. -/
theorem while_open_ok {c : ConditionFn} {s : jit_module_builder} {fr : while_frame}
    {s1 : jit_module_builder} (h : while_open c s = Except.ok (fr, s1)) :
    s.exited_block_ = false ∧ s1.exited_block_ = false ∧
    fr.while_continue = s.blocks.length ∧ fr.while_break = s.blocks.length + 2 ∧
    fr.parent_loop = s.current_loop_ ∧
    s1.insert_block = s.blocks.length + 1 ∧
    s1.current_loop_ =
      { continue_block_ := some s.blocks.length, break_block_ := some (s.blocks.length + 2) } ∧
    s1.function_blocks = s.function_blocks ++ [s.blocks.length, s.blocks.length + 1] ∧
    s1.dbg_locals = s.dbg_locals ∧
    s1.source_code_.indent_ = (s.source_code_.indent_ + 4) % UNSIGNED_MOD ∧
    (∃ sc, s1.source_code_.dbg_scopes_ = sc :: s.source_code_.dbg_scopes_) ∧
    s1.source_code_.dbg_file_ = s.source_code_.dbg_file_ ∧
    s1.source_code_.source_code_.length =
      s.source_code_.source_code_.length + 2 * steps_lines c.steps + 1 ∧
    ∃ xs ys d1 d2, Plain xs ∧ Plain ys ∧
      s1.blocks = appendAt (appendAt
        (appendAt s.blocks s.insert_block xs ++
          [{ name := "while_continue", insts := [] }, { name := "while_iteration", insts := [] },
           { name := "while_break", insts := [] }])
        s.insert_block [Instruction.mk (Inst.br s.blocks.length) d1])
        s.blocks.length
        (ys ++ [Instruction.mk
          (Inst.cond_br c.value.result (s.blocks.length + 1) (s.blocks.length + 2)) d2]) ∧
      (steps_lines c.steps = 0 →
        d1 = some (s.get_debug_location ((s.source_code_.line_no_ + 1) % UNSIGNED_MOD)) ∧
        d2 = some (s.get_debug_location ((s.source_code_.line_no_ + 1) % UNSIGNED_MOD)) ∧
        s1.source_code_.source_code_ = s.source_code_.source_code_ ++
          [String.mk (List.replicate s.source_code_.indent_ ' ') ++
            ("while (" ++ c.value.name ++ ") \x7b")]) ∧
      d1 ≠ none ∧ d2 ≠ none := by
  simp only [while_open] at h
  split at h
  · exact absurd h (by simp)
  · rename_i hex
    simp at h
    obtain ⟨rfl, rfl⟩ := h
    simp [ConditionFn.invoke, InsertOps_eq] at hex ⊢
    refine ⟨hex, by omega, ?_⟩
    rw [← List.append_assoc]
    refine ⟨_, plain_steps_insts _ _, _,
      plain_append (plain_steps_insts _ _) (plain_tagOps _ _), _, _, rfl, ?_, ?_, ?_⟩
    · intro h0
      simp [run_steps_no_call _ _ h0]
    · exact run_steps_dbg_ne_none _ _ (by simp)
    · exact run_steps_dbg_ne_none _ _ (run_steps_dbg_ne_none _ _ (by simp))
theorem if_open_isOk (c : Value) (s : jit_module_builder) (h : s.exited_block_ = false) :
    ∃ fr s1, if_open c s = Except.ok (fr, s1) := by
  simp only [if_open]
  split
  · rename_i hex
    simp [InsertOps_eq, h] at hex
  · exact ⟨_, _, rfl⟩

theorem if_then_open_isOk (c : Value) (s : jit_module_builder) (h : s.exited_block_ = false) :
    ∃ m s1, if_then_open c s = Except.ok (m, s1) := by
  simp only [if_then_open]
  split
  · rename_i hex
    simp [InsertOps_eq, h] at hex
  · exact ⟨_, _, rfl⟩

theorem while_open_isOk (c : ConditionFn) (s : jit_module_builder) (h : s.exited_block_ = false) :
    ∃ fr s1, while_open c s = Except.ok (fr, s1) := by
  simp only [while_open]
  split
  · rename_i hex
    simp [InsertOps_eq, ConditionFn.invoke, h] at hex
  · exact ⟨_, _, rfl⟩

/-! ## Running host programs -/

theorem if_ok_iff (c : Value) (tb fb : Block) (s s' : jit_module_builder) :
    if_ c tb fb s = Except.ok s' ↔
      ∃ fr s1 s2 s4, if_open c s = Except.ok (fr, s1) ∧ tb s1 = Except.ok s2 ∧
        fb (if_middle fr s2) = Except.ok s4 ∧ s' = if_close fr s4 := by
  unfold if_
  cases h1 : if_open c s with
  | error e => simp [bind, Except.bind]
  | ok r =>
    obtain ⟨fr, s1⟩ := r
    cases h2 : tb s1 with
    | error e => simp [bind, Except.bind, h2]
    | ok s2 =>
      cases h3 : fb (if_middle fr s2) with
      | error e => simp [bind, Except.bind, h2, h3]
      | ok s4 =>
        simp only [bind, Except.bind, h2, h3, pure, Except.pure, Except.ok.injEq]
        constructor
        · intro h
          exact ⟨fr, s1, s2, s4, rfl, h2, h3, h.symm⟩
        · rintro ⟨fr', s1', s2', s4', hopen, htb, hfb, rfl⟩
          simp only [Except.ok.injEq, Prod.mk.injEq] at hopen
          obtain ⟨rfl, rfl⟩ := hopen
          rw [h2] at htb
          simp only [Except.ok.injEq] at htb
          subst htb
          rw [h3] at hfb
          simp only [Except.ok.injEq] at hfb
          rw [hfb]

theorem if_then_ok_iff (c : Value) (tb : Block) (s s' : jit_module_builder) :
    if_then c tb s = Except.ok s' ↔
      ∃ m s1 s2, if_then_open c s = Except.ok (m, s1) ∧ tb s1 = Except.ok s2 ∧
        s' = if_then_close m s2 := by
  unfold if_then
  cases h1 : if_then_open c s with
  | error e => simp [bind, Except.bind]
  | ok r =>
    obtain ⟨m, s1⟩ := r
    cases h2 : tb s1 with
    | error e => simp [bind, Except.bind, h2]
    | ok s2 =>
      simp only [bind, Except.bind, h2, pure, Except.pure, Except.ok.injEq]
      constructor
      · intro h
        exact ⟨m, s1, s2, rfl, h2, h.symm⟩
      · rintro ⟨m', s1', s2', hopen, htb, rfl⟩
        simp only [Except.ok.injEq, Prod.mk.injEq] at hopen
        obtain ⟨rfl, rfl⟩ := hopen
        rw [h2] at htb
        simp only [Except.ok.injEq] at htb
        rw [htb]

theorem while_ok_iff (c : ConditionFn) (bdy : Block) (s s' : jit_module_builder) :
    while_ c bdy s = Except.ok s' ↔
      ∃ fr s1 s2, while_open c s = Except.ok (fr, s1) ∧ bdy s1 = Except.ok s2 ∧
        s' = while_close fr s2 := by
  unfold while_
  cases h1 : while_open c s with
  | error e => simp [bind, Except.bind]
  | ok r =>
    obtain ⟨fr, s1⟩ := r
    cases h2 : bdy s1 with
    | error e => simp [bind, Except.bind, h2]
    | ok s2 =>
      simp only [bind, Except.bind, h2, pure, Except.pure, Except.ok.injEq]
      constructor
      · intro h
        exact ⟨fr, s1, s2, rfl, h2, h.symm⟩
      · rintro ⟨fr', s1', s2', hopen, htb, rfl⟩
        simp only [Except.ok.injEq, Prod.mk.injEq] at hopen
        obtain ⟨rfl, rfl⟩ := hopen
        rw [h2] at htb
        simp only [Except.ok.injEq] at htb
        rw [htb]

theorem run_seq_ok_iff (a b : Prog) (s s' : jit_module_builder) :
    run (Prog.seq a b) s = Except.ok s' ↔
      ∃ s1, run a s = Except.ok s1 ∧ run b s1 = Except.ok s' := by
  simp only [run]
  cases h : run a s with
  | error e => simp [bind, Except.bind]
  | ok s1 => simp [bind, Except.bind]

/-! ## Growth of the block store -/

theorem growTo_refl (s : jit_module_builder) (hv : s.insert_block < s.blocks.length) :
    Grow s s :=
  { len_le := Nat.le_refl _
    valid := hv
    cursor := Or.inl rfl
    terms := fun _ _ _ => rfl
    fblocks := ⟨[], by simp, by simp⟩
    content := fun _ _ _ _ _ => rfl }

theorem growTo_insert {s : jit_module_builder} {bs : List BasicBlock} {fbs : List Nat}
    {c : Nat} (h : GrowTo s bs fbs c) (xs : List Instruction) :
    GrowTo s (appendAt bs c xs) fbs c := by
  have hne : ∀ i, i < s.blocks.length → i ≠ s.insert_block → ¬ (c = i) := by
    intro i hi hic hci
    rcases h.cursor with hc | hc <;> omega
  refine
    { len_le := by simpa using h.len_le
      valid := by simpa using h.valid
      cursor := h.cursor
      terms := ?_
      fblocks := h.fblocks
      content := ?_ }
  · intro i hi hic
    rw [termsIn_appendAt, h.terms i hi hic]
    have := hne i hi hic
    have h2 : ¬ (i = c ∧ c < bs.length) := fun hh => this hh.1.symm
    simp [h2]
  · intro i hi hic hne' hif
    rw [getElem?_appendAt, if_neg (hne i hi hic)]
    exact h.content i hi hic hne' hif

theorem growTo_create {s : jit_module_builder} {bs : List BasicBlock} {fbs : List Nat}
    {c : Nat} (h : GrowTo s bs fbs c) (news : List BasicBlock) :
    GrowTo s (bs ++ news) fbs c := by
  have hl := h.len_le
  refine
    { len_le := by simp; omega
      valid := by have := h.valid; simp; omega
      cursor := h.cursor
      terms := ?_
      fblocks := h.fblocks
      content := ?_ }
  · intro i hi hic
    rw [termsIn_append_left _ _ _ (by omega), h.terms i hi hic]
  · intro i hi hic hne' hif
    rw [List.getElem?_append_left (by omega)]
    exact h.content i hi hic hne' hif

theorem growTo_push {s : jit_module_builder} {bs : List BasicBlock} {fbs : List Nat}
    {c : Nat} (h : GrowTo s bs fbs c) (b : Nat) (hb : s.blocks.length ≤ b) :
    GrowTo s bs (fbs ++ [b]) c := by
  obtain ⟨l, hl, hl2⟩ := h.fblocks
  refine
    { len_le := h.len_le
      valid := h.valid
      cursor := h.cursor
      terms := h.terms
      fblocks := ⟨l ++ [b], by simp [hl], ?_⟩
      content := h.content }
  intro x hx
  rcases List.mem_append.mp hx with hx | hx
  · exact hl2 x hx
  · simp at hx
    omega

theorem growTo_cursor {s : jit_module_builder} {bs : List BasicBlock} {fbs : List Nat}
    {c : Nat} (h : GrowTo s bs fbs c) (c2 : Nat) (h1 : s.blocks.length ≤ c2)
    (h2 : c2 < bs.length) : GrowTo s bs fbs c2 :=
  { len_le := h.len_le
    valid := h2
    cursor := Or.inr h1
    terms := h.terms
    fblocks := h.fblocks
    content := h.content }

theorem head?_append_of_ne_nil {α : Type} (l r : List α) (h : l ≠ []) :
    (l ++ r).head? = l.head? := by
  cases l with
  | nil => exact absurd rfl h
  | cons x xs => rfl

theorem growTo_prepend {s : jit_module_builder} {bs : List BasicBlock} {fbs : List Nat}
    {c : Nat} (h : GrowTo s bs fbs c) (e : Nat) (xs : List Instruction) (hp : Plain xs)
    (he : fbs.head? = some e ∨ bs.length ≤ e) : GrowTo s (prependAt bs e xs) fbs c := by
  refine
    { len_le := by simpa using h.len_le
      valid := by simpa using h.valid
      cursor := h.cursor
      terms := ?_
      fblocks := h.fblocks
      content := ?_ }
  · intro i hi hic
    rw [termsIn_prependAt _ _ _ _ hp, h.terms i hi hic]
  · intro i hi hic hne hif
    have hei : ¬ (e = i) := by
      intro hei
      subst hei
      rcases he with he | he
      · obtain ⟨l, hl, _⟩ := h.fblocks
        rw [hl, head?_append_of_ne_nil _ _ hne] at he
        exact hif he
      · have := h.len_le
        omega
    rw [getElem?_prependAt, if_neg hei]
    exact h.content i hi hic hne hif

theorem growTo_trans {s x : jit_module_builder} {bs : List BasicBlock} {fbs : List Nat}
    {c : Nat} (h1 : Grow s x) (h2 : GrowTo x bs fbs c) : GrowTo s bs fbs c := by
  have hl1 := h1.len_le
  have hl2 := h2.len_le
  have hne : ∀ i, i < s.blocks.length → i ≠ s.insert_block → i ≠ x.insert_block := by
    intro i hi hic
    rcases h1.cursor with hc | hc <;> omega
  obtain ⟨l1, hf1, hb1⟩ := h1.fblocks
  obtain ⟨l2, hf2, hb2⟩ := h2.fblocks
  refine
    { len_le := by omega
      valid := h2.valid
      cursor := ?_
      terms := ?_
      fblocks := ⟨l1 ++ l2, by rw [hf2, hf1, List.append_assoc], ?_⟩
      content := ?_ }
  · rcases h2.cursor with hc | hc
    · rcases h1.cursor with hc1 | hc1
      · exact Or.inl (hc.trans hc1)
      · exact Or.inr (by omega)
    · exact Or.inr (by omega)
  · intro i hi hic
    rw [h2.terms i (by omega) (hne i hi hic), h1.terms i hi hic]
  · intro b hb
    rcases List.mem_append.mp hb with hb | hb
    · exact hb1 b hb
    · have := hb2 b hb
      omega
  · intro i hi hic hne' hif
    have hx1 : x.function_blocks ≠ [] := by
      rw [hf1]
      intro h0
      exact hne' (List.append_eq_nil.mp h0).1
    have hx2 : x.function_blocks.head? ≠ some i := by
      rw [hf1, head?_append_of_ne_nil _ _ hne']
      exact hif
    rw [h2.content i (by omega) (hne i hi hic) hx1 hx2, h1.content i hi hic hne' hif]

/-- A step that appends to the cursor block, attaches `b` and moves the cursor to `b`. -/
theorem grow_close {s x y : jit_module_builder} (hg : Grow s x) (xs : List Instruction)
    (b : Nat) (hy : y.blocks = appendAt x.blocks x.insert_block xs)
    (hf : y.function_blocks = x.function_blocks ++ [b]) (hc : y.insert_block = b)
    (hb1 : s.blocks.length ≤ b) (hb2 : b < x.blocks.length) : Grow s y := by
  unfold Grow
  rw [hy, hf, hc]
  exact growTo_cursor (growTo_push (growTo_insert hg xs) b hb1) b hb1 (by simpa using hb2)

/-- A step that only appends to the cursor block. -/
theorem grow_leaf {s x y : jit_module_builder} (hg : Grow s x) (xs : List Instruction)
    (hy : y.blocks = appendAt x.blocks x.insert_block xs)
    (hf : y.function_blocks = x.function_blocks) (hc : y.insert_block = x.insert_block) :
    Grow s y := by
  unfold Grow
  rw [hy, hf, hc]
  exact growTo_insert hg xs

theorem grow_if_open {c : Value} {s : jit_module_builder} {fr : if_frame}
    {s1 : jit_module_builder} (h : if_open c s = Except.ok (fr, s1))
    (hv : s.insert_block < s.blocks.length) : Grow s s1 := by
  obtain ⟨_, _, rfl⟩ := if_open_ok h
  exact growTo_cursor (growTo_push (growTo_insert (growTo_create (growTo_refl s hv) _) _) _
    (Nat.le_refl _)) _ (Nat.le_refl _) (by simp)

theorem grow_if_then_open {c : Value} {s : jit_module_builder} {m : Nat}
    {s1 : jit_module_builder} (h : if_then_open c s = Except.ok (m, s1))
    (hv : s.insert_block < s.blocks.length) : Grow s s1 := by
  obtain ⟨_, _, rfl⟩ := if_then_open_ok h
  exact growTo_cursor (growTo_push (growTo_insert (growTo_create (growTo_refl s hv) _) _) _
    (Nat.le_refl _)) _ (Nat.le_refl _) (by simp)

theorem grow_while_open {c : ConditionFn} {s : jit_module_builder} {fr : while_frame}
    {s1 : jit_module_builder} (h : while_open c s = Except.ok (fr, s1))
    (hv : s.insert_block < s.blocks.length) : Grow s s1 := by
  obtain ⟨_, _, _, _, _, hc, _, hf, _, _, _, _, _, xs, ys, d1, d2, _, _, hb, _⟩ := while_open_ok h
  unfold Grow
  rw [hc, hf, hb]
  have h1 := growTo_insert (growTo_create (growTo_insert (growTo_refl s hv) xs)
    [{ name := "while_continue", insts := [] }, { name := "while_iteration", insts := [] },
     { name := "while_break", insts := [] }]) [Instruction.mk (Inst.br s.blocks.length) d1]
  have h2 := growTo_cursor h1 s.blocks.length (Nat.le_refl _) (by simp)
  have h3 := growTo_insert h2
    (ys ++ [Instruction.mk (Inst.cond_br c.value.result (s.blocks.length + 1) (s.blocks.length + 2)) d2])
  have h4 := growTo_push (growTo_push h3 s.blocks.length (Nat.le_refl _)) (s.blocks.length + 1)
    (by omega)
  have h5 := growTo_cursor h4 (s.blocks.length + 1) (by omega) (by simp)
  simpa using h5

theorem run_grow (p : Prog) : ∀ (s s' : jit_module_builder),
    s.insert_block < s.blocks.length → run p s = Except.ok s' → Grow s s' := by
  induction p with
  | skip =>
    intro s s' hv h
    simp only [run, Except.ok.injEq] at h
    subst h
    exact growTo_refl s hv
  | seq a b iha ihb =>
    intro s s' hv h
    obtain ⟨s1, h1, h2⟩ := (run_seq_ok_iff a b s s').mp h
    have g1 := iha s s1 hv h1
    exact growTo_trans g1 (ihb s1 s' g1.valid h2)
  | if_ c tb fb iht ihf =>
    intro s s' hv h
    obtain ⟨fr, s1, s2, s4, hopen, htb, hfb, rfl⟩ := (if_ok_iff c (run tb) (run fb) s s').mp h
    have g1 := grow_if_open hopen hv
    obtain ⟨_, hfr, hs1⟩ := if_open_ok hopen
    have hl1 : s1.blocks.length = s.blocks.length + 3 := by rw [hs1]; simp
    have g2 : Grow s s2 := growTo_trans g1 (iht s1 s2 g1.valid htb)
    have hl2 : s1.blocks.length ≤ s2.blocks.length := (iht s1 s2 g1.valid htb).len_le
    have g3 : Grow s (if_middle fr s2) := by
      exact grow_close g2 _ fr.false_block (by rw [if_middle_eq]) (by rw [if_middle_eq])
        (by rw [if_middle_eq]) (by rw [hfr]; simp) (by rw [hfr]; simp; omega)
    have g34 := ihf _ s4 g3.valid hfb
    have g4 : Grow s s4 := growTo_trans g3 g34
    have hl4 : (if_middle fr s2).blocks.length ≤ s4.blocks.length := g34.len_le
    have hl3 : (if_middle fr s2).blocks.length = s2.blocks.length := by rw [if_middle_eq]; simp
    exact grow_close g4 _ fr.merge_block (by rw [if_close_eq]) (by rw [if_close_eq])
      (by rw [if_close_eq]) (by rw [hfr]; simp) (by rw [hfr]; simp; omega)
  | if_then c tb iht =>
    intro s s' hv h
    obtain ⟨m, s1, s2, hopen, htb, rfl⟩ := (if_then_ok_iff c (run tb) s s').mp h
    have g1 := grow_if_then_open hopen hv
    obtain ⟨_, hm, hs1⟩ := if_then_open_ok hopen
    have hl1 : s1.blocks.length = s.blocks.length + 2 := by rw [hs1]; simp
    have g12 := iht s1 s2 g1.valid htb
    have g2 : Grow s s2 := growTo_trans g1 g12
    have hl2 : s1.blocks.length ≤ s2.blocks.length := g12.len_le
    exact grow_close g2 _ m (by rw [if_then_close_eq]) (by rw [if_then_close_eq])
      (by rw [if_then_close_eq]) (by omega) (by omega)
  | while_ c body ihb =>
    intro s s' hv h
    obtain ⟨fr, s1, s2, hopen, hbody, rfl⟩ := (while_ok_iff c (run body) s s').mp h
    have g1 := grow_while_open hopen hv
    obtain ⟨_, _, _, hbr, _, _, _, _, _, _, _, _, _, xs, ys, d1, d2, _, _, hb, _⟩ :=
      while_open_ok hopen
    have hl1 : s1.blocks.length = s.blocks.length + 3 := by rw [hb]; simp
    have g12 := ihb s1 s2 g1.valid hbody
    have g2 : Grow s s2 := growTo_trans g1 g12
    have hl2 : s1.blocks.length ≤ s2.blocks.length := g12.len_le
    exact grow_close g2 _ fr.while_break (by rw [while_close_eq]) (by rw [while_close_eq])
      (by rw [while_close_eq]) (by omega) (by omega)
  | break_ =>
    intro s s' hv h
    obtain ⟨b, _, rfl⟩ := break_ok h
    exact grow_leaf (growTo_refl s hv) _ rfl rfl rfl
  | continue_ =>
    intro s s' hv h
    obtain ⟨b, _, rfl⟩ := continue_ok h
    exact grow_leaf (growTo_refl s hv) _ rfl rfl rfl
  | return_ =>
    intro s s' hv h
    simp only [run, return_eq, Except.ok.injEq] at h
    subst h
    exact grow_leaf (growTo_refl s hv) _ rfl rfl rfl
  | return_value v =>
    intro s s' hv h
    simp only [run, return_value_eq, Except.ok.injEq] at h
    subst h
    exact grow_leaf (growTo_refl s hv) _ rfl rfl rfl
  | declare ty n =>
    intro s s' hv h
    simp only [run, declare_eq, Except.ok.injEq] at h
    subst h
    obtain ⟨e, he, hmem⟩ := InsertAtEntry_blocks s (Op.value (LLValue.alloca ty.llvm n))
    unfold Grow
    simp only [he]
    exact growTo_prepend (growTo_refl s hv) e _
      (plain_tagOps none [Op.value (LLValue.alloca ty.llvm n)]) hmem
  | set x v =>
    intro s s' hv h
    simp only [run, set_eq, Except.ok.injEq] at h
    subst h
    exact grow_leaf (growTo_refl s hv) _ rfl rfl rfl
  | get x =>
    intro s s' hv h
    simp only [run, get_eq, Except.ok.injEq] at h
    subst h
    exact grow_leaf (growTo_refl s hv) _ rfl rfl rfl

/-! ## What a complete construct restores -/

theorem indent_roundtrip (i : Nat) (h : i < UNSIGNED_MOD) :
    (if 4 ≤ (i + 4) % UNSIGNED_MOD then (i + 4) % UNSIGNED_MOD - 4
      else UNSIGNED_MOD - (4 - (i + 4) % UNSIGNED_MOD)) = i := by
  simp only [UNSIGNED_MOD] at h ⊢
  split <;> omega

theorem indent_enter_lt (i : Nat) : (i + 4) % UNSIGNED_MOD < UNSIGNED_MOD :=
  Nat.mod_lt _ (by simp [UNSIGNED_MOD])

theorem run_balanced (p : Prog) : ∀ (s s' : jit_module_builder),
    run p s = Except.ok s' → Balanced p s s' := by
  induction p with
  | skip =>
    intro s s' h
    simp only [run, Except.ok.injEq] at h
    subst h
    exact ⟨rfl, rfl, rfl, fun _ => rfl, rfl, rfl⟩
  | seq a b iha ihb =>
    intro s s' h
    obtain ⟨s1, h1, h2⟩ := (run_seq_ok_iff a b s s').mp h
    have b1 := iha s s1 h1
    have b2 := ihb s1 s' h2
    refine ⟨b2.loop.trans b1.loop, b2.scopes.trans b1.scopes, b2.file.trans b1.file, ?_, ?_, ?_⟩
    · intro hi
      have e1 := b1.indent hi
      rw [b2.indent (by rw [e1]; exact hi), e1]
    · rw [b2.exited, b1.exited]; rfl
    · rw [b2.lines, b1.lines]; simp only [linesOf]; omega
  | if_ c tb fb iht ihf =>
    intro s s' h
    obtain ⟨fr, s1, s2, s4, hopen, htb, hfb, rfl⟩ := (if_ok_iff c (run tb) (run fb) s s').mp h
    obtain ⟨hex, hfr, hs1⟩ := if_open_ok hopen
    have b1 := iht s1 s2 htb
    have b2 := ihf _ s4 hfb
    have e1 := b1.loop
    have e2 := b1.scopes
    have e3 := b1.file
    have e4 := b1.indent
    have e5 := b1.lines
    have f1 := b2.loop
    have f2 := b2.scopes
    have f3 := b2.file
    have f4 := b2.indent
    have f5 := b2.lines
    rw [hs1] at e1 e2 e3 e4 e5
    rw [if_middle_eq] at f1 f2 f3 f4 f5
    simp at e1 e2 e3 e4 e5 f1 f2 f3 f4 f5
    rw [if_close_eq]
    refine ⟨by simp [f1, e1], by simp [f2, e2], by simp [f3, e3], ?_, by simp [exitsAfter], ?_⟩
    · intro hi
      have e4 := e4 (indent_enter_lt _)
      simp only [e4, indent_roundtrip _ hi] at f4
      have f4 := f4 (indent_enter_lt _)
      simp [f4, indent_roundtrip _ hi]
    · simp [f5, e5, linesOf]; omega
  | if_then c tb iht =>
    intro s s' h
    obtain ⟨m, s1, s2, hopen, htb, rfl⟩ := (if_then_ok_iff c (run tb) s s').mp h
    obtain ⟨hex, hm, hs1⟩ := if_then_open_ok hopen
    have b1 := iht s1 s2 htb
    have e1 := b1.loop
    have e2 := b1.scopes
    have e3 := b1.file
    have e4 := b1.indent
    have e5 := b1.lines
    rw [hs1] at e1 e2 e3 e4 e5
    simp at e1 e2 e3 e4 e5
    rw [if_then_close_eq]
    refine ⟨by simp [e1], by simp [e2], by simp [e3], ?_, by simp [exitsAfter], ?_⟩
    · intro hi
      have e4 := e4 (indent_enter_lt _)
      simp [e4, indent_roundtrip _ hi]
    · simp [e5, linesOf]; omega
  | while_ c body ihb =>
    intro s s' h
    obtain ⟨fr, s1, s2, hopen, hbody, rfl⟩ := (while_ok_iff c (run body) s s').mp h
    obtain ⟨hex, hex1, _, _, hpl, _, _, _, _, hind, ⟨sc, hsc⟩, hfile, hlines, _⟩ :=
      while_open_ok hopen
    have b1 := ihb s1 s2 hbody
    rw [while_close_eq]
    refine ⟨by simp [hpl], by simp [b1.scopes, hsc], by simp [b1.file, hfile], ?_,
      by simp [exitsAfter], ?_⟩
    · intro hi
      have e4 := b1.indent (by rw [hind]; exact indent_enter_lt _)
      simp [e4, hind, indent_roundtrip _ hi]
    · simp [b1.lines, hlines, linesOf]; omega
  | break_ =>
    intro s s' h
    obtain ⟨b, _, rfl⟩ := break_ok h
    exact ⟨rfl, rfl, rfl, fun _ => rfl, rfl, by simp [linesOf]⟩
  | continue_ =>
    intro s s' h
    obtain ⟨b, _, rfl⟩ := continue_ok h
    exact ⟨rfl, rfl, rfl, fun _ => rfl, rfl, by simp [linesOf]⟩
  | return_ =>
    intro s s' h
    simp only [run, return_eq, Except.ok.injEq] at h
    subst h
    exact ⟨rfl, rfl, rfl, fun _ => rfl, rfl, by simp [linesOf]⟩
  | return_value v =>
    intro s s' h
    simp only [run, return_value_eq, Except.ok.injEq] at h
    subst h
    exact ⟨rfl, rfl, rfl, fun _ => rfl, rfl, by simp [linesOf]⟩
  | declare ty n =>
    intro s s' h
    simp only [run, declare_eq, Except.ok.injEq] at h
    subst h
    exact ⟨rfl, rfl, rfl, fun _ => rfl, rfl, by simp [linesOf]⟩
  | set x v =>
    intro s s' h
    simp only [run, set_eq, Except.ok.injEq] at h
    subst h
    exact ⟨rfl, rfl, rfl, fun _ => rfl, rfl, by simp [linesOf]⟩
  | get x =>
    intro s s' h
    simp only [run, get_eq, Except.ok.injEq] at h
    subst h
    exact ⟨rfl, rfl, rfl, fun _ => rfl, rfl, by simp [linesOf]⟩

/-! ## The `exited` flag and the block at the cursor -/

theorem pending_grow {s x : jit_module_builder} {b : Nat} (h : Pending s b) (g : Grow s x) :
    Pending x b := by
  obtain ⟨h1, h2, h3⟩ := h
  have := g.len_le
  refine ⟨by omega, ?_, ?_⟩
  · rcases g.cursor with hc | hc <;> omega
  · rw [g.terms b h1 h2, h3]

/-- A pending block stays pending when the cursor block is appended to and the
cursor moves to another block. -/
theorem pending_step {x y : jit_module_builder} {b : Nat} (h : Pending x b)
    (xs : List Instruction) (hy : y.blocks = appendAt x.blocks x.insert_block xs)
    (hc : y.insert_block ≠ b) : Pending y b := by
  obtain ⟨h1, h2, h3⟩ := h
  refine ⟨by rw [hy]; simpa using h1, fun e => hc e.symm, ?_⟩
  rw [hy, termsIn_appendAt, h3]
  have : ¬ (b = x.insert_block ∧ x.insert_block < x.blocks.length) := fun hh => h2 hh.1
  simp [this]

/-- Moving the cursor to a pending block with `exited` cleared gives a state
in which the flag agrees with the block at the cursor. -/
theorem cursorInv_of_pending {x y : jit_module_builder} {b : Nat} (h : Pending x b)
    (xs : List Instruction) (hy : y.blocks = appendAt x.blocks x.insert_block xs)
    (hc : y.insert_block = b) (he : y.exited_block_ = false) : CursorInv y := by
  obtain ⟨h1, h2, h3⟩ := h
  have ht : termsIn y.blocks b = 0 := by
    rw [hy, termsIn_appendAt, h3]
    have : ¬ (b = x.insert_block ∧ x.insert_block < x.blocks.length) := fun hh => h2 hh.1
    simp [this]
  refine ⟨by rw [hc, hy]; simpa using h1, ?_⟩
  rw [hc, ht, he]
  simp

/-- After a terminator is appended at a valid cursor, `exited` being set agrees
with the block. -/
theorem cursorInv_of_terminator {x y : jit_module_builder} (hv : x.insert_block < x.blocks.length)
    (xs : List Instruction) (hx : 0 < countTerms xs)
    (hy : y.blocks = appendAt x.blocks x.insert_block xs)
    (hc : y.insert_block = x.insert_block) (he : y.exited_block_ = true) : CursorInv y := by
  refine ⟨by rw [hc, hy]; simpa using hv, ?_⟩
  rw [hc, hy, termsIn_appendAt, he]
  simp [hv]
  omega

/-- Appending plain operations at the cursor keeps the agreement. -/
theorem cursorInv_of_plain {x y : jit_module_builder} (hk : CursorInv x)
    (xs : List Instruction) (hx : countTerms xs = 0)
    (hy : y.blocks = appendAt x.blocks x.insert_block xs)
    (hc : y.insert_block = x.insert_block) (he : y.exited_block_ = x.exited_block_) :
    CursorInv y := by
  obtain ⟨hv, hiff⟩ := hk
  refine ⟨by rw [hc, hy]; simpa using hv, ?_⟩
  rw [hc, hy, termsIn_appendAt, he, hx]
  simpa using hiff

theorem if_open_pending {c : Value} {s : jit_module_builder} {fr : if_frame}
    {s1 : jit_module_builder} (h : if_open c s = Except.ok (fr, s1))
    (hv : s.insert_block < s.blocks.length) :
    CursorInv s1 ∧ Pending s1 fr.false_block ∧ Pending s1 fr.merge_block ∧
      fr.false_block ≠ fr.merge_block := by
  obtain ⟨hex, rfl, rfl⟩ := if_open_ok h
  have hne : ∀ k, ¬ (s.blocks.length + k = s.insert_block ∧
      s.insert_block < s.blocks.length + 3) := fun k hh => by omega
  have hz : ∀ k, termsIn (appendAt
      (s.blocks ++ [{ name := "true_block", insts := [] }, { name := "false_block", insts := [] },
        { name := "merge_block", insts := [] }]) s.insert_block
      (tagOps (some (s.get_debug_location s.source_code_.line_no_)) c.ops ++
        [Instruction.mk (Inst.cond_br c.result s.blocks.length (s.blocks.length + 1))
          (some (s.get_debug_location s.source_code_.line_no_))])) (s.blocks.length + k) = 0 := by
    intro k
    rw [termsIn_appendAt, termsIn_append_empty _ _ _ (by simp), termsIn_ge _ _ (by omega)]
    have := hne k
    simp only [List.length_append, List.length_cons, List.length_nil] at this ⊢
    simp [this]
  refine ⟨⟨by simp, ?_⟩, ⟨by simp, by simp, hz 1⟩, ⟨by simp, by simp, hz 2⟩, by simp⟩
  have := hz 0
  simp only [Nat.add_zero] at this
  simp only [this, hex]
  simp

theorem if_then_open_pending {c : Value} {s : jit_module_builder} {m : Nat}
    {s1 : jit_module_builder} (h : if_then_open c s = Except.ok (m, s1))
    (hv : s.insert_block < s.blocks.length) :
    CursorInv s1 ∧ Pending s1 m := by
  obtain ⟨hex, rfl, rfl⟩ := if_then_open_ok h
  have hne : ∀ k, ¬ (s.blocks.length + k = s.insert_block ∧
      s.insert_block < s.blocks.length + 2) := fun k hh => by omega
  have hz : ∀ k, termsIn (appendAt
      (s.blocks ++ [{ name := "true_block", insts := [] }, { name := "merge_block", insts := [] }])
      s.insert_block
      (tagOps (some (s.get_debug_location s.source_code_.line_no_)) c.ops ++
        [Instruction.mk (Inst.cond_br c.result s.blocks.length (s.blocks.length + 1))
          (some (s.get_debug_location s.source_code_.line_no_))])) (s.blocks.length + k) = 0 := by
    intro k
    rw [termsIn_appendAt, termsIn_append_empty _ _ _ (by simp), termsIn_ge _ _ (by omega)]
    have := hne k
    simp only [List.length_append, List.length_cons, List.length_nil] at this ⊢
    simp [this]
  refine ⟨⟨by simp, ?_⟩, ⟨by simp, by simp, hz 1⟩⟩
  have := hz 0
  simp only [Nat.add_zero] at this
  simp only [this, hex]
  simp

theorem while_open_pending {c : ConditionFn} {s : jit_module_builder} {fr : while_frame}
    {s1 : jit_module_builder} (h : while_open c s = Except.ok (fr, s1))
    (hv : s.insert_block < s.blocks.length) :
    CursorInv s1 ∧ Pending s1 fr.while_break := by
  obtain ⟨hex, hex1, hwc, hwb, _, hc, _, _, _, _, _, _, _, xs, ys, d1, d2, _, _, hb, _⟩ :=
    while_open_ok h
  have hz : ∀ k, 0 < k → termsIn s1.blocks (s.blocks.length + k) = 0 := by
    intro k hk
    rw [hb, termsIn_appendAt, termsIn_appendAt, termsIn_append_empty _ _ _ (by simp),
      termsIn_ge _ _ (by simp)]
    rw [if_neg (fun hh => by omega), if_neg (fun hh => by omega)]
  have hl : s1.blocks.length = s.blocks.length + 3 := by rw [hb]; simp
  refine ⟨⟨by omega, ?_⟩, ⟨by omega, by omega, by rw [hwb]; exact hz 2 (by omega)⟩⟩
  rw [hc, hz 1 (by omega), hex1]
  simp

theorem run_cursorInv (p : Prog) : ∀ (s s' : jit_module_builder),
    CursorInv s → run p s = Except.ok s' → CursorInv s' := by
  induction p with
  | skip =>
    intro s s' hk h
    simp only [run, Except.ok.injEq] at h
    subst h
    exact hk
  | seq a b iha ihb =>
    intro s s' hk h
    obtain ⟨s1, h1, h2⟩ := (run_seq_ok_iff a b s s').mp h
    exact ihb s1 s' (iha s s1 hk h1) h2
  | if_ c tb fb iht ihf =>
    intro s s' hk h
    obtain ⟨fr, s1, s2, s4, hopen, htb, hfb, rfl⟩ := (if_ok_iff c (run tb) (run fb) s s').mp h
    obtain ⟨k1, pf, pm, hne⟩ := if_open_pending hopen hk.1
    have g12 := run_grow tb s1 s2 k1.1 htb
    have pf2 := pending_grow pf g12
    have pm2 := pending_grow pm g12
    have k3 : CursorInv (if_middle fr s2) :=
      cursorInv_of_pending pf2 _ (by rw [if_middle_eq]) (by rw [if_middle_eq])
        (by rw [if_middle_eq])
    have pm3 : Pending (if_middle fr s2) fr.merge_block :=
      pending_step pm2 _ (by rw [if_middle_eq]) (by rw [if_middle_eq]; exact hne)
    have g34 := run_grow fb _ s4 k3.1 hfb
    have pm4 := pending_grow pm3 g34
    exact cursorInv_of_pending pm4 _ (by rw [if_close_eq]) (by rw [if_close_eq])
      (by rw [if_close_eq])
  | if_then c tb iht =>
    intro s s' hk h
    obtain ⟨m, s1, s2, hopen, htb, rfl⟩ := (if_then_ok_iff c (run tb) s s').mp h
    obtain ⟨k1, pm⟩ := if_then_open_pending hopen hk.1
    have g12 := run_grow tb s1 s2 k1.1 htb
    have pm2 := pending_grow pm g12
    exact cursorInv_of_pending pm2 _ (by rw [if_then_close_eq]) (by rw [if_then_close_eq])
      (by rw [if_then_close_eq])
  | while_ c body ihb =>
    intro s s' hk h
    obtain ⟨fr, s1, s2, hopen, hbody, rfl⟩ := (while_ok_iff c (run body) s s').mp h
    obtain ⟨k1, pb⟩ := while_open_pending hopen hk.1
    have g12 := run_grow body s1 s2 k1.1 hbody
    have pb2 := pending_grow pb g12
    exact cursorInv_of_pending pb2 _ (by rw [while_close_eq]) (by rw [while_close_eq])
      (by rw [while_close_eq])
  | break_ =>
    intro s s' hk h
    obtain ⟨b, _, rfl⟩ := break_ok h
    exact cursorInv_of_terminator hk.1 _ (by simp [Inst.isTerminator]) rfl rfl rfl
  | continue_ =>
    intro s s' hk h
    obtain ⟨b, _, rfl⟩ := continue_ok h
    exact cursorInv_of_terminator hk.1 _ (by simp [Inst.isTerminator]) rfl rfl rfl
  | return_ =>
    intro s s' hk h
    simp only [run, return_eq, Except.ok.injEq] at h
    subst h
    exact cursorInv_of_terminator hk.1 _ (by simp [Inst.isTerminator]) rfl rfl rfl
  | return_value v =>
    intro s s' hk h
    simp only [run, return_value_eq, Except.ok.injEq] at h
    subst h
    exact cursorInv_of_terminator hk.1 _ (by simp [Inst.isTerminator]) rfl rfl rfl
  | declare ty n =>
    intro s s' hk h
    simp only [run, declare_eq, Except.ok.injEq] at h
    subst h
    obtain ⟨e, he, _⟩ := InsertAtEntry_blocks s (Op.value (LLValue.alloca ty.llvm n))
    obtain ⟨hv, hiff⟩ := hk
    refine ⟨by simp only [he]; simpa using hv, ?_⟩
    simp only [he]
    rw [termsIn_prependAt _ _ _ _ (plain_single_op _ _)]
    exact hiff
  | set x v =>
    intro s s' hk h
    simp only [run, set_eq, Except.ok.injEq] at h
    subst h
    exact cursorInv_of_plain hk _ (by simp [Inst.isTerminator]) rfl rfl rfl
  | get x =>
    intro s s' hk h
    simp only [run, get_eq, Except.ok.injEq] at h
    subst h
    exact cursorInv_of_plain hk _ (by simp [Inst.isTerminator]) rfl rfl rfl

theorem boundary_cursorInv {p : Prog} {s t : jit_module_builder} (hb : Boundary p s t) :
    CursorInv s → CursorInv t := by
  induction hb with
  | before p s s' h => exact fun hk => hk
  | after p s s' h => exact fun hk => run_cursorInv p s s' hk h
  | seq_left a b s t _ ih => exact ih
  | seq_right a b s s1 t h1 _ ih => exact fun hk => ih (run_cursorInv a s s1 hk h1)
  | if_true c tb fb s fr s1 t hopen _ ih => exact fun hk => ih (if_open_pending hopen hk.1).1
  | if_false c tb fb s fr s1 s2 t hopen htb _ ih =>
    intro hk
    obtain ⟨k1, pf, _, _⟩ := if_open_pending hopen hk.1
    have g12 := run_grow tb s1 s2 k1.1 htb
    exact ih (cursorInv_of_pending (pending_grow pf g12) _ (by rw [if_middle_eq])
      (by rw [if_middle_eq]) (by rw [if_middle_eq]))
  | if_then_true c tb s m s1 t hopen _ ih =>
    exact fun hk => ih (if_then_open_pending hopen hk.1).1
  | while_body c body s fr s1 t hopen _ ih =>
    exact fun hk => ih (while_open_pending hopen hk.1).1

/-! ## At most one terminator per block -/

/-- Appending at the cursor instructions with at most one terminator, and none
when the block has exited, keeps every block at one terminator at most. -/
theorem allOne_append {x : jit_module_builder} (hk : CursorInv x)
    (h1 : ∀ i, termsIn x.blocks i ≤ 1) (news : List BasicBlock)
    (hn : ∀ b ∈ news, b.insts = []) (xs : List Instruction) (hx : countTerms xs ≤ 1)
    (hex : x.exited_block_ = true → countTerms xs = 0) :
    ∀ i, termsIn (appendAt (x.blocks ++ news) x.insert_block xs) i ≤ 1 := by
  intro i
  rw [termsIn_appendAt, termsIn_append_empty _ _ _ hn]
  have hi := h1 i
  split
  · rename_i hc
    obtain ⟨rfl, _⟩ := hc
    cases he : x.exited_block_ with
    | true => rw [hex he]; omega
    | false =>
      have : ¬ (0 < termsIn x.blocks x.insert_block) := fun h => by
        have := hk.2.mpr h
        rw [he] at this
        exact absurd this (by simp)
      omega
  · omega

theorem allOne_append' {x : jit_module_builder} (hk : CursorInv x)
    (h1 : ∀ i, termsIn x.blocks i ≤ 1) (xs : List Instruction) (hx : countTerms xs ≤ 1)
    (hex : x.exited_block_ = true → countTerms xs = 0) :
    ∀ i, termsIn (appendAt x.blocks x.insert_block xs) i ≤ 1 := by
  have := allOne_append hk h1 [] (by simp) xs hx hex
  simpa using this

theorem countTerms_closer (e : Bool) (t : Instruction) :
    countTerms (if e = true then [] else [t]) ≤ 1 ∧
      (e = true → countTerms (if e = true then [] else [t]) = 0) := by
  cases e <;> simp
  split <;> omega

theorem run_allOne (p : Prog) : ∀ (s s' : jit_module_builder),
    CursorInv s → callsOnOpen s.exited_block_ p = true → (∀ i, termsIn s.blocks i ≤ 1) →
    run p s = Except.ok s' → ∀ i, termsIn s'.blocks i ≤ 1 := by
  induction p with
  | skip =>
    intro s s' hk hc h1 h
    simp only [run, Except.ok.injEq] at h
    subst h
    exact h1
  | seq a b iha ihb =>
    intro s s' hk hc h1 h
    obtain ⟨s1, h1', h2⟩ := (run_seq_ok_iff a b s s').mp h
    simp only [callsOnOpen, Bool.and_eq_true] at hc
    have hb := (run_balanced a s s1 h1').exited
    exact ihb s1 s' (run_cursorInv a s s1 hk h1') (by rw [hb]; exact hc.2)
      (iha s s1 hk hc.1 h1 h1') h2
  | if_ c tb fb iht ihf =>
    intro s s' hk hc h1 h
    obtain ⟨fr, s1, s2, s4, hopen, htb, hfb, rfl⟩ := (if_ok_iff c (run tb) (run fb) s s').mp h
    simp only [callsOnOpen, Bool.and_eq_true] at hc
    obtain ⟨k1, pf, pm, hne⟩ := if_open_pending hopen hk.1
    obtain ⟨hex, _, hs1⟩ := if_open_ok hopen
    have a1 : ∀ i, termsIn s1.blocks i ≤ 1 := by
      rw [hs1]
      exact allOne_append hk h1 _ (by simp) _ (by simp [Inst.isTerminator])
        (fun he => by rw [hex] at he; exact absurd he (by simp))
    have e1 : s1.exited_block_ = false := by rw [hs1]; exact hex
    have a2 := iht s1 s2 k1 (by rw [e1]; exact hc.1) a1 htb
    have k2 := run_cursorInv tb s1 s2 k1 htb
    have g12 := run_grow tb s1 s2 k1.1 htb
    have k3 : CursorInv (if_middle fr s2) :=
      cursorInv_of_pending (pending_grow pf g12) _ (by rw [if_middle_eq]) (by rw [if_middle_eq])
        (by rw [if_middle_eq])
    have a3 : ∀ i, termsIn (if_middle fr s2).blocks i ≤ 1 := by
      rw [if_middle_eq]
      exact allOne_append' k2 a2 _ (countTerms_closer _ _).1 (countTerms_closer _ _).2
    have e3 : (if_middle fr s2).exited_block_ = false := by rw [if_middle_eq]
    have a4 := ihf _ s4 k3 (by rw [e3]; exact hc.2) a3 hfb
    have k4 := run_cursorInv fb _ s4 k3 hfb
    rw [if_close_eq]
    exact allOne_append' k4 a4 _ (countTerms_closer _ _).1 (countTerms_closer _ _).2
  | if_then c tb iht =>
    intro s s' hk hc h1 h
    obtain ⟨m, s1, s2, hopen, htb, rfl⟩ := (if_then_ok_iff c (run tb) s s').mp h
    simp only [callsOnOpen] at hc
    obtain ⟨k1, pm⟩ := if_then_open_pending hopen hk.1
    obtain ⟨hex, _, hs1⟩ := if_then_open_ok hopen
    have a1 : ∀ i, termsIn s1.blocks i ≤ 1 := by
      rw [hs1]
      exact allOne_append hk h1 _ (by simp) _ (by simp [Inst.isTerminator])
        (fun he => by rw [hex] at he; exact absurd he (by simp))
    have e1 : s1.exited_block_ = false := by rw [hs1]; exact hex
    have a2 := iht s1 s2 k1 (by rw [e1]; exact hc) a1 htb
    have k2 := run_cursorInv tb s1 s2 k1 htb
    rw [if_then_close_eq]
    exact allOne_append' k2 a2 _ (countTerms_closer _ _).1 (countTerms_closer _ _).2
  | while_ c body ihb =>
    intro s s' hk hc h1 h
    obtain ⟨fr, s1, s2, hopen, hbody, rfl⟩ := (while_ok_iff c (run body) s s').mp h
    simp only [callsOnOpen] at hc
    obtain ⟨k1, pb⟩ := while_open_pending hopen hk.1
    obtain ⟨hex, hex1, _, _, _, _, _, _, _, _, _, _, _, xs, ys, d1, d2, hpx, hpy, hb, _⟩ :=
      while_open_ok hopen
    have a1 : ∀ i, termsIn s1.blocks i ≤ 1 := by
      intro i
      have hcur : ¬ (0 < termsIn s.blocks s.insert_block) := fun h => by
        have := hk.2.mpr h
        rw [hex] at this
        exact absurd this (by simp)
      have hv := hk.1
      have hi := h1 i
      have hn : termsIn s.blocks s.blocks.length = 0 := termsIn_ge _ _ (Nat.le_refl _)
      rw [hb, termsIn_appendAt, termsIn_appendAt, termsIn_append_empty _ _ _ (by simp),
        termsIn_appendAt]
      simp only [countTerms_append, countTerms_plain hpx, countTerms_plain hpy, countTerms_cons,
        Inst.isTerminator, countTerms_nil, if_true]
      by_cases h1 : i = s.insert_block
      · subst h1
        have hne : ¬ (s.insert_block = s.blocks.length) := by omega
        simp only [hne, length_appendAt, List.length_append, List.length_cons, List.length_nil,
          true_and, false_and, if_false]
        repeat' split
        all_goals omega
      · by_cases h2 : i = s.blocks.length
        · subst h2
          simp only [h1, length_appendAt, List.length_append, List.length_cons, List.length_nil,
            true_and, false_and, if_false]
          repeat' split
          all_goals omega
        · simp only [h1, h2, false_and, if_false]
          omega
    have a2 := ihb s1 s2 k1 (by rw [hex1]; exact hc) a1 hbody
    have k2 := run_cursorInv body s1 s2 k1 hbody
    rw [while_close_eq]
    exact allOne_append' k2 a2 _ (countTerms_closer _ _).1 (countTerms_closer _ _).2
  | break_ =>
    intro s s' hk hc h1 h
    obtain ⟨b, _, rfl⟩ := break_ok h
    simp only [callsOnOpen, Bool.not_eq_true'] at hc
    exact allOne_append' hk h1 _ (by simp [Inst.isTerminator])
      (fun he => by rw [hc] at he; exact absurd he (by simp))
  | continue_ =>
    intro s s' hk hc h1 h
    obtain ⟨b, _, rfl⟩ := continue_ok h
    simp only [callsOnOpen, Bool.not_eq_true'] at hc
    exact allOne_append' hk h1 _ (by simp [Inst.isTerminator])
      (fun he => by rw [hc] at he; exact absurd he (by simp))
  | return_ =>
    intro s s' hk hc h1 h
    simp only [run, return_eq, Except.ok.injEq] at h
    subst h
    simp only [callsOnOpen, Bool.not_eq_true'] at hc
    exact allOne_append' hk h1 _ (by simp [Inst.isTerminator])
      (fun he => by rw [hc] at he; exact absurd he (by simp))
  | return_value v =>
    intro s s' hk hc h1 h
    simp only [run, return_value_eq, Except.ok.injEq] at h
    subst h
    simp only [callsOnOpen, Bool.not_eq_true'] at hc
    exact allOne_append' hk h1 _ (by simp [Inst.isTerminator])
      (fun he => by rw [hc] at he; exact absurd he (by simp))
  | declare ty n =>
    intro s s' hk hc h1 h
    simp only [run, declare_eq, Except.ok.injEq] at h
    subst h
    obtain ⟨e, he, _⟩ := InsertAtEntry_blocks s (Op.value (LLValue.alloca ty.llvm n))
    intro i
    simp only [he]
    rw [termsIn_prependAt _ _ _ _ (plain_single_op _ _)]
    exact h1 i
  | set x v =>
    intro s s' hk hc h1 h
    simp only [run, set_eq, Except.ok.injEq] at h
    subst h
    exact allOne_append' hk h1 _ (by simp [Inst.isTerminator]) (fun _ => by simp [Inst.isTerminator])
  | get x =>
    intro s s' hk hc h1 h
    simp only [run, get_eq, Except.ok.injEq] at h
    subst h
    exact allOne_append' hk h1 _ (by simp [Inst.isTerminator]) (fun _ => by simp [Inst.isTerminator])

/-! ## Closing a nested block -/

theorem closes_if_middle (fr : if_frame) (x : jit_module_builder) :
    Closes x (if_middle fr x) fr.merge_block "\x7d else \x7b" := by
  rw [if_middle_eq]
  refine ⟨fun h => by simp [h], fun h => by simp [h], by simp, rfl⟩

theorem closes_if_close (fr : if_frame) (x : jit_module_builder) :
    Closes x (if_close fr x) fr.merge_block "\x7d" := by
  rw [if_close_eq]
  refine ⟨fun h => by simp [h], fun h => by simp [h], by simp, rfl⟩

theorem closes_if_then_close (m : Nat) (x : jit_module_builder) :
    Closes x (if_then_close m x) m "\x7d" := by
  rw [if_then_close_eq]
  refine ⟨fun h => by simp [h], fun h => by simp [h], by simp, rfl⟩

theorem closes_while_close (fr : while_frame) (x : jit_module_builder) :
    Closes x (while_close fr x) fr.while_continue "\x7d" := by
  rw [while_close_eq]
  refine ⟨fun h => by simp [h], fun h => by simp [h], by simp, rfl⟩

theorem while_open_blocks {c : ConditionFn} {s : jit_module_builder} {fr : while_frame}
    {s1 : jit_module_builder} (h : while_open c s = Except.ok (fr, s1))
    (hv : s.insert_block < s.blocks.length) :
    s1.blocks[fr.while_break]? = some { name := "while_break", insts := [] } ∧
    s1.blocks[s1.insert_block]? = some { name := "while_iteration", insts := [] } ∧
    ∃ ys d, Plain ys ∧ s1.blocks[fr.while_continue]? = some (BasicBlock.mk "while_continue"
      (ys ++ [Instruction.mk (Inst.cond_br c.value.result s1.insert_block fr.while_break) d])) := by
  obtain ⟨_, _, hwc, hwb, _, hc, _, _, _, _, _, _, _, xs, ys, d1, d2, _, hpy, hb, _⟩ :=
    while_open_ok h
  have hl : (appendAt s.blocks s.insert_block xs).length = s.blocks.length := by simp
  have e0 : ∀ k, (appendAt (appendAt s.blocks s.insert_block xs ++
      [{ name := "while_continue", insts := [] }, { name := "while_iteration", insts := [] },
       { name := "while_break", insts := [] }]) s.insert_block
      [Instruction.mk (Inst.br s.blocks.length) d1])[s.blocks.length + k]? =
      ([{ name := "while_continue", insts := [] }, { name := "while_iteration", insts := [] },
       { name := "while_break", insts := [] }] : List BasicBlock)[k]? := by
    intro k
    rw [getElem?_appendAt, if_neg (by omega), List.getElem?_append_right (by simp), hl]
    simp
  refine ⟨?_, ?_, ys, d2, hpy, ?_⟩
  · rw [hwb, hb, getElem?_appendAt, if_neg (by omega), e0 2]
    rfl
  · rw [hc, hb, getElem?_appendAt, if_neg (by omega), e0 1]
    rfl
  · have := e0 0
    simp only [Nat.add_zero] at this
    rw [hwc, hb, getElem?_appendAt, if_pos rfl, this, hc, hwb]
    rfl


/-! ## Counting lines and terminators -/

theorem lines_terms_identity (p : Prog) :
    linesOf p + whileCalls p = termsOf p + exitedBlocks p + plainLines p := by
  induction p with
  | seq a b iha ihb => simp only [linesOf, whileCalls, termsOf, exitedBlocks, plainLines]; omega
  | if_ c tb fb iht ihf =>
    simp only [linesOf, whileCalls, termsOf, exitedBlocks, plainLines]
    cases exitsAfter false tb <;> cases exitsAfter false fb <;> simp <;> omega
  | if_then c tb iht =>
    simp only [linesOf, whileCalls, termsOf, exitedBlocks, plainLines]
    cases exitsAfter false tb <;> simp <;> omega
  | while_ c body ihb =>
    simp only [linesOf, whileCalls, termsOf, exitedBlocks, plainLines]
    cases exitsAfter false body <;> simp <;> omega
  | _ => simp [linesOf, whileCalls, termsOf, exitedBlocks, plainLines]

theorem totalTerms_news (news : List BasicBlock) (h : ∀ b ∈ news, b.insts = []) :
    totalTerms news = 0 := by
  induction news with
  | nil => rfl
  | cons b bs ih =>
    have hb := h b (List.mem_cons_self _ _)
    have := ih (fun y hy => h y (List.mem_cons_of_mem _ hy))
    simp only [totalTerms, List.map_cons, List.sum_cons] at this ⊢
    rw [this]
    simp [BasicBlock.termCount, hb]

theorem totalTerms_closer (x : jit_module_builder) (hv : x.insert_block < x.blocks.length)
    (dest : Nat) (d : Option DILocation) :
    totalTerms (appendAt x.blocks x.insert_block
      (if x.exited_block_ = true then [] else [Instruction.mk (Inst.br dest) d])) =
      totalTerms x.blocks + (if x.exited_block_ = true then 0 else 1) := by
  rw [totalTerms_appendAt, if_pos hv]
  cases x.exited_block_ <;> simp [Inst.isTerminator]

theorem totalTerms_open (bs news : List BasicBlock) (c : Nat) (hc : c < bs.length)
    (hn : ∀ b ∈ news, b.insts = []) (xs : List Instruction) :
    totalTerms (appendAt (bs ++ news) c xs) = totalTerms bs + countTerms xs := by
  rw [totalTerms_appendAt, totalTerms_append, totalTerms_news news hn,
    if_pos (by rw [List.length_append]; omega)]
  omega

theorem run_totalTerms (p : Prog) : ∀ (s s' : jit_module_builder),
    s.insert_block < s.blocks.length → run p s = Except.ok s' →
    totalTerms s'.blocks = totalTerms s.blocks + termsOf p := by
  induction p with
  | skip =>
    intro s s' hv h
    simp only [run, Except.ok.injEq] at h
    subst h
    rfl
  | seq a b iha ihb =>
    intro s s' hv h
    obtain ⟨s1, h1, h2⟩ := (run_seq_ok_iff a b s s').mp h
    have g1 := run_grow a s s1 hv h1
    rw [ihb s1 s' g1.valid h2, iha s s1 hv h1]
    simp only [termsOf]
    omega
  | if_ c tb fb iht ihf =>
    intro s s' hv h
    obtain ⟨fr, s1, s2, s4, hopen, htb, hfb, rfl⟩ := (if_ok_iff c (run tb) (run fb) s s').mp h
    have g1 := grow_if_open hopen hv
    obtain ⟨hex, hfr, hs1⟩ := if_open_ok hopen
    have t1 : totalTerms s1.blocks = totalTerms s.blocks + 1 := by
      rw [hs1]
      simp only
      rw [totalTerms_open _ _ _ hv (by simp)]
      simp [Inst.isTerminator]
    have e1 : s1.exited_block_ = false := by rw [hs1]; exact hex
    have g12 := run_grow tb s1 s2 g1.valid htb
    have t2 := iht s1 s2 g1.valid htb
    have e2 := (run_balanced tb s1 s2 htb).exited
    rw [e1] at e2
    have v3 : (if_middle fr s2).insert_block < (if_middle fr s2).blocks.length := by
      have hl1 : s1.blocks.length = s.blocks.length + 3 := by rw [hs1]; simp
      have := g12.len_le
      rw [if_middle_eq, hfr]
      simp only [length_appendAt]
      omega
    have t3 : totalTerms (if_middle fr s2).blocks =
        totalTerms s2.blocks + (if exitsAfter false tb = true then 0 else 1) := by
      rw [if_middle_eq]
      simp only
      rw [totalTerms_closer s2 g12.valid, e2]
    have e3 : (if_middle fr s2).exited_block_ = false := by rw [if_middle_eq]
    have g34 := run_grow fb _ s4 v3 hfb
    have t4 := ihf _ s4 v3 hfb
    have e4 := (run_balanced fb _ s4 hfb).exited
    rw [e3] at e4
    rw [if_close_eq]
    simp only
    rw [totalTerms_closer s4 g34.valid, e4, t4, t3, t2, t1]
    simp only [termsOf]
    omega
  | if_then c tb iht =>
    intro s s' hv h
    obtain ⟨m, s1, s2, hopen, htb, rfl⟩ := (if_then_ok_iff c (run tb) s s').mp h
    have g1 := grow_if_then_open hopen hv
    obtain ⟨hex, hm, hs1⟩ := if_then_open_ok hopen
    have t1 : totalTerms s1.blocks = totalTerms s.blocks + 1 := by
      rw [hs1]
      simp only
      rw [totalTerms_open _ _ _ hv (by simp)]
      simp [Inst.isTerminator]
    have e1 : s1.exited_block_ = false := by rw [hs1]; exact hex
    have g12 := run_grow tb s1 s2 g1.valid htb
    have t2 := iht s1 s2 g1.valid htb
    have e2 := (run_balanced tb s1 s2 htb).exited
    rw [e1] at e2
    rw [if_then_close_eq]
    simp only
    rw [totalTerms_closer s2 g12.valid, e2, t2, t1]
    simp only [termsOf]
    omega
  | while_ c body ihb =>
    intro s s' hv h
    obtain ⟨fr, s1, s2, hopen, hbody, rfl⟩ := (while_ok_iff c (run body) s s').mp h
    have g1 := grow_while_open hopen hv
    obtain ⟨hex, hex1, _, _, _, _, _, _, _, _, _, _, _, xs, ys, d1, d2, hpx, hpy, hb, _⟩ :=
      while_open_ok hopen
    have t1 : totalTerms s1.blocks = totalTerms s.blocks + 2 := by
      rw [hb, totalTerms_appendAt, totalTerms_open _ _ _ (by simpa using hv) (by simp),
        totalTerms_appendAt, if_pos hv,
        if_pos (by simp only [length_appendAt, List.length_append, List.length_cons,
          List.length_nil]; omega)]
      simp [countTerms_plain hpx, countTerms_plain hpy, Inst.isTerminator]
    have g12 := run_grow body s1 s2 g1.valid hbody
    have t2 := ihb s1 s2 g1.valid hbody
    have e2 := (run_balanced body s1 s2 hbody).exited
    rw [hex1] at e2
    rw [while_close_eq]
    simp only
    rw [totalTerms_closer s2 g12.valid, e2, t2, t1]
    simp only [termsOf]
    omega
  | break_ =>
    intro s s' hv h
    obtain ⟨b, _, rfl⟩ := break_ok h
    simp only
    rw [totalTerms_appendAt, if_pos hv]
    simp [Inst.isTerminator, termsOf]
  | continue_ =>
    intro s s' hv h
    obtain ⟨b, _, rfl⟩ := continue_ok h
    simp only
    rw [totalTerms_appendAt, if_pos hv]
    simp [Inst.isTerminator, termsOf]
  | return_ =>
    intro s s' hv h
    simp only [run, return_eq, Except.ok.injEq] at h
    subst h
    simp only
    rw [totalTerms_appendAt, if_pos hv]
    simp [Inst.isTerminator, termsOf]
  | return_value v =>
    intro s s' hv h
    simp only [run, return_value_eq, Except.ok.injEq] at h
    subst h
    simp only
    rw [totalTerms_appendAt, if_pos hv]
    simp [Inst.isTerminator, termsOf]
  | declare ty n =>
    intro s s' hv h
    simp only [run, declare_eq, Except.ok.injEq] at h
    subst h
    obtain ⟨e, he, _⟩ := InsertAtEntry_blocks s (Op.value (LLValue.alloca ty.llvm n))
    simp only [he]
    rw [totalTerms_prependAt _ _ _ (plain_single_op _ _)]
    rfl
  | set x v =>
    intro s s' hv h
    simp only [run, set_eq, Except.ok.injEq] at h
    subst h
    simp only
    rw [totalTerms_appendAt, if_pos hv]
    simp [Inst.isTerminator, termsOf]
  | get x =>
    intro s s' hv h
    simp only [run, get_eq, Except.ok.injEq] at h
    subst h
    simp only
    rw [totalTerms_appendAt, if_pos hv]
    simp [Inst.isTerminator, termsOf]

/-! ## Debug locations of terminators -/

theorem mem_modifyAt {α : Type} (f : α → α) (l : List α) (i : Nat) (b : α)
    (h : b ∈ modifyAt f l i) : b ∈ l ∨ ∃ a ∈ l, b = f a := by
  induction l generalizing i with
  | nil => simp [modifyAt] at h
  | cons x xs ih =>
    cases i with
    | zero =>
      simp only [modifyAt, List.mem_cons] at h
      rcases h with h | h
      · exact Or.inr ⟨x, List.mem_cons_self _ _, h⟩
      · exact Or.inl (List.mem_cons_of_mem _ h)
    | succ i =>
      simp only [modifyAt, List.mem_cons] at h
      rcases h with h | h
      · exact Or.inl (by rw [h]; exact List.mem_cons_self _ _)
      · rcases ih i h with h | ⟨a, ha, hb⟩
        · exact Or.inl (List.mem_cons_of_mem _ h)
        · exact Or.inr ⟨a, List.mem_cons_of_mem _ ha, hb⟩

theorem allTagged_appendAt {bs : List BasicBlock} (h : AllTagged bs) (c : Nat)
    (xs : List Instruction) (hx : ∀ x ∈ xs, x.inst.isTerminator = true → x.dbg ≠ none) :
    AllTagged (appendAt bs c xs) := by
  intro b hb x hxb
  rcases mem_modifyAt _ _ _ _ hb with hb | ⟨a, ha, rfl⟩
  · exact h b hb x hxb
  · simp only [BasicBlock.append, List.mem_append] at hxb
    rcases hxb with hxb | hxb
    · exact h a ha x hxb
    · exact hx x hxb

theorem allTagged_prependAt {bs : List BasicBlock} (h : AllTagged bs) (c : Nat)
    (xs : List Instruction) (hx : ∀ x ∈ xs, x.inst.isTerminator = true → x.dbg ≠ none) :
    AllTagged (prependAt bs c xs) := by
  intro b hb x hxb
  rcases mem_modifyAt _ _ _ _ hb with hb | ⟨a, ha, rfl⟩
  · exact h b hb x hxb
  · simp only [BasicBlock.prepend, List.mem_append] at hxb
    rcases hxb with hxb | hxb
    · exact hx x hxb
    · exact h a ha x hxb

theorem allTagged_append {bs : List BasicBlock} (h : AllTagged bs) (news : List BasicBlock)
    (hn : ∀ b ∈ news, b.insts = []) : AllTagged (bs ++ news) := by
  intro b hb x hxb
  rcases List.mem_append.mp hb with hb | hb
  · exact h b hb x hxb
  · rw [hn b hb] at hxb
    simp at hxb

theorem tagged_of_plain {xs : List Instruction} (h : Plain xs) :
    ∀ x ∈ xs, x.inst.isTerminator = true → x.dbg ≠ none := by
  intro x hx ht
  obtain ⟨o, ho⟩ := h x hx
  rw [ho] at ht
  simp [Inst.isTerminator] at ht

theorem tagged_append {xs ys : List Instruction}
    (hx : ∀ x ∈ xs, x.inst.isTerminator = true → x.dbg ≠ none)
    (hy : ∀ x ∈ ys, x.inst.isTerminator = true → x.dbg ≠ none) :
    ∀ x ∈ xs ++ ys, x.inst.isTerminator = true → x.dbg ≠ none := by
  intro x h
  rcases List.mem_append.mp h with h | h
  · exact hx x h
  · exact hy x h

theorem tagged_single (i : Inst) (d : Option DILocation) (hd : d ≠ none) :
    ∀ x ∈ [Instruction.mk i d], x.inst.isTerminator = true → x.dbg ≠ none := by
  intro x h _
  simp at h
  rw [h]
  exact hd

theorem tagged_closer (e : Bool) (i : Inst) (l : DILocation) :
    ∀ x ∈ (if e = true then [] else [Instruction.mk i (some l)]),
      x.inst.isTerminator = true → x.dbg ≠ none := by
  cases e
  · exact tagged_single i _ (by simp)
  · intro x h
    simp at h

theorem run_allTagged (p : Prog) : ∀ (s s' : jit_module_builder),
    run p s = Except.ok s' → AllTagged s.blocks → AllTagged s'.blocks := by
  induction p with
  | skip =>
    intro s s' h
    simp only [run, Except.ok.injEq] at h
    subst h
    exact fun h => h
  | seq a b iha ihb =>
    intro s s' h ht
    obtain ⟨s1, h1, h2⟩ := (run_seq_ok_iff a b s s').mp h
    exact ihb s1 s' h2 (iha s s1 h1 ht)
  | if_ c tb fb iht ihf =>
    intro s s' h ht
    obtain ⟨fr, s1, s2, s4, hopen, htb, hfb, rfl⟩ := (if_ok_iff c (run tb) (run fb) s s').mp h
    obtain ⟨_, _, hs1⟩ := if_open_ok hopen
    have a1 : AllTagged s1.blocks := by
      rw [hs1]
      exact allTagged_appendAt (allTagged_append ht _ (by simp)) _ _
        (tagged_append (tagged_of_plain (plain_tagOps _ _)) (tagged_single _ _ (by simp)))
    have a2 := iht s1 s2 htb a1
    have a3 : AllTagged (if_middle fr s2).blocks := by
      rw [if_middle_eq]
      exact allTagged_appendAt a2 _ _ (tagged_closer _ _ _)
    have a4 := ihf _ s4 hfb a3
    rw [if_close_eq]
    exact allTagged_appendAt a4 _ _ (tagged_closer _ _ _)
  | if_then c tb iht =>
    intro s s' h ht
    obtain ⟨m, s1, s2, hopen, htb, rfl⟩ := (if_then_ok_iff c (run tb) s s').mp h
    obtain ⟨_, _, hs1⟩ := if_then_open_ok hopen
    have a1 : AllTagged s1.blocks := by
      rw [hs1]
      exact allTagged_appendAt (allTagged_append ht _ (by simp)) _ _
        (tagged_append (tagged_of_plain (plain_tagOps _ _)) (tagged_single _ _ (by simp)))
    have a2 := iht s1 s2 htb a1
    rw [if_then_close_eq]
    exact allTagged_appendAt a2 _ _ (tagged_closer _ _ _)
  | while_ c body ihb =>
    intro s s' h ht
    obtain ⟨fr, s1, s2, hopen, hbody, rfl⟩ := (while_ok_iff c (run body) s s').mp h
    obtain ⟨_, _, _, _, _, _, _, _, _, _, _, _, _, xs, ys, d1, d2, hpx, hpy, hb, _, hd1, hd2⟩ :=
      while_open_ok hopen
    have a1 : AllTagged s1.blocks := by
      rw [hb]
      exact allTagged_appendAt (allTagged_appendAt (allTagged_append
        (allTagged_appendAt ht _ _ (tagged_of_plain hpx)) _ (by simp)) _ _
        (tagged_single _ _ hd1)) _ _ (tagged_append (tagged_of_plain hpy) (tagged_single _ _ hd2))
    have a2 := ihb s1 s2 hbody a1
    rw [while_close_eq]
    exact allTagged_appendAt a2 _ _ (tagged_closer _ _ _)
  | break_ =>
    intro s s' h ht
    obtain ⟨b, _, rfl⟩ := break_ok h
    exact allTagged_appendAt ht _ _ (tagged_single _ _ (by simp))
  | continue_ =>
    intro s s' h ht
    obtain ⟨b, _, rfl⟩ := continue_ok h
    exact allTagged_appendAt ht _ _ (tagged_single _ _ (by simp))
  | return_ =>
    intro s s' h ht
    simp only [run, return_eq, Except.ok.injEq] at h
    subst h
    exact allTagged_appendAt ht _ _ (tagged_single _ _ (by simp))
  | return_value v =>
    intro s s' h ht
    simp only [run, return_value_eq, Except.ok.injEq] at h
    subst h
    exact allTagged_appendAt ht _ _
      (tagged_append (tagged_of_plain (plain_tagOps _ _)) (tagged_single _ _ (by simp)))
  | declare ty n =>
    intro s s' h ht
    simp only [run, declare_eq, Except.ok.injEq] at h
    subst h
    obtain ⟨e, he, _⟩ := InsertAtEntry_blocks s (Op.value (LLValue.alloca ty.llvm n))
    simp only [he]
    exact allTagged_prependAt ht _ _ (tagged_of_plain (plain_single_op _ _))
  | set x v =>
    intro s s' h ht
    simp only [run, set_eq, Except.ok.injEq] at h
    subst h
    exact allTagged_appendAt ht _ _
      (tagged_of_plain (plain_append (plain_tagOps _ _) (plain_single_op _ _)))
  | get x =>
    intro s s' h ht
    simp only [run, get_eq, Except.ok.injEq] at h
    subst h
    exact allTagged_appendAt ht _ _ (tagged_of_plain (plain_single_op _ _))

/-! ## Branch targets and the merge block -/

theorem allInsts_appendAt {P : Instruction → Prop} {bs : List BasicBlock} (h : AllInsts P bs)
    (c : Nat) (xs : List Instruction) (hx : ∀ x ∈ xs, P x) : AllInsts P (appendAt bs c xs) := by
  intro b hb x hxb
  rcases mem_modifyAt _ _ _ _ hb with hb | ⟨a, ha, rfl⟩
  · exact h b hb x hxb
  · simp only [BasicBlock.append, List.mem_append] at hxb
    rcases hxb with hxb | hxb
    · exact h a ha x hxb
    · exact hx x hxb

theorem allInsts_prependAt {P : Instruction → Prop} {bs : List BasicBlock} (h : AllInsts P bs)
    (c : Nat) (xs : List Instruction) (hx : ∀ x ∈ xs, P x) : AllInsts P (prependAt bs c xs) := by
  intro b hb x hxb
  rcases mem_modifyAt _ _ _ _ hb with hb | ⟨a, ha, rfl⟩
  · exact h b hb x hxb
  · simp only [BasicBlock.prepend, List.mem_append] at hxb
    rcases hxb with hxb | hxb
    · exact hx x hxb
    · exact h a ha x hxb

theorem allInsts_append {P : Instruction → Prop} {bs : List BasicBlock} (h : AllInsts P bs)
    (news : List BasicBlock) (hn : ∀ b ∈ news, b.insts = []) : AllInsts P (bs ++ news) := by
  intro b hb x hxb
  rcases List.mem_append.mp hb with hb | hb
  · exact h b hb x hxb
  · rw [hn b hb] at hxb
    simp at hxb

theorem noTarget_of_plain (m : Nat) {xs : List Instruction} (h : Plain xs) :
    ∀ x ∈ xs, m ∉ x.inst.targets := by
  intro x hx
  obtain ⟨o, ho⟩ := h x hx
  rw [ho]
  simp [Inst.targets]

theorem all_append {P : Instruction → Prop} {xs ys : List Instruction}
    (hx : ∀ x ∈ xs, P x) (hy : ∀ x ∈ ys, P x) : ∀ x ∈ xs ++ ys, P x := by
  intro x h
  rcases List.mem_append.mp h with h | h
  · exact hx x h
  · exact hy x h

theorem all_single {P : Instruction → Prop} (x : Instruction) (h : P x) : ∀ y ∈ [x], P y := by
  intro y hy
  simp at hy
  rw [hy]
  exact h

theorem noTarget_closer (m : Nat) (e : Bool) (dest : Nat) (d : Option DILocation)
    (h : e = false → dest ≠ m) :
    ∀ x ∈ (if e = true then [] else [Instruction.mk (Inst.br dest) d]), m ∉ x.inst.targets := by
  cases e
  · apply all_single
    simp [Inst.targets]
    exact fun hh => h rfl hh.symm
  · intro x hx
    simp at hx

theorem run_noRef (m : Nat) (p : Prog) : ∀ (s s' : jit_module_builder),
    NoRef m s → run p s = Except.ok s' → NoRef m s' := by
  induction p with
  | skip =>
    intro s s' hn h
    simp only [run, Except.ok.injEq] at h
    subst h
    exact hn
  | seq a b iha ihb =>
    intro s s' hn h
    obtain ⟨s1, h1, h2⟩ := (run_seq_ok_iff a b s s').mp h
    exact ihb s1 s' (iha s s1 hn h1) h2
  | if_ c tb fb iht ihf =>
    intro s s' hn h
    obtain ⟨fr, s1, s2, s4, hopen, htb, hfb, rfl⟩ := (if_ok_iff c (run tb) (run fb) s s').mp h
    obtain ⟨hm, hall, hlc, hlb⟩ := hn
    obtain ⟨_, hfr, hs1⟩ := if_open_ok hopen
    have n1 : NoRef m s1 := by
      rw [hs1]
      refine ⟨by simp; omega, ?_, hlc, hlb⟩
      exact allInsts_appendAt (allInsts_append hall _ (by simp)) _ _
        (all_append (noTarget_of_plain m (plain_tagOps _ _))
          (all_single _ (by simp [Inst.targets]; omega)))
    have n2 := iht s1 s2 n1 htb
    have n3 : NoRef m (if_middle fr s2) := by
      rw [if_middle_eq]
      refine ⟨by simpa using n2.1, ?_, n2.2.2.1, n2.2.2.2⟩
      exact allInsts_appendAt n2.2.1 _ _ (noTarget_closer m _ _ _ (fun _ => by rw [hfr]; simp; omega))
    have n4 := ihf _ s4 n3 hfb
    rw [if_close_eq]
    refine ⟨by simpa using n4.1, ?_, n4.2.2.1, n4.2.2.2⟩
    exact allInsts_appendAt n4.2.1 _ _ (noTarget_closer m _ _ _ (fun _ => by rw [hfr]; simp; omega))
  | if_then c tb iht =>
    intro s s' hn h
    obtain ⟨mb, s1, s2, hopen, htb, rfl⟩ := (if_then_ok_iff c (run tb) s s').mp h
    obtain ⟨hm, hall, hlc, hlb⟩ := hn
    obtain ⟨_, hmb, hs1⟩ := if_then_open_ok hopen
    have n1 : NoRef m s1 := by
      rw [hs1]
      refine ⟨by simp; omega, ?_, hlc, hlb⟩
      exact allInsts_appendAt (allInsts_append hall _ (by simp)) _ _
        (all_append (noTarget_of_plain m (plain_tagOps _ _))
          (all_single _ (by simp [Inst.targets]; omega)))
    have n2 := iht s1 s2 n1 htb
    rw [if_then_close_eq]
    refine ⟨by simpa using n2.1, ?_, n2.2.2.1, n2.2.2.2⟩
    exact allInsts_appendAt n2.2.1 _ _ (noTarget_closer m _ _ _ (fun _ => by omega))
  | while_ c body ihb =>
    intro s s' hn h
    obtain ⟨fr, s1, s2, hopen, hbody, rfl⟩ := (while_ok_iff c (run body) s s').mp h
    obtain ⟨hm, hall, hlc, hlb⟩ := hn
    obtain ⟨_, _, hwc, hwb, hpl, _, hl, _, _, _, _, _, _, xs, ys, d1, d2, hpx, hpy, hb, _⟩ :=
      while_open_ok hopen
    have n1 : NoRef m s1 := by
      refine ⟨by rw [hb]; simp; omega, ?_, by rw [hl]; simp; omega, by rw [hl]; simp; omega⟩
      rw [hb]
      exact allInsts_appendAt (allInsts_appendAt (allInsts_append
        (allInsts_appendAt hall _ _ (noTarget_of_plain m hpx)) _ (by simp)) _ _
        (all_single _ (by simp [Inst.targets]; omega))) _ _
        (all_append (noTarget_of_plain m hpy) (all_single _ (by simp [Inst.targets]; omega)))
    have n2 := ihb s1 s2 n1 hbody
    rw [while_close_eq]
    refine ⟨by simpa using n2.1, ?_, by simp only; rw [hpl]; exact hlc,
      by simp only; rw [hpl]; exact hlb⟩
    exact allInsts_appendAt n2.2.1 _ _ (noTarget_closer m _ _ _ (fun _ => by omega))
  | break_ =>
    intro s s' hn h
    obtain ⟨b, hb, rfl⟩ := break_ok h
    obtain ⟨hm, hall, hlc, hlb⟩ := hn
    refine ⟨by simpa using hm, ?_, hlc, hlb⟩
    exact allInsts_appendAt hall _ _ (all_single _ (by
      simp only [Inst.targets, List.mem_singleton]
      intro hh
      exact hlb (by rw [hb, hh])))
  | continue_ =>
    intro s s' hn h
    obtain ⟨b, hb, rfl⟩ := continue_ok h
    obtain ⟨hm, hall, hlc, hlb⟩ := hn
    refine ⟨by simpa using hm, ?_, hlc, hlb⟩
    exact allInsts_appendAt hall _ _ (all_single _ (by
      simp only [Inst.targets, List.mem_singleton]
      intro hh
      exact hlc (by rw [hb, hh])))
  | return_ =>
    intro s s' hn h
    simp only [run, return_eq, Except.ok.injEq] at h
    subst h
    obtain ⟨hm, hall, hlc, hlb⟩ := hn
    refine ⟨by simpa using hm, ?_, hlc, hlb⟩
    exact allInsts_appendAt hall _ _ (all_single _ (by simp [Inst.targets]))
  | return_value v =>
    intro s s' hn h
    simp only [run, return_value_eq, Except.ok.injEq] at h
    subst h
    obtain ⟨hm, hall, hlc, hlb⟩ := hn
    refine ⟨by simpa using hm, ?_, hlc, hlb⟩
    exact allInsts_appendAt hall _ _ (all_append (noTarget_of_plain m (plain_tagOps _ _))
      (all_single _ (by simp [Inst.targets])))
  | declare ty n =>
    intro s s' hn h
    simp only [run, declare_eq, Except.ok.injEq] at h
    subst h
    obtain ⟨hm, hall, hlc, hlb⟩ := hn
    obtain ⟨e, he, _⟩ := InsertAtEntry_blocks s (Op.value (LLValue.alloca ty.llvm n))
    refine ⟨by simp only [he]; simpa using hm, ?_, hlc, hlb⟩
    simp only [he]
    exact allInsts_prependAt hall _ _ (noTarget_of_plain m (plain_single_op _ _))
  | set x v =>
    intro s s' hn h
    simp only [run, set_eq, Except.ok.injEq] at h
    subst h
    obtain ⟨hm, hall, hlc, hlb⟩ := hn
    refine ⟨by simpa using hm, ?_, hlc, hlb⟩
    exact allInsts_appendAt hall _ _
      (noTarget_of_plain m (plain_append (plain_tagOps _ _) (plain_single_op _ _)))
  | get x =>
    intro s s' hn h
    simp only [run, get_eq, Except.ok.injEq] at h
    subst h
    obtain ⟨hm, hall, hlc, hlb⟩ := hn
    refine ⟨by simpa using hm, ?_, hlc, hlb⟩
    exact allInsts_appendAt hall _ _ (noTarget_of_plain m (plain_single_op _ _))
theorem exitsAfter_of_endsExit (p : Prog) : ∀ e, endsExit p = true → exitsAfter e p = true := by
  induction p with
  | seq a b _ ihb => exact fun e h => ihb _ h
  | break_ => exact fun _ _ => rfl
  | continue_ => exact fun _ _ => rfl
  | return_ => exact fun _ _ => rfl
  | return_value v => exact fun _ _ => rfl
  | _ => intro e h; simp [endsExit] at h

theorem run_flat_cursor (p : Prog) : ∀ (s s' : jit_module_builder),
    flat p = true → run p s = Except.ok s' → s'.insert_block = s.insert_block := by
  induction p with
  | skip =>
    intro s s' _ h
    simp only [run, Except.ok.injEq] at h
    subst h
    rfl
  | seq a b iha ihb =>
    intro s s' hf h
    simp only [flat, Bool.and_eq_true] at hf
    obtain ⟨s1, h1, h2⟩ := (run_seq_ok_iff a b s s').mp h
    rw [ihb s1 s' hf.2 h2, iha s s1 hf.1 h1]
  | if_ c tb fb _ _ => intro s s' hf; simp [flat] at hf
  | if_then c tb _ => intro s s' hf; simp [flat] at hf
  | while_ c body _ => intro s s' hf; simp [flat] at hf
  | break_ =>
    intro s s' _ h
    obtain ⟨b, _, rfl⟩ := break_ok h
    rfl
  | continue_ =>
    intro s s' _ h
    obtain ⟨b, _, rfl⟩ := continue_ok h
    rfl
  | return_ =>
    intro s s' _ h
    simp only [run, return_eq, Except.ok.injEq] at h
    subst h
    rfl
  | return_value v =>
    intro s s' _ h
    simp only [run, return_value_eq, Except.ok.injEq] at h
    subst h
    rfl
  | declare ty n =>
    intro s s' _ h
    simp only [run, declare_eq, Except.ok.injEq] at h
    subst h
    rfl
  | set x v =>
    intro s s' _ h
    simp only [run, set_eq, Except.ok.injEq] at h
    subst h
    rfl
  | get x =>
    intro s s' _ h
    simp only [run, get_eq, Except.ok.injEq] at h
    subst h
    rfl

theorem last_of_appendAt (bs : List BasicBlock) (c : Nat) (hc : c < bs.length)
    (pre : List Instruction) (t : Instruction) :
    (instsAt (appendAt bs c (pre ++ [t])) c).getLast? = some t := by
  rw [instsAt_appendAt, if_pos ⟨rfl, hc⟩, ← List.append_assoc]
  simp

theorem run_endsExit_last (p : Prog) : ∀ (s s' : jit_module_builder),
    s.insert_block < s.blocks.length → endsExit p = true → run p s = Except.ok s' →
    ∃ x, (instsAt s'.blocks s'.insert_block).getLast? = some x ∧ x.inst.isTerminator = true := by
  induction p with
  | seq a b _ ihb =>
    intro s s' hv he h
    obtain ⟨s1, h1, h2⟩ := (run_seq_ok_iff a b s s').mp h
    exact ihb s1 s' (run_grow a s s1 hv h1).valid he h2
  | break_ =>
    intro s s' hv _ h
    obtain ⟨b, _, rfl⟩ := break_ok h
    exact ⟨_, last_of_appendAt s.blocks s.insert_block hv [] _, rfl⟩
  | continue_ =>
    intro s s' hv _ h
    obtain ⟨b, _, rfl⟩ := continue_ok h
    exact ⟨_, last_of_appendAt s.blocks s.insert_block hv [] _, rfl⟩
  | return_ =>
    intro s s' hv _ h
    simp only [run, return_eq, Except.ok.injEq] at h
    subst h
    exact ⟨_, last_of_appendAt s.blocks s.insert_block hv [] _, rfl⟩
  | return_value v =>
    intro s s' hv _ h
    simp only [run, return_value_eq, Except.ok.injEq] at h
    subst h
    exact ⟨_, last_of_appendAt s.blocks s.insert_block hv _ _, rfl⟩
  | _ => intro s s' _ he; simp [endsExit] at he

theorem grow_head {s x : jit_module_builder} (g : Grow s x) (h : s.function_blocks ≠ []) :
    x.function_blocks ≠ [] ∧ x.function_blocks.head? = s.function_blocks.head? := by
  obtain ⟨l, hl, _⟩ := g.fblocks
  rw [hl]
  exact ⟨fun h0 => h (List.append_eq_nil.mp h0).1, head?_append_of_ne_nil _ _ h⟩

theorem head_lt_of_attached {s : jit_module_builder} (h : ∀ b ∈ s.function_blocks, b < s.blocks.length)
    (i : Nat) (hi : s.blocks.length ≤ i) : s.function_blocks.head? ≠ some i := by
  intro hh
  have := h i (List.mem_of_mem_head? hh)
  omega

/-! ## Created and attached blocks -/

theorem map_modifyAt {α β : Type} (g : α → β) (f : α → α) (hf : ∀ x, g (f x) = g x)
    (l : List α) (i : Nat) : (modifyAt f l i).map g = l.map g := by
  induction l generalizing i with
  | nil => rfl
  | cons x xs ih =>
    cases i with
    | zero => simp [modifyAt, hf]
    | succ i => simp [modifyAt, ih]

@[simp] theorem names_appendAt (bs : List BasicBlock) (c : Nat) (xs : List Instruction) :
    (appendAt bs c xs).map BasicBlock.name = bs.map BasicBlock.name :=
  map_modifyAt BasicBlock.name (fun b => b.append xs) (fun _ => rfl) bs c

@[simp] theorem names_prependAt (bs : List BasicBlock) (c : Nat) (xs : List Instruction) :
    (prependAt bs c xs).map BasicBlock.name = bs.map BasicBlock.name :=
  map_modifyAt BasicBlock.name (fun b => b.prepend xs) (fun _ => rfl) bs c

theorem length_namesOf (p : Prog) : (namesOf p).length = blocksOf p := by
  induction p <;> simp [namesOf, blocksOf, *] <;> omega

theorem length_attachOrder (p : Prog) : ∀ n, (attachOrder n p).length = blocksOf p := by
  induction p <;> intro n <;> simp [attachOrder, blocksOf, *] <;> omega

theorem range'_split (n a b : Nat) :
    List.range' n (a + b) = List.range' n a ++ List.range' (n + a) b := by
  rw [List.range'_append_1, Nat.add_comm]

/-- Each block a program creates is attached exactly once. -/
theorem attachOrder_perm (p : Prog) :
    ∀ n, (attachOrder n p).Perm (List.range' n (blocksOf p)) := by
  induction p with
  | seq a b iha ihb =>
    intro n
    simp only [attachOrder, blocksOf]
    rw [range'_split]
    exact (iha n).append (ihb _)
  | if_ c tb fb iht ihf =>
    intro n
    simp only [attachOrder, blocksOf]
    have e : List.range' n (3 + blocksOf tb + blocksOf fb) =
        [n, n + 1, n + 2] ++ (List.range' (n + 3) (blocksOf tb) ++
          List.range' (n + 3 + blocksOf tb) (blocksOf fb)) := by
      rw [← range'_split, show 3 + blocksOf tb + blocksOf fb =
        (blocksOf tb + blocksOf fb) + 1 + 1 + 1 by omega]
      simp [List.range'_succ]
    rw [e]
    have h1 := iht (n + 3)
    have h2 := ihf (n + 3 + blocksOf tb)
    have h3 : ([n] ++ attachOrder (n + 3) tb ++ [n + 1] ++
        attachOrder (n + 3 + blocksOf tb) fb ++ [n + 2]).Perm
        ([n, n + 1, n + 2] ++ (attachOrder (n + 3) tb ++
          attachOrder (n + 3 + blocksOf tb) fb)) := by
      simp only [List.append_assoc, List.singleton_append, List.cons_append, List.nil_append]
      refine List.Perm.cons _ ?_
      refine (List.perm_middle).trans (List.Perm.cons _ ?_)
      rw [← List.append_assoc]
      exact List.perm_append_singleton _ _ |>.trans (by simp)
    exact h3.trans ((List.Perm.refl _).append (h1.append h2))
  | if_then c tb iht =>
    intro n
    simp only [attachOrder, blocksOf]
    have e : List.range' n (2 + blocksOf tb) = [n, n + 1] ++ List.range' (n + 2) (blocksOf tb) := by
      rw [show 2 + blocksOf tb = blocksOf tb + 1 + 1 by omega]
      simp [List.range'_succ]
    rw [e]
    have h3 : ([n] ++ attachOrder (n + 2) tb ++ [n + 1]).Perm
        ([n, n + 1] ++ attachOrder (n + 2) tb) := by
      simp only [List.append_assoc, List.singleton_append, List.cons_append, List.nil_append]
      exact List.Perm.cons _ (List.perm_append_singleton _ _)
    exact h3.trans ((List.Perm.refl _).append (iht _))
  | while_ c body ihb =>
    intro n
    simp only [attachOrder, blocksOf]
    have e : List.range' n (3 + blocksOf body) =
        [n, n + 1, n + 2] ++ List.range' (n + 3) (blocksOf body) := by
      rw [show 3 + blocksOf body = blocksOf body + 1 + 1 + 1 by omega]
      simp [List.range'_succ]
    rw [e]
    have h3 : ([n, n + 1] ++ attachOrder (n + 3) body ++ [n + 2]).Perm
        ([n, n + 1, n + 2] ++ attachOrder (n + 3) body) := by
      simp only [List.append_assoc, List.singleton_append, List.cons_append, List.nil_append]
      exact List.Perm.cons _ (List.Perm.cons _ (List.perm_append_singleton _ _))
    exact h3.trans ((List.Perm.refl _).append (ihb _))
  | skip => intro n; simp [attachOrder, blocksOf]
  | break_ => intro n; simp [attachOrder, blocksOf]
  | continue_ => intro n; simp [attachOrder, blocksOf]
  | return_ => intro n; simp [attachOrder, blocksOf]
  | return_value v => intro n; simp [attachOrder, blocksOf]
  | declare ty nm => intro n; simp [attachOrder, blocksOf]
  | set x v => intro n; simp [attachOrder, blocksOf]
  | get x => intro n; simp [attachOrder, blocksOf]

theorem getLast?_append_getD (A B : List Nat) (d : Nat) :
    ((A ++ B).getLast?).getD d = (B.getLast?).getD ((A.getLast?).getD d) := by
  rw [List.getLast?_append]
  cases B.getLast? <;> simp

/-- The blocks a run creates and attaches, and where it leaves the cursor. -/
theorem run_attach (p : Prog) : ∀ (s s' : jit_module_builder), run p s = Except.ok s' →
    s'.blocks.map BasicBlock.name = s.blocks.map BasicBlock.name ++ namesOf p ∧
    s'.function_blocks = s.function_blocks ++ attachOrder s.blocks.length p ∧
    s'.insert_block = ((attachOrder s.blocks.length p).getLast?).getD s.insert_block := by
  have hlen : ∀ (x y : jit_module_builder) (q : Prog),
      y.blocks.map BasicBlock.name = x.blocks.map BasicBlock.name ++ namesOf q →
      y.blocks.length = x.blocks.length + blocksOf q := by
    intro x y q h
    have := congrArg List.length h
    simpa [length_namesOf] using this
  induction p with
  | skip =>
    intro s s' h
    simp only [run, Except.ok.injEq] at h
    subst h
    simp [namesOf, attachOrder]
  | seq a b iha ihb =>
    intro s s' h
    obtain ⟨s1, h1, h2⟩ := (run_seq_ok_iff a b s s').mp h
    obtain ⟨a1, a2, a3⟩ := iha s s1 h1
    obtain ⟨b1, b2, b3⟩ := ihb s1 s' h2
    have hl := hlen s s1 a a1
    refine ⟨?_, ?_, ?_⟩
    · rw [b1, a1]; simp [namesOf]
    · rw [b2, a2, hl]; simp [attachOrder]
    · rw [b3, a3, hl]
      simp only [attachOrder]
      rw [getLast?_append_getD]
  | if_ c tb fb iht ihf =>
    intro s s' h
    obtain ⟨fr, s1, s2, s4, hopen, htb, hfb, rfl⟩ := (if_ok_iff c (run tb) (run fb) s s').mp h
    obtain ⟨_, hfr, hs1⟩ := if_open_ok hopen
    have n1 : s1.blocks.map BasicBlock.name = s.blocks.map BasicBlock.name ++
        ["true_block", "false_block", "merge_block"] := by rw [hs1]; simp
    have hl1 : s1.blocks.length = s.blocks.length + 3 := by rw [hs1]; simp
    have f1 : s1.function_blocks = s.function_blocks ++ [s.blocks.length] := by rw [hs1]
    obtain ⟨a1, a2, a3⟩ := iht s1 s2 htb
    have hl2 := hlen s1 s2 tb a1
    have n3 : (if_middle fr s2).blocks.map BasicBlock.name = s2.blocks.map BasicBlock.name := by
      rw [if_middle_eq]; simp
    have hl3 : (if_middle fr s2).blocks.length = s2.blocks.length := by
      rw [if_middle_eq]; simp
    have f3 : (if_middle fr s2).function_blocks = s2.function_blocks ++ [s.blocks.length + 1] := by
      rw [if_middle_eq, hfr]
    obtain ⟨b1, b2, b3⟩ := ihf _ s4 hfb
    refine ⟨?_, ?_, ?_⟩
    · rw [if_close_eq]
      simp only [names_appendAt]
      rw [b1, n3, a1, n1]
      simp [namesOf]
    · rw [if_close_eq, hfr]
      simp only
      rw [b2, f3, a2, f1, hl3, hl2, hl1]
      simp [attachOrder]
    · rw [if_close_eq, hfr]
      simp only [attachOrder]
      rw [getLast?_append_getD]
      rfl
  | if_then c tb iht =>
    intro s s' h
    obtain ⟨m, s1, s2, hopen, htb, rfl⟩ := (if_then_ok_iff c (run tb) s s').mp h
    obtain ⟨_, hm, hs1⟩ := if_then_open_ok hopen
    have n1 : s1.blocks.map BasicBlock.name = s.blocks.map BasicBlock.name ++
        ["true_block", "merge_block"] := by rw [hs1]; simp
    have hl1 : s1.blocks.length = s.blocks.length + 2 := by rw [hs1]; simp
    have f1 : s1.function_blocks = s.function_blocks ++ [s.blocks.length] := by rw [hs1]
    obtain ⟨a1, a2, a3⟩ := iht s1 s2 htb
    refine ⟨?_, ?_, ?_⟩
    · rw [if_then_close_eq]
      simp only [names_appendAt]
      rw [a1, n1]
      simp [namesOf]
    · rw [if_then_close_eq, hm]
      simp only
      rw [a2, f1, hl1]
      simp [attachOrder]
    · rw [if_then_close_eq, hm]
      simp only [attachOrder]
      rw [getLast?_append_getD]
      rfl
  | while_ c body ihb =>
    intro s s' h
    obtain ⟨fr, s1, s2, hopen, hbody, rfl⟩ := (while_ok_iff c (run body) s s').mp h
    obtain ⟨_, _, _, hbr, _, _, _, f1, _, _, _, _, _, xs, ys, d1, d2, _, _, hb, _⟩ :=
      while_open_ok hopen
    have n1 : s1.blocks.map BasicBlock.name = s.blocks.map BasicBlock.name ++
        ["while_continue", "while_iteration", "while_break"] := by rw [hb]; simp
    have hl1 : s1.blocks.length = s.blocks.length + 3 := by rw [hb]; simp
    obtain ⟨a1, a2, a3⟩ := ihb s1 s2 hbody
    refine ⟨?_, ?_, ?_⟩
    · rw [while_close_eq]
      simp only [names_appendAt]
      rw [a1, n1]
      simp [namesOf]
    · rw [while_close_eq, hbr]
      simp only
      rw [a2, f1, hl1]
      simp [attachOrder]
    · rw [while_close_eq, hbr]
      simp only [attachOrder]
      rw [getLast?_append_getD]
      rfl
  | break_ =>
    intro s s' h
    obtain ⟨b, _, rfl⟩ := break_ok h
    simp [namesOf, attachOrder]
  | continue_ =>
    intro s s' h
    obtain ⟨b, _, rfl⟩ := continue_ok h
    simp [namesOf, attachOrder]
  | return_ =>
    intro s s' h
    rw [run, return_eq] at h
    simp only [Except.ok.injEq] at h
    subst h
    simp [namesOf, attachOrder]
  | return_value v =>
    intro s s' h
    rw [run, return_value_eq] at h
    simp only [Except.ok.injEq] at h
    subst h
    simp [namesOf, attachOrder]
  | declare ty n =>
    intro s s' h
    simp only [run, Except.ok.injEq] at h
    subst h
    rw [declare_eq]
    obtain ⟨e, he, _⟩ := InsertAtEntry_blocks s (Op.value (LLValue.alloca ty.llvm n))
    simp [namesOf, attachOrder, he]
  | set x v =>
    intro s s' h
    simp only [run, Except.ok.injEq] at h
    subst h
    rw [set_eq]
    simp [namesOf, attachOrder]
  | get x =>
    intro s s' h
    simp only [run, Except.ok.injEq] at h
    subst h
    rw [get_eq]
    simp [namesOf, attachOrder]

/-! ## Array element access -/

theorem widen_index_narrow (mb : jit_module_builder) (it : IndexType) (idx : LLValue)
    (h : it.size < 8) : mb.widen_index it idx = none := by
  simp [jit_module_builder.widen_index, h]

theorem widen_index_wide (mb : jit_module_builder) (it : IndexType) (idx : LLValue)
    (h : ¬ it.size < 8) : mb.widen_index it idx = some (idx, mb) := by
  simp [jit_module_builder.widen_index, h]

theorem index_narrow (x : Variable) (elem : TypeInfo) (it : IndexType) (v : Value)
    (s : jit_module_builder) (h : it.size < 8) : x.index elem it v s = none := by
  simp [Variable.index, widen_index_narrow _ _ _ h]

theorem setElem_narrow (x : Variable) (vty : TypeInfo) (it : IndexType) (idx_v value_v : Value)
    (s : jit_module_builder) (h : it.size < 8) : x.setElem vty it idx_v value_v s = none := by
  simp [Variable.setElem, widen_index_narrow _ _ _ h]

theorem index_eq (x : Variable) (elem : TypeInfo) (it : IndexType) (v : Value)
    (s : jit_module_builder) (h : ¬ it.size < 8) :
    x.index elem it v s =
      some (Value.mk "test_name" []
          (LLValue.load (LLValue.gep x.variable_ v.result) elem.alignment),
       { s with blocks := (appendAt s.blocks s.insert_block
          (tagOps s.current_debug_location v.ops ++
            [Instruction.mk (Inst.op (Op.value (LLValue.gep x.variable_ v.result)))
               s.current_debug_location,
             Instruction.mk (Inst.op (Op.value (LLValue.alloca elem.llvm "temporary_storage")))
               s.current_debug_location,
             Instruction.mk (Inst.op (Op.value
               (LLValue.load (LLValue.gep x.variable_ v.result) elem.alignment)))
               s.current_debug_location])) }) := by
  simp [Variable.index, widen_index_wide _ _ _ h, InsertOps_eq, appendAt_appendAt]

theorem foldl_append_string (l : List String) (a : String) :
    l.foldl (fun r s => r ++ s) a = a ++ l.foldl (fun r s => r ++ s) "" := by
  induction l generalizing a with
  | nil => simp
  | cons x xs ih =>
    simp only [List.foldl_cons]
    rw [ih (a ++ x), ih ("" ++ x)]
    simp [String.append_assoc]

theorem join_append_singleton (l : List String) (x : String) :
    String.join (l ++ [x]) = String.join l ++ x := by
  unfold String.join
  rw [List.foldl_append]
  simp

/-- One call of `add_line` appends the indentation, the line and a newline to the text. -/
theorem add_line_get (g : source_code_generator) (line : String) :
    (g.add_line line).2.get =
      g.get ++ (String.mk (List.replicate g.indent_ ' ') ++ line ++ "\n") := by
  simp [source_code_generator.get, join_append_singleton]

theorem line_count_append (a b : String) :
    source_code_generator.line_count (a ++ b) =
      source_code_generator.line_count a + source_code_generator.line_count b := by
  simp [source_code_generator.line_count, String.data_append, List.count_append]

theorem line_count_indent (n : Nat) :
    source_code_generator.line_count (String.mk (List.replicate n ' ')) = 0 := by
  simp [source_code_generator.line_count, List.count_replicate]

/-- One call of `add_line` adds one line to the text, and one more for each newline
character in the line given. -/
theorem add_line_line_count (g : source_code_generator) (line : String) :
    source_code_generator.line_count (g.add_line line).2.get =
      source_code_generator.line_count g.get + 1 +
        source_code_generator.line_count line := by
  rw [add_line_get, line_count_append, line_count_append, line_count_append,
    line_count_indent]
  have : source_code_generator.line_count "\n" = 1 := by decide
  rw [this]
  omega

theorem add_lines_line_count (ls : List String) : ∀ (g : source_code_generator),
    source_code_generator.line_count (g.add_lines ls).2.get =
      source_code_generator.line_count g.get + ls.length +
        (ls.map source_code_generator.line_count).sum := by
  induction ls with
  | nil => intro g; simp [source_code_generator.add_lines]
  | cons l ls ih =>
    intro g
    simp only [source_code_generator.add_lines, List.length_cons, List.map_cons, List.sum_cons]
    rw [ih, add_line_line_count]
    omega

theorem line_count_sum_zero (ls : List String) (h : ∀ l ∈ ls, '\n' ∉ l.data) :
    (ls.map source_code_generator.line_count).sum = 0 := by
  induction ls with
  | nil => rfl
  | cons l ls ih =>
    simp only [List.map_cons, List.sum_cons]
    rw [ih (fun x hx => h x (List.mem_cons_of_mem _ hx))]
    have : source_code_generator.line_count l = 0 :=
      List.count_eq_zero_of_not_mem (h l (List.mem_cons_self _ _))
    rw [this]

theorem add_lines_get (ls : List String) : ∀ (g : source_code_generator),
    (g.add_lines ls).2.get =
      g.get ++ String.join
        (ls.map (fun l => String.mk (List.replicate g.indent_ ' ') ++ l ++ "\n")) := by
  induction ls with
  | nil => intro g; simp [source_code_generator.add_lines, String.join]
  | cons l ls ih =>
    intro g
    simp only [source_code_generator.add_lines, List.map_cons]
    rw [ih, add_line_get]
    have hi : (g.add_line l).2.indent_ = g.indent_ := rfl
    rw [hi]
    have hj : ∀ (x : String) (xs : List String), String.join (x :: xs) = x ++ String.join xs := by
      intro x xs
      unfold String.join
      rw [List.foldl_cons, foldl_append_string]
      simp
    rw [hj, String.append_assoc]

/-- A sequence of `add_line` calls that does not exhaust the `unsigned` counter. -/
theorem add_lines_spec (ls : List String) : ∀ (g : source_code_generator),
    g.line_no_ + ls.length < UNSIGNED_MOD →
    (g.add_lines ls).1 = List.range' g.line_no_ ls.length ∧
    (g.add_lines ls).2.line_no_ = g.line_no_ + ls.length ∧
    (g.add_lines ls).2.source_code_ =
      g.source_code_ ++ ls.map (fun l => String.mk (List.replicate g.indent_ ' ') ++ l) ∧
    (g.add_lines ls).2.indent_ = g.indent_ := by
  induction ls with
  | nil => intro g _; simp [source_code_generator.add_lines]
  | cons l ls ih =>
    intro g h
    simp only [List.length_cons] at h
    have hm : (g.line_no_ + 1) % UNSIGNED_MOD = g.line_no_ + 1 := Nat.mod_eq_of_lt (by omega)
    have hl : (g.add_line l).2.line_no_ = g.line_no_ + 1 := by simp [hm]
    obtain ⟨a1, a2, a3, a4⟩ := ih (g.add_line l).2 (by rw [hl]; omega)
    simp only [source_code_generator.add_lines, List.length_cons]
    refine ⟨?_, ?_, ?_, ?_⟩
    · rw [a1, hl, List.range'_succ]
      rfl
    · rw [a2, hl]; omega
    · rw [a3]; simp
    · rw [a4]; simp

/-- The counter after a sequence of `add_line` calls, wrapping included. -/
theorem add_lines_line_no (ls : List String) : ∀ (g : source_code_generator),
    (g.add_lines ls).2.line_no_ = (g.line_no_ + ls.length) % UNSIGNED_MOD ∨ ls = [] := by
  induction ls with
  | nil => intro g; exact Or.inr rfl
  | cons l ls ih =>
    intro g
    left
    simp only [source_code_generator.add_lines, List.length_cons]
    rcases ih (g.add_line l).2 with h | h
    · rw [h]
      simp only [source_code_generator.add_line]
      rw [Nat.mod_add_mod]
      congr 1
      omega
    · subst h
      simp [source_code_generator.add_lines]

theorem enter_scopes_indent (g : source_code_generator) (n : Nat) :
    (g.enter_scopes n).indent_ = (g.indent_ + 4 * n) % UNSIGNED_MOD ∨ n = 0 := by
  induction n with
  | zero => exact Or.inr rfl
  | succ n ih =>
    left
    simp only [source_code_generator.enter_scopes, source_code_generator.enter_scope]
    rcases ih with h | h
    · rw [h, Nat.mod_add_mod]
      exact congrArg (fun k => k % UNSIGNED_MOD) (by omega)
    · subst h
      simp [source_code_generator.enter_scopes]

theorem recorded_enter_scopes (B : Nat) (source_file : String) (n : Nat) (h : n ≤ B) :
    Recorded B n ((source_code_generator.create source_file).enter_scopes n) := by
  induction n with
  | zero => exact Recorded.fresh source_file
  | succ n ih => exact Recorded.enter_scope n _ (ih (by omega)) h

/-- With fewer than `2 ^ 30` blocks open at a time, the indentation is four times
the number of open blocks and the scope stack is one deeper than that number. -/
theorem recorded_inv {B d : Nat} {g : source_code_generator} (hB : 4 * B < UNSIGNED_MOD)
    (h : Recorded B d g) :
    d ≤ B ∧ g.indent_ = 4 * d ∧ g.dbg_scopes_.length = d + 1 := by
  induction h with
  | fresh f => exact ⟨Nat.zero_le _, rfl, rfl⟩
  | add_line d g l _ ih => exact ⟨ih.1, by simpa using ih.2.1, by simpa using ih.2.2⟩
  | enter_scope d g _ hd ih =>
    refine ⟨hd, ?_, ?_⟩
    · simp only [source_code_generator.enter_scope]
      rw [ih.2.1, Nat.mod_eq_of_lt (by omega)]
      omega
    · simp [ih.2.2]
  | leave_scope d g _ ih =>
    refine ⟨by omega, ?_, ?_⟩
    · simp only [source_code_generator.leave_scope]
      rw [ih.2.1]
      rw [if_pos (by omega)]
      omega
    · simp [ih.2.2]

/-! ## The text a program writes -/

theorem run_steps_text (steps : List HostStep) : ∀ (mb : jit_module_builder),
    (run_steps mb steps).source_code_.source_code_ =
      mb.source_code_.source_code_ ++ steps_text mb.source_code_.indent_ steps := by
  induction steps with
  | nil => intro mb; simp [run_steps, steps_text]
  | cons st rest ih =>
    intro mb
    cases st with
    | get x =>
      simp only [run_steps, steps_text]
      rw [ih]
      simp [Variable.get]
    | call fn args =>
      simp only [run_steps, steps_text]
      rw [ih, call_eq]
      simp [indented]

theorem while_open_text {c : ConditionFn} {s : jit_module_builder} {fr : while_frame}
    {s1 : jit_module_builder} (h : while_open c s = Except.ok (fr, s1)) :
    s1.source_code_.source_code_ = s.source_code_.source_code_ ++
      (steps_text s.source_code_.indent_ c.steps ++
        [indented s.source_code_.indent_ ("while (" ++ c.value.name ++ ") \x7b")] ++
        steps_text s.source_code_.indent_ c.steps) := by
  simp only [while_open] at h
  split at h
  · exact absurd h (by simp)
  · simp only [Except.ok.injEq, Prod.mk.injEq] at h
    obtain ⟨_, rfl⟩ := h
    simp [ConditionFn.invoke, InsertOps_eq, run_steps_text, indented]

/-- The lines a run appends. -/
theorem run_text (p : Prog) : ∀ (s s' : jit_module_builder),
    s.source_code_.indent_ < UNSIGNED_MOD → run p s = Except.ok s' →
    s'.source_code_.source_code_ =
      s.source_code_.source_code_ ++ textAt s.source_code_.indent_ p := by
  induction p with
  | skip =>
    intro s s' _ h
    simp only [run, Except.ok.injEq] at h
    subst h
    simp [textAt]
  | seq a b iha ihb =>
    intro s s' hr h
    obtain ⟨s1, h1, h2⟩ := (run_seq_ok_iff a b s s').mp h
    have e1 := (run_balanced a s s1 h1).indent hr
    rw [ihb s1 s' (by rw [e1]; exact hr) h2, iha s s1 hr h1, e1]
    simp [textAt]
  | if_ c tb fb iht ihf =>
    intro s s' hr h
    obtain ⟨fr, s1, s2, s4, hopen, htb, hfb, rfl⟩ := (if_ok_iff c (run tb) (run fb) s s').mp h
    obtain ⟨_, hfr, hs1⟩ := if_open_ok hopen
    have i1 : s1.source_code_.indent_ = (s.source_code_.indent_ + 4) % UNSIGNED_MOD := by
      rw [hs1]; simp
    have l1 : s1.source_code_.source_code_ = s.source_code_.source_code_ ++
        [indented s.source_code_.indent_ ("if (" ++ c.name ++ ") \x7b")] := by
      rw [hs1]; simp [indented]
    have r1 : s1.source_code_.indent_ < UNSIGNED_MOD := by rw [i1]; exact indent_enter_lt _
    have i2 := (run_balanced tb s1 s2 htb).indent r1
    have l2 := iht s1 s2 r1 htb
    have hrt : s2.leave_scope.source_code_.indent_ = s.source_code_.indent_ := by
      simp only [jit_module_builder.leave_scope, source_code_generator.leave_scope]
      rw [i2, i1]
      exact indent_roundtrip _ hr
    have l3 := (closes_if_middle fr s2).line
    have i3 : (if_middle fr s2).source_code_.indent_ =
        (s.source_code_.indent_ + 4) % UNSIGNED_MOD := by
      have := hrt
      simp only [jit_module_builder.leave_scope, source_code_generator.leave_scope] at this
      rw [if_middle_eq]
      simp [this]
    have r3 : (if_middle fr s2).source_code_.indent_ < UNSIGNED_MOD := by
      rw [i3]; exact indent_enter_lt _
    have i4 := (run_balanced fb _ s4 hfb).indent r3
    have l4 := ihf _ s4 r3 hfb
    have hrt4 : s4.leave_scope.source_code_.indent_ = s.source_code_.indent_ := by
      simp only [jit_module_builder.leave_scope, source_code_generator.leave_scope]
      rw [i4, i3]
      exact indent_roundtrip _ hr
    have l5 := (closes_if_close fr s4).line
    rw [l5, l4, l3, l2, l1, hrt, hrt4, i3, i1]
    simp [textAt, indented]
  | if_then c tb iht =>
    intro s s' hr h
    obtain ⟨m, s1, s2, hopen, htb, rfl⟩ := (if_then_ok_iff c (run tb) s s').mp h
    obtain ⟨_, hm, hs1⟩ := if_then_open_ok hopen
    have i1 : s1.source_code_.indent_ = (s.source_code_.indent_ + 4) % UNSIGNED_MOD := by
      rw [hs1]; simp
    have l1 : s1.source_code_.source_code_ = s.source_code_.source_code_ ++
        [indented s.source_code_.indent_ ("if (" ++ c.name ++ ") \x7b")] := by
      rw [hs1]; simp [indented]
    have r1 : s1.source_code_.indent_ < UNSIGNED_MOD := by rw [i1]; exact indent_enter_lt _
    have i2 := (run_balanced tb s1 s2 htb).indent r1
    have l2 := iht s1 s2 r1 htb
    have hrt : s2.leave_scope.source_code_.indent_ = s.source_code_.indent_ := by
      simp only [jit_module_builder.leave_scope, source_code_generator.leave_scope]
      rw [i2, i1]
      exact indent_roundtrip _ hr
    have l3 := (closes_if_then_close m s2).line
    rw [l3, l2, l1, hrt, i1]
    simp [textAt, indented]
  | while_ c body ihb =>
    intro s s' hr h
    obtain ⟨fr, s1, s2, hopen, hbody, rfl⟩ := (while_ok_iff c (run body) s s').mp h
    have l1 := while_open_text hopen
    obtain ⟨_, _, _, _, _, _, _, _, _, i1, _⟩ := while_open_ok hopen
    have r1 : s1.source_code_.indent_ < UNSIGNED_MOD := by rw [i1]; exact indent_enter_lt _
    have i2 := (run_balanced body s1 s2 hbody).indent r1
    have l2 := ihb s1 s2 r1 hbody
    have hrt : s2.leave_scope.source_code_.indent_ = s.source_code_.indent_ := by
      simp only [jit_module_builder.leave_scope, source_code_generator.leave_scope]
      rw [i2, i1]
      exact indent_roundtrip _ hr
    have l3 := (closes_while_close fr s2).line
    rw [l3, l2, l1, hrt, i1]
    simp [textAt, indented]
  | break_ =>
    intro s s' _ h
    obtain ⟨b, _, rfl⟩ := break_ok h
    simp [textAt, indented]
  | continue_ =>
    intro s s' _ h
    obtain ⟨b, _, rfl⟩ := continue_ok h
    simp [textAt, indented]
  | return_ =>
    intro s s' _ h
    rw [run, return_eq] at h
    simp only [Except.ok.injEq] at h
    subst h
    simp [textAt, indented]
  | return_value v =>
    intro s s' _ h
    rw [run, return_value_eq] at h
    simp only [Except.ok.injEq] at h
    subst h
    simp [textAt, indented]
  | declare ty n =>
    intro s s' _ h
    simp only [run, Except.ok.injEq] at h
    subst h
    rw [declare_eq]
    simp [textAt, indented]
  | set x v =>
    intro s s' _ h
    simp only [run, Except.ok.injEq] at h
    subst h
    rw [set_eq]
    simp [textAt, indented]
  | get x =>
    intro s s' _ h
    simp only [run, Except.ok.injEq] at h
    subst h
    rw [get_eq]
    simp [textAt]

/-- Without wrap-around the indentation counter is four times the number of open blocks. -/
theorem textAt_eq_textOf (p : Prog) : ∀ d : Nat, 4 * (d + depthOf p) < UNSIGNED_MOD →
    textAt (4 * d) p = textOf d p := by
  induction p with
  | seq a b iha ihb =>
    intro d h
    simp only [depthOf] at h
    simp only [textAt, textOf]
    rw [iha d (by omega), ihb d (by omega)]
  | if_ c tb fb iht ihf =>
    intro d h
    simp only [depthOf] at h
    have e : (4 * d + 4) % UNSIGNED_MOD = 4 * (d + 1) := by
      rw [Nat.mod_eq_of_lt (by omega)]
      omega
    simp only [textAt, textOf]
    rw [e, iht (d + 1) (by omega), ihf (d + 1) (by omega)]
  | if_then c tb iht =>
    intro d h
    simp only [depthOf] at h
    have e : (4 * d + 4) % UNSIGNED_MOD = 4 * (d + 1) := by
      rw [Nat.mod_eq_of_lt (by omega)]
      omega
    simp only [textAt, textOf]
    rw [e, iht (d + 1) (by omega)]
  | while_ c body ihb =>
    intro d h
    simp only [depthOf] at h
    have e : (4 * d + 4) % UNSIGNED_MOD = 4 * (d + 1) := by
      rw [Nat.mod_eq_of_lt (by omega)]
      omega
    simp only [textAt, textOf]
    rw [e, ihb (d + 1) (by omega)]
  | skip => intro d _; rfl
  | break_ => intro d _; rfl
  | continue_ => intro d _; rfl
  | return_ => intro d _; rfl
  | return_value v => intro d _; rfl
  | declare ty n => intro d _; rfl
  | set x v => intro d _; rfl
  | get x => intro d _; rfl

theorem deep_ok (n : Nat) : ∀ s : jit_module_builder, s.exited_block_ = false →
    ∃ s', run (deep n) s = Except.ok s' := by
  induction n with
  | zero => intro s _; exact ⟨_, return_eq s⟩
  | succ n ih =>
    intro s hex
    obtain ⟨m, s1, h1⟩ := if_then_open_isOk demo_cond s hex
    obtain ⟨_, _, hs1⟩ := if_then_open_ok h1
    obtain ⟨s2, h2⟩ := ih s1 (by rw [hs1]; exact hex)
    exact ⟨_, (if_then_ok_iff demo_cond (run (deep n)) s _).mpr ⟨m, s1, s2, h1, h2, rfl⟩⟩

/-- The `return;` line of `deep n`: line `n` of its text, written with the counter
at `(i + 4 * n) % 2 ^ 32`. -/
theorem deep_line (n : Nat) : ∀ i : Nat,
    (textAt i (deep n))[n]? = some (indented ((i + 4 * n) % UNSIGNED_MOD) "return;") ∨
      (n = 0 ∧ (textAt i (deep n))[n]? = some (indented i "return;")) := by
  induction n with
  | zero => intro i; exact Or.inr ⟨rfl, rfl⟩
  | succ n ih =>
    intro i
    left
    have hn : (textAt ((i + 4) % UNSIGNED_MOD) (deep n))[n]? =
        some (indented ((i + 4 * (n + 1)) % UNSIGNED_MOD) "return;") := by
      rcases ih ((i + 4) % UNSIGNED_MOD) with h | ⟨h0, h⟩
      · rw [h, Nat.mod_add_mod]
        exact congrArg (fun k => some (indented (k % UNSIGNED_MOD) "return;")) (by omega)
      · subst h0
        rw [h]
    have hlt : n < (textAt ((i + 4) % UNSIGNED_MOD) (deep n)).length := by
      by_contra hc
      rw [List.getElem?_eq_none (Nat.le_of_not_lt hc)] at hn
      exact absurd hn (by simp)
    simp only [deep, textAt, List.singleton_append, List.cons_append, List.getElem?_cons_succ,
      List.nil_append]
    rw [List.getElem?_append_left hlt]
    exact hn

/-! ## Renumbering block ids -/

theorem shift_le {k i : Nat} (h : i ≤ k) : shift k i = i := by simp [shift, h]

theorem shift_gt {k i : Nat} (h : k < i) : shift k i = i - 1 := by
  simp [shift, Nat.not_le.mpr h]

@[simp] theorem rename_op (f : Nat → Nat) (o : Op) (d : Option DILocation) :
    Instruction.rename f (Instruction.mk (Inst.op o) d) = Instruction.mk (Inst.op o) d := rfl

theorem rename_plain (f : Nat → Nat) (xs : List Instruction) (h : Plain xs) :
    xs.map (Instruction.rename f) = xs := by
  induction xs with
  | nil => rfl
  | cons x xs ih =>
    obtain ⟨o, ho⟩ := h x (List.mem_cons_self _ _)
    have ih' := ih (fun y hy => h y (List.mem_cons_of_mem _ hy))
    obtain ⟨i, d⟩ := x
    simp only at ho
    subst ho
    simp [ih']

@[simp] theorem rename_tagOps (f : Nat → Nat) (d : Option DILocation) (os : List Op) :
    (tagOps d os).map (Instruction.rename f) = tagOps d os :=
  rename_plain f _ (plain_tagOps d os)

/-- Renumbering leaves alone the instructions whose targets are not renumbered. -/
theorem rename_id_of_targets (k : Nat) (x : Instruction)
    (h : ∀ t ∈ x.inst.targets, t ≤ k) : Instruction.rename (shift k) x = x := by
  obtain ⟨i, d⟩ := x
  cases i with
  | op o => rfl
  | br t =>
    simp only [Inst.targets, List.mem_singleton, forall_eq] at h
    simp [Instruction.rename, Inst.rename, shift_le h]
  | cond_br c t e =>
    simp only [Inst.targets, List.mem_cons, List.mem_singleton, forall_eq_or_imp, forall_eq,
      List.not_mem_nil, false_implies, implies_true, and_true] at h
    simp [Instruction.rename, Inst.rename, shift_le h.1, shift_le h.2]
  | ret_void => rfl
  | ret v => rfl

theorem rename_block_id (k : Nat) (b : BasicBlock)
    (h : ∀ x ∈ b.insts, ∀ t ∈ x.inst.targets, t ≤ k) : b.rename (shift k) = b := by
  obtain ⟨n, insts⟩ := b
  simp only [BasicBlock.rename, BasicBlock.mk.injEq, true_and]
  simp only at h
  induction insts with
  | nil => rfl
  | cons x xs ih =>
    simp only [List.map_cons, List.cons.injEq]
    exact ⟨rename_id_of_targets k x (h x (List.mem_cons_self _ _)),
      ih (fun y hy => h y (List.mem_cons_of_mem _ hy))⟩

theorem rename_blocks_id (k : Nat) (bs : List BasicBlock)
    (h : AllInsts (fun x => ∀ t ∈ x.inst.targets, t ≤ k) bs) :
    bs.map (BasicBlock.rename (shift k)) = bs := by
  induction bs with
  | nil => rfl
  | cons b bs ih =>
    simp only [List.map_cons, List.cons.injEq]
    exact ⟨rename_block_id k b (h b (List.mem_cons_self _ _)),
      ih (fun c hc => h c (List.mem_cons_of_mem _ hc))⟩

theorem map_shift_id (k : Nat) (l : List Nat) (h : ∀ b ∈ l, b ≤ k) : l.map (shift k) = l := by
  induction l with
  | nil => rfl
  | cons b bs ih =>
    simp only [List.map_cons, List.cons.injEq]
    exact ⟨shift_le (h b (List.mem_cons_self _ _)), ih (fun c hc => h c (List.mem_cons_of_mem _ hc))⟩

/-- Appending at a block other than `k` commutes with the identification. -/
theorem merged_appendAt (k : Nat) (bs : List BasicBlock) (c : Nat) (xs : List Instruction)
    (hc : c ≠ k) :
    merged k (appendAt bs c xs) =
      appendAt (merged k bs) (shift k c) (xs.map (Instruction.rename (shift k))) := by
  apply List.ext_getElem?
  intro i
  unfold merged
  rw [getElem?_appendAt]
  simp only [List.getElem?_map, List.getElem?_eraseIdx, getElem?_appendAt]
  by_cases hik : i < k
  · simp only [hik, if_true]
    by_cases hci : c = i
    · subst hci
      rw [shift_le (Nat.le_of_lt hik)]
      simp only [if_true]
      cases bs[c]? <;> simp [BasicBlock.rename, BasicBlock.append]
    · have : shift k c ≠ i := by
        unfold shift
        split <;> omega
      simp [hci, this]
  · simp only [hik, if_false]
    by_cases hci : c = i + 1
    · subst hci
      rw [shift_gt (by omega)]
      simp only [Nat.add_sub_cancel, if_true]
      cases bs[i + 1]? <;> simp [BasicBlock.rename, BasicBlock.append]
    · have : shift k c ≠ i := by
        unfold shift
        split <;> omega
      simp [hci, this]

/-- Putting instructions at the start of a block other than `k` commutes with the
identification. -/
theorem merged_prependAt (k : Nat) (bs : List BasicBlock) (c : Nat) (xs : List Instruction)
    (hc : c ≠ k) :
    merged k (prependAt bs c xs) =
      prependAt (merged k bs) (shift k c) (xs.map (Instruction.rename (shift k))) := by
  apply List.ext_getElem?
  intro i
  unfold merged
  rw [getElem?_prependAt]
  simp only [List.getElem?_map, List.getElem?_eraseIdx, getElem?_prependAt]
  by_cases hik : i < k
  · simp only [hik, if_true]
    by_cases hci : c = i
    · subst hci
      rw [shift_le (Nat.le_of_lt hik)]
      simp only [if_true]
      cases bs[c]? <;> simp [BasicBlock.rename, BasicBlock.prepend]
    · have : shift k c ≠ i := by
        unfold shift
        split <;> omega
      simp [hci, this]
  · simp only [hik, if_false]
    by_cases hci : c = i + 1
    · subst hci
      rw [shift_gt (by omega)]
      simp only [Nat.add_sub_cancel, if_true]
      cases bs[i + 1]? <;> simp [BasicBlock.rename, BasicBlock.prepend]
    · have : shift k c ≠ i := by
        unfold shift
        split <;> omega
      simp [hci, this]

/-- What is appended to the block `k` disappears with it. -/
theorem merged_appendAt_self (k : Nat) (bs : List BasicBlock) (xs : List Instruction) :
    merged k (appendAt bs k xs) = merged k bs := by
  apply List.ext_getElem?
  intro i
  unfold merged
  simp only [List.getElem?_map, List.getElem?_eraseIdx, getElem?_appendAt]
  by_cases hik : i < k
  · have : k ≠ i := by omega
    simp [hik, this]
  · have : k ≠ i + 1 := by omega
    simp [hik, this]

theorem merged_append (k : Nat) (bs news : List BasicBlock) (hk : k < bs.length) :
    merged k (bs ++ news) = merged k bs ++ news.map (BasicBlock.rename (shift k)) := by
  unfold merged
  rw [List.eraseIdx_append_of_lt_length hk, List.map_append]

theorem length_merged (k : Nat) (bs : List BasicBlock) (hk : k < bs.length) :
    (merged k bs).length + 1 = bs.length := by
  unfold merged
  rw [List.length_map, List.length_eraseIdx_of_lt hk]
  omega

/-! ## Steps that keep two states in correspondence -/

/-- One step of a construct, taken in both states: blocks are created, instructions
are appended at the cursor, blocks are attached and the cursor may move. -/
theorem sim_step {k : Nat} {x y x' y' : jit_module_builder} (h : Sim k x y)
    (news : List BasicBlock) (xs : List Instruction) (L : List Nat)
    (hnews : news.map (BasicBlock.rename (shift k)) = news)
    (hb : x'.blocks = appendAt (x.blocks ++ news) x.insert_block xs)
    (hb' : y'.blocks = appendAt (y.blocks ++ news) y.insert_block
      (xs.map (Instruction.rename (shift k))))
    (hf : x'.function_blocks = x.function_blocks ++ L)
    (hf' : y'.function_blocks = y.function_blocks ++ L.map (shift k))
    (hL : k ∉ L)
    (hc : x'.insert_block ≠ k) (hc' : y'.insert_block = shift k x'.insert_block)
    (hd : y'.current_debug_location = x'.current_debug_location)
    (hl : y'.dbg_locals = x'.dbg_locals) (hs : y'.source_code_ = x'.source_code_)
    (hloop : y'.current_loop_ = x'.current_loop_.rename (shift k))
    (he : y'.exited_block_ = x'.exited_block_) : Sim k x' y' := by
  refine ⟨?_, ?_, ?_, ?_, hc', hc, hd, hl, hs, hloop, he⟩
  · rw [hb]
    have := h.valid
    simp
    omega
  · rw [hb', hb, merged_appendAt _ _ _ _ h.cursor_ne, merged_append _ _ _ h.valid, hnews,
      h.blocks, h.cursor]
  · rw [hf', hf, h.fblocks, List.map_append]
  · rw [hf]
    intro hm
    rcases List.mem_append.mp hm with hm | hm
    · exact h.detached hm
    · exact hL hm

/-- The stack allocation of a declaration, put at the start of the entry block in
both states. -/
theorem sim_declare {k : Nat} {x y : jit_module_builder} (h : Sim k x y) (ty : TypeInfo)
    (n : String) : Sim k (Variable.declare ty n x).2 (Variable.declare ty n y).2 := by
  rw [declare_eq, declare_eq]
  have hb : (y.InsertAtEntry (Inst.op (Op.value (LLValue.alloca ty.llvm n)))).blocks =
      merged k (x.InsertAtEntry (Inst.op (Op.value (LLValue.alloca ty.llvm n)))).blocks := by
    unfold jit_module_builder.InsertAtEntry
    rw [h.fblocks]
    cases hfx : x.function_blocks with
    | nil => simpa using h.blocks
    | cons e rest =>
      have hne : e ≠ k := by
        intro he
        apply h.detached
        rw [hfx, he]
        exact List.mem_cons_self _ _
      simp only [List.map_cons]
      rw [merged_prependAt _ _ _ _ hne, h.blocks]
      rfl
  refine ⟨?_, hb, h.fblocks, h.detached, h.cursor, h.cursor_ne, h.dbg, ?_, ?_, h.loop, h.exited⟩
  · have := h.valid
    obtain ⟨e, he, _⟩ := InsertAtEntry_blocks x (Op.value (LLValue.alloca ty.llvm n))
    simp only
    rw [he]
    simpa using this
  · simp only
    rw [h.locals, h.source]
  · simp only
    rw [h.source]

theorem steps_insts_congr (steps : List HostStep) : ∀ (x y : jit_module_builder),
    y.current_debug_location = x.current_debug_location → y.source_code_ = x.source_code_ →
    steps_insts y steps = steps_insts x steps ∧
    (run_steps y steps).current_debug_location = (run_steps x steps).current_debug_location ∧
    (run_steps y steps).source_code_ = (run_steps x steps).source_code_ := by
  induction steps with
  | nil => intro x y hd hs; exact ⟨rfl, hd, hs⟩
  | cons st rest ih =>
    intro x y hd hs
    cases st with
    | get v =>
      have := ih (v.get x).2 (v.get y).2 (by simp [Variable.get, hd]) (by simp [Variable.get, hs])
      simp only [steps_insts, run_steps]
      exact ⟨by rw [this.1, hd], this.2.1, this.2.2⟩
    | call fn args =>
      have := ih (call fn args x).2 (call fn args y).2 (by rw [call_eq, call_eq]; simp [hs])
        (by rw [call_eq, call_eq]; simp [hs])
      simp only [steps_insts, run_steps]
      exact ⟨by rw [this.1]; simp [call_insts, hs], this.2.1, this.2.2⟩

theorem sim_run_steps {k : Nat} {x y : jit_module_builder} (h : Sim k x y)
    (steps : List HostStep) : Sim k (run_steps x steps) (run_steps y steps) := by
  obtain ⟨e1, e2, e3⟩ := steps_insts_congr steps x y h.dbg h.source
  refine sim_step h [] (steps_insts x steps) [] rfl (by simp) ?_ (by simp) (by simp)
    (by simp) (by simpa using h.cursor_ne) (by simpa using h.cursor) e2 (by simpa using h.locals)
    e3 (by simpa using h.loop) (by simpa using h.exited)
  rw [rename_plain _ _ (plain_steps_insts x steps), ← e1]
  simp

theorem shift_length {k : Nat} {x y : jit_module_builder} (h : Sim k x y) (j : Nat) :
    shift k (x.blocks.length + j) = y.blocks.length + j := by
  have hk := h.valid
  have hlen := length_merged k x.blocks hk
  rw [← h.blocks] at hlen
  rw [shift_gt (by omega)]
  omega

theorem sim_if_open {k : Nat} {x y : jit_module_builder} (h : Sim k x y) (c : Value)
    {frx : if_frame} {x1 : jit_module_builder} (hx : if_open c x = Except.ok (frx, x1)) :
    ∃ fry y1, if_open c y = Except.ok (fry, y1) ∧ Sim k x1 y1 ∧
      fry.false_block = shift k frx.false_block ∧ fry.merge_block = shift k frx.merge_block ∧
      k < frx.false_block ∧ k < frx.merge_block := by
  obtain ⟨hexx, hfrx, hx1⟩ := if_open_ok hx
  obtain ⟨fry, y1, hy⟩ := if_open_isOk c y (by rw [h.exited]; exact hexx)
  obtain ⟨_, hfry, hy1⟩ := if_open_ok hy
  have hk := h.valid
  have s0 := shift_length h 0
  have s1 := shift_length h 1
  have s2 := shift_length h 2
  simp only [Nat.add_zero] at s0
  refine ⟨fry, y1, hy, ?_, by rw [hfry, hfrx]; exact s1.symm, by rw [hfry, hfrx]; exact s2.symm,
    by rw [hfrx]; simp; omega, by rw [hfrx]; simp; omega⟩
  refine sim_step h [{ name := "true_block", insts := [] }, { name := "false_block", insts := [] },
      { name := "merge_block", insts := [] }]
    (tagOps (some (x.get_debug_location x.source_code_.line_no_)) c.ops ++
      [Instruction.mk (Inst.cond_br c.result x.blocks.length (x.blocks.length + 1))
        (some (x.get_debug_location x.source_code_.line_no_))])
    [x.blocks.length] rfl (by rw [hx1]) ?_ (by rw [hx1]) (by rw [hy1]; simp [s0])
    (by simp; omega) (by rw [hx1]; simp; omega) (by rw [hx1, hy1]; simp [s0])
    (by rw [hx1, hy1]; simp [h.source]) (by rw [hx1, hy1]; simp [h.locals])
    (by rw [hx1, hy1]; simp [h.source]) (by rw [hx1, hy1]; simp [h.loop])
    (by rw [hx1, hy1]; simp [h.exited])
  rw [hy1]
  simp [Instruction.rename, Inst.rename, s0, s1, h.source]

theorem sim_if_then_open {k : Nat} {x y : jit_module_builder} (h : Sim k x y) (c : Value)
    {mx : Nat} {x1 : jit_module_builder} (hx : if_then_open c x = Except.ok (mx, x1)) :
    ∃ my y1, if_then_open c y = Except.ok (my, y1) ∧ Sim k x1 y1 ∧ my = shift k mx ∧ k < mx := by
  obtain ⟨hexx, hmx, hx1⟩ := if_then_open_ok hx
  obtain ⟨my, y1, hy⟩ := if_then_open_isOk c y (by rw [h.exited]; exact hexx)
  obtain ⟨_, hmy, hy1⟩ := if_then_open_ok hy
  have hk := h.valid
  have s0 := shift_length h 0
  have s1 := shift_length h 1
  simp only [Nat.add_zero] at s0
  refine ⟨my, y1, hy, ?_, by rw [hmy, hmx]; exact s1.symm, by omega⟩
  refine sim_step h [{ name := "true_block", insts := [] }, { name := "merge_block", insts := [] }]
    (tagOps (some (x.get_debug_location x.source_code_.line_no_)) c.ops ++
      [Instruction.mk (Inst.cond_br c.result x.blocks.length (x.blocks.length + 1))
        (some (x.get_debug_location x.source_code_.line_no_))])
    [x.blocks.length] rfl (by rw [hx1]) ?_ (by rw [hx1]) (by rw [hy1]; simp [s0])
    (by simp; omega) (by rw [hx1]; simp; omega) (by rw [hx1, hy1]; simp [s0])
    (by rw [hx1, hy1]; simp [h.source]) (by rw [hx1, hy1]; simp [h.locals])
    (by rw [hx1, hy1]; simp [h.source]) (by rw [hx1, hy1]; simp [h.loop])
    (by rw [hx1, hy1]; simp [h.exited])
  rw [hy1]
  simp [Instruction.rename, Inst.rename, s0, s1, h.source]

/-- Closing a nested block in both states: the closing branch goes to `dest` in the
one and to the block `dest` is renumbered to in the other, the block `a` is attached
and gets the cursor, the recorder is updated by `src` and the loop context becomes
`L`. -/
theorem sim_close {k : Nat} {x y x' y' : jit_module_builder} (h : Sim k x y)
    (dest a : Nat) (src : source_code_generator → source_code_generator) (L : loop)
    (ha : a ≠ k)
    (hx : x' = { x with
      blocks := (appendAt x.blocks x.insert_block
        (if x.exited_block_ = true then []
         else [Instruction.mk (Inst.br dest)
           (some (x.leave_scope.get_debug_location x.source_code_.line_no_))])),
      function_blocks := x.function_blocks ++ [a],
      insert_block := a,
      current_debug_location :=
        (if x.exited_block_ = true then x.current_debug_location
         else some (x.leave_scope.get_debug_location x.source_code_.line_no_)),
      source_code_ := src x.source_code_,
      current_loop_ := L,
      exited_block_ := false })
    (hy : y' = { y with
      blocks := (appendAt y.blocks y.insert_block
        (if y.exited_block_ = true then []
         else [Instruction.mk (Inst.br (shift k dest))
           (some (y.leave_scope.get_debug_location y.source_code_.line_no_))])),
      function_blocks := y.function_blocks ++ [shift k a],
      insert_block := shift k a,
      current_debug_location :=
        (if y.exited_block_ = true then y.current_debug_location
         else some (y.leave_scope.get_debug_location y.source_code_.line_no_)),
      source_code_ := src y.source_code_,
      current_loop_ := L.rename (shift k),
      exited_block_ := false }) : Sim k x' y' := by
  refine sim_step h []
    (if x.exited_block_ = true then []
     else [Instruction.mk (Inst.br dest)
       (some (x.leave_scope.get_debug_location x.source_code_.line_no_))])
    [a] rfl (by rw [hx]; simp) ?_ (by rw [hx]) (by rw [hy]; simp)
    (by simpa using ha.symm) (by rw [hx]; exact ha) (by rw [hx, hy])
    (by rw [hx, hy]; simp [h.exited, h.dbg, h.source]) (by rw [hx, hy]; simp [h.locals])
    (by rw [hx, hy]; simp [h.source]) (by rw [hx, hy]) (by rw [hx, hy])
  rw [hy, h.exited]
  cases x.exited_block_ <;> simp [Instruction.rename, Inst.rename, h.source]

theorem sim_while_open {k : Nat} {x y : jit_module_builder} (h : Sim k x y) (c : ConditionFn)
    {frx : while_frame} {x1 : jit_module_builder} (hx : while_open c x = Except.ok (frx, x1)) :
    ∃ fry y1, while_open c y = Except.ok (fry, y1) ∧ Sim k x1 y1 ∧
      fry.while_continue = shift k frx.while_continue ∧
      fry.while_break = shift k frx.while_break ∧
      fry.parent_loop = frx.parent_loop.rename (shift k) ∧
      k < frx.while_continue ∧ k < frx.while_break := by
  obtain ⟨hexx, _, hwc, hwb, hpl, _⟩ := while_open_ok hx
  obtain ⟨fry, y1, hy⟩ := while_open_isOk c y (by rw [h.exited]; exact hexx)
  obtain ⟨_, _, hwc', hwb', hpl', _⟩ := while_open_ok hy
  have hk := h.valid
  have s0 := shift_length h 0
  have s1 := shift_length h 1
  have s2 := shift_length h 2
  simp only [Nat.add_zero] at s0
  refine ⟨fry, y1, hy, ?_, by rw [hwc, hwc', s0], by rw [hwb, hwb', s2],
    by rw [hpl, hpl', h.loop], by omega, by omega⟩
  -- the first invocation of the condition producer
  have sA : Sim k
      (x.SetCurrentDebugLocation
        (x.get_debug_location ((x.source_code_.current_line + 1) % UNSIGNED_MOD)))
      (y.SetCurrentDebugLocation
        (y.get_debug_location ((y.source_code_.current_line + 1) % UNSIGNED_MOD))) :=
    sim_step h [] [] [] rfl (by simp) (by simp) (by simp) (by simp) (by simp)
      (by simpa using h.cursor_ne) (by simpa using h.cursor) (by simp [h.source])
      (by simpa using h.locals) (by simpa using h.source) (by simpa using h.loop)
      (by simpa using h.exited)
  obtain ⟨xa, hxa⟩ : ∃ xa, xa = run_steps (x.SetCurrentDebugLocation
      (x.get_debug_location ((x.source_code_.current_line + 1) % UNSIGNED_MOD))) c.steps :=
    ⟨_, rfl⟩
  obtain ⟨ya, hya⟩ : ∃ ya, ya = run_steps (y.SetCurrentDebugLocation
      (y.get_debug_location ((y.source_code_.current_line + 1) % UNSIGNED_MOD))) c.steps :=
    ⟨_, rfl⟩
  have sa : Sim k xa ya := by
    rw [hxa, hya]
    exact sim_run_steps sA c.steps
  have lxa : xa.blocks.length = x.blocks.length := by rw [hxa]; simp
  have lya : ya.blocks.length = y.blocks.length := by rw [hya]; simp
  -- the header up to the guard block
  obtain ⟨xb, hxb⟩ : ∃ xb, xb = ((({ ((((xa.add_line
          ("while (" ++ c.value.name ++ ") \x7b")).2.CreateBlockIn "while_continue").2.CreateBlock
            "while_iteration").2.CreateBlock "while_break").2 with
        current_loop_ := { continue_block_ := some x.blocks.length,
                           break_block_ := some (x.blocks.length + 2) } }).CreateBr
          x.blocks.length).SetInsertPoint x.blocks.length) := ⟨_, rfl⟩
  obtain ⟨yb, hyb⟩ : ∃ yb, yb = ((({ ((((ya.add_line
          ("while (" ++ c.value.name ++ ") \x7b")).2.CreateBlockIn "while_continue").2.CreateBlock
            "while_iteration").2.CreateBlock "while_break").2 with
        current_loop_ := { continue_block_ := some y.blocks.length,
                           break_block_ := some (y.blocks.length + 2) } }).CreateBr
          y.blocks.length).SetInsertPoint y.blocks.length) := ⟨_, rfl⟩
  have sb : Sim k xb yb := by
    refine sim_step sa [{ name := "while_continue", insts := [] },
        { name := "while_iteration", insts := [] }, { name := "while_break", insts := [] }]
      [Instruction.mk (Inst.br x.blocks.length) xa.current_debug_location]
      [x.blocks.length] rfl (by rw [hxb]; simp) ?_ (by rw [hxb]; simp [lxa])
      (by rw [hyb]; simp [lya, s0]) (by simp; omega) (by rw [hxb]; simp; omega)
      (by rw [hxb, hyb]; simp [s0]) (by rw [hxb, hyb]; simp [sa.dbg])
      (by rw [hxb, hyb]; simp [sa.locals]) (by rw [hxb, hyb]; simp [sa.source])
      (by rw [hxb, hyb]; simp [loop.rename, s0, s2]) (by rw [hxb, hyb]; simp [sa.exited])
    rw [hyb]
    simp [Instruction.rename, Inst.rename, s0, sa.dbg]
  -- the second invocation, in the guard block
  obtain ⟨xc, hxc⟩ : ∃ xc, xc = run_steps xb c.steps := ⟨_, rfl⟩
  obtain ⟨yc, hyc⟩ : ∃ yc, yc = run_steps yb c.steps := ⟨_, rfl⟩
  have sc : Sim k xc yc := by
    rw [hxc, hyc]
    exact sim_run_steps sb c.steps
  have cxc : xc.insert_block = x.blocks.length := by rw [hxc, hxb]; simp
  have cyc : yc.insert_block = y.blocks.length := by rw [hyc, hyb]; simp
  have fxc : xc.function_blocks = xa.function_blocks ++ [x.blocks.length] := by
    rw [hxc, hxb]; simp [lxa]
  -- the conditional branch and the entry into the body
  have ex1 : x1 = ((((xc.eval c.value).2.CreateCondBr c.value.result (x.blocks.length + 1)
      (x.blocks.length + 2)).enter_scope.push_back (x.blocks.length + 1)).SetInsertPoint
        (x.blocks.length + 1)) := by
    simp only [while_open] at hx
    split at hx
    · exact absurd hx (by simp)
    · simp only [Except.ok.injEq, Prod.mk.injEq] at hx
      rw [← hx.2, hxc, hxb, hxa]
      simp [ConditionFn.invoke]
  have ey1 : y1 = ((((yc.eval c.value).2.CreateCondBr c.value.result (y.blocks.length + 1)
      (y.blocks.length + 2)).enter_scope.push_back (y.blocks.length + 1)).SetInsertPoint
        (y.blocks.length + 1)) := by
    simp only [while_open] at hy
    split at hy
    · exact absurd hy (by simp)
    · simp only [Except.ok.injEq, Prod.mk.injEq] at hy
      rw [← hy.2, hyc, hyb, hya]
      simp [ConditionFn.invoke]
  refine sim_step sc []
    (tagOps xc.current_debug_location c.value.ops ++
      [Instruction.mk (Inst.cond_br c.value.result (x.blocks.length + 1) (x.blocks.length + 2))
        xc.current_debug_location])
    [x.blocks.length + 1] rfl (by rw [ex1]; simp [InsertOps_eq]) ?_
    (by rw [ex1]; simp [InsertOps_eq]) (by rw [ey1]; simp [InsertOps_eq, s1])
    (by simp; omega) (by rw [ex1]; simp; omega) (by rw [ex1, ey1]; simp [s1])
    (by rw [ex1, ey1]; simp [InsertOps_eq, sc.dbg]) (by rw [ex1, ey1]; simp [InsertOps_eq, sc.locals])
    (by rw [ex1, ey1]; simp [InsertOps_eq, sc.source])
    (by rw [ex1, ey1]; simp [InsertOps_eq, sc.loop]) (by rw [ex1, ey1]; simp [InsertOps_eq, sc.exited])
  rw [ey1]
  simp [InsertOps_eq, Instruction.rename, Inst.rename, s1, s2, sc.dbg]

/-- Forward simulation: what a program builds from `x` it builds from `y`, up to the
identification of the block `k`. -/
theorem run_sim (p : Prog) : ∀ (k : Nat) (x y x' : jit_module_builder), Sim k x y →
    run p x = Except.ok x' → ∃ y', run p y = Except.ok y' ∧ Sim k x' y' := by
  induction p with
  | skip =>
    intro k x y x' h hx
    simp only [run, Except.ok.injEq] at hx
    subst hx
    exact ⟨y, rfl, h⟩
  | seq a b iha ihb =>
    intro k x y x' h hx
    obtain ⟨x1, h1, h2⟩ := (run_seq_ok_iff a b x x').mp hx
    obtain ⟨y1, g1, s1⟩ := iha k x y x1 h h1
    obtain ⟨y2, g2, s2⟩ := ihb k x1 y1 x' s1 h2
    exact ⟨y2, (run_seq_ok_iff a b y y2).mpr ⟨y1, g1, g2⟩, s2⟩
  | if_ c tb fb iht ihf =>
    intro k x y x' h hx
    obtain ⟨frx, x1, x2, x4, hopen, htb, hfb, rfl⟩ := (if_ok_iff c (run tb) (run fb) x x').mp hx
    obtain ⟨fry, y1, gopen, s1, ef, em, kf, km⟩ := sim_if_open h c hopen
    obtain ⟨y2, gtb, s2⟩ := iht k x1 y1 x2 s1 htb
    have s3 : Sim k (if_middle frx x2) (if_middle fry y2) :=
      sim_close s2 frx.merge_block frx.false_block
        (fun g => (g.leave_scope.add_line "\x7d else \x7b").2.enter_scope) x2.current_loop_
        (by omega) (by rw [if_middle_eq]) (by rw [if_middle_eq, ef, em, s2.loop])
    obtain ⟨y4, gfb, s4⟩ := ihf k _ _ x4 s3 hfb
    have s5 : Sim k (if_close frx x4) (if_close fry y4) :=
      sim_close s4 frx.merge_block frx.merge_block
        (fun g => (g.leave_scope.add_line "\x7d").2) x4.current_loop_
        (by omega) (by rw [if_close_eq]) (by rw [if_close_eq, em, s4.loop])
    exact ⟨_, (if_ok_iff c (run tb) (run fb) y _).mpr ⟨fry, y1, y2, y4, gopen, gtb, gfb, rfl⟩, s5⟩
  | if_then c tb iht =>
    intro k x y x' h hx
    obtain ⟨mx, x1, x2, hopen, htb, rfl⟩ := (if_then_ok_iff c (run tb) x x').mp hx
    obtain ⟨my, y1, gopen, s1, em, km⟩ := sim_if_then_open h c hopen
    obtain ⟨y2, gtb, s2⟩ := iht k x1 y1 x2 s1 htb
    have s3 : Sim k (if_then_close mx x2) (if_then_close my y2) :=
      sim_close s2 mx mx (fun g => (g.leave_scope.add_line "\x7d").2) x2.current_loop_
        (by omega) (by rw [if_then_close_eq]) (by rw [if_then_close_eq, em, s2.loop])
    exact ⟨_, (if_then_ok_iff c (run tb) y _).mpr ⟨my, y1, y2, gopen, gtb, rfl⟩, s3⟩
  | while_ c body ihb =>
    intro k x y x' h hx
    obtain ⟨frx, x1, x2, hopen, hbody, rfl⟩ := (while_ok_iff c (run body) x x').mp hx
    obtain ⟨fry, y1, gopen, s1, ec, eb, ep, kc, kb⟩ := sim_while_open h c hopen
    obtain ⟨y2, gbody, s2⟩ := ihb k x1 y1 x2 s1 hbody
    have s3 : Sim k (while_close frx x2) (while_close fry y2) :=
      sim_close s2 frx.while_continue frx.while_break
        (fun g => (g.leave_scope.add_line "\x7d").2) frx.parent_loop
        (by omega) (by rw [while_close_eq]) (by rw [while_close_eq, ec, eb, ep])
    exact ⟨_, (while_ok_iff c (run body) y _).mpr ⟨fry, y1, y2, gopen, gbody, rfl⟩, s3⟩
  | break_ =>
    intro k x y x' h hx
    obtain ⟨b, hb, rfl⟩ := break_ok hx
    have hyb : y.current_loop_.break_block_ = some (shift k b) := by
      rw [h.loop]; simp [loop.rename, hb]
    refine ⟨_, by simp only [run, break_, hyb]; rfl, ?_⟩
    refine sim_step h [] [Instruction.mk (Inst.br b)
        (some (x.get_debug_location x.source_code_.line_no_))] [] rfl (by simp) ?_ (by simp)
      (by simp) (by simp) (by simpa using h.cursor_ne) (by simpa using h.cursor)
      (by simp [h.source]) (by simpa using h.locals) (by simp [h.source])
      (by simpa using h.loop) (by simp)
    simp [Instruction.rename, Inst.rename, h.source]
  | continue_ =>
    intro k x y x' h hx
    obtain ⟨b, hb, rfl⟩ := continue_ok hx
    have hyb : y.current_loop_.continue_block_ = some (shift k b) := by
      rw [h.loop]; simp [loop.rename, hb]
    refine ⟨_, by simp only [run, continue_, hyb]; rfl, ?_⟩
    refine sim_step h [] [Instruction.mk (Inst.br b)
        (some (x.get_debug_location x.source_code_.line_no_))] [] rfl (by simp) ?_ (by simp)
      (by simp) (by simp) (by simpa using h.cursor_ne) (by simpa using h.cursor)
      (by simp [h.source]) (by simpa using h.locals) (by simp [h.source])
      (by simpa using h.loop) (by simp)
    simp [Instruction.rename, Inst.rename, h.source]
  | return_ =>
    intro k x y x' h hx
    rw [run, return_eq] at hx
    simp only [Except.ok.injEq] at hx
    subst hx
    refine ⟨_, return_eq y, ?_⟩
    refine sim_step h [] [Instruction.mk Inst.ret_void
        (some (x.get_debug_location x.source_code_.line_no_))] [] rfl (by simp) ?_ (by simp)
      (by simp) (by simp) (by simpa using h.cursor_ne) (by simpa using h.cursor)
      (by simp [h.source]) (by simpa using h.locals) (by simp [h.source])
      (by simpa using h.loop) (by simp)
    simp [Instruction.rename, Inst.rename, h.source]
  | return_value v =>
    intro k x y x' h hx
    rw [run, return_value_eq] at hx
    simp only [Except.ok.injEq] at hx
    subst hx
    refine ⟨_, return_value_eq v y, ?_⟩
    refine sim_step h []
      (tagOps (some (x.get_debug_location x.source_code_.line_no_)) v.ops ++
        [Instruction.mk (Inst.ret v.result)
          (some (x.get_debug_location x.source_code_.line_no_))]) [] rfl (by simp) ?_ (by simp)
      (by simp) (by simp) (by simpa using h.cursor_ne) (by simpa using h.cursor)
      (by simp [h.source]) (by simpa using h.locals) (by simp [h.source])
      (by simpa using h.loop) (by simp)
    simp [Instruction.rename, Inst.rename, h.source]
  | declare ty n =>
    intro k x y x' h hx
    simp only [run, Except.ok.injEq] at hx
    subst hx
    exact ⟨_, rfl, sim_declare h ty n⟩
  | set v w =>
    intro k x y x' h hx
    simp only [run, Except.ok.injEq] at hx
    subst hx
    refine ⟨_, rfl, ?_⟩
    rw [set_eq, set_eq]
    refine sim_step h []
      (tagOps x.current_debug_location w.ops ++
        [Instruction.mk (Inst.op (Op.store w.result v.variable_ v.type_.alignment))
          x.current_debug_location]) [] rfl (by simp) ?_ (by simp)
      (by simp) (by simp) (by simpa using h.cursor_ne) (by simpa using h.cursor)
      (by simpa using h.dbg) (by simpa using h.locals) (by simp [h.source])
      (by simpa using h.loop) (by simpa using h.exited)
    simp [h.dbg]
  | get v =>
    intro k x y x' h hx
    simp only [run, Except.ok.injEq] at hx
    subst hx
    refine ⟨_, rfl, ?_⟩
    rw [get_eq, get_eq]
    refine sim_step h []
      [Instruction.mk (Inst.op (Op.value (LLValue.load v.variable_ v.type_.alignment)))
        x.current_debug_location] [] rfl (by simp) ?_ (by simp)
      (by simp) (by simp) (by simpa using h.cursor_ne) (by simpa using h.cursor)
      (by simpa using h.dbg) (by simpa using h.locals) (by simpa using h.source)
      (by simpa using h.loop) (by simpa using h.exited)
    simp [h.dbg]

/-- Whether a run fails is decided by the `exited` flag and by which targets the loop
context has when it starts. -/
theorem run_succeeds (p : Prog) : ∀ s : jit_module_builder,
    (∃ s', run p s = Except.ok s') ↔
      succeeds s.exited_block_ s.current_loop_.break_block_.isSome
        s.current_loop_.continue_block_.isSome p = true := by
  induction p with
  | skip => intro s; simp [succeeds, run]
  | seq a b iha ihb =>
    intro s
    simp only [succeeds, Bool.and_eq_true]
    constructor
    · rintro ⟨s', h⟩
      obtain ⟨s1, h1, h2⟩ := (run_seq_ok_iff a b s s').mp h
      have bal := run_balanced a s s1 h1
      refine ⟨(iha s).mp ⟨s1, h1⟩, ?_⟩
      have := (ihb s1).mp ⟨s', h2⟩
      rwa [bal.exited, bal.loop] at this
    · rintro ⟨ha, hb⟩
      obtain ⟨s1, h1⟩ := (iha s).mpr ha
      have bal := run_balanced a s s1 h1
      rw [← bal.exited, ← bal.loop] at hb
      obtain ⟨s', h2⟩ := (ihb s1).mpr hb
      exact ⟨s', (run_seq_ok_iff a b s s').mpr ⟨s1, h1, h2⟩⟩
  | if_ c tb fb iht ihf =>
    intro s
    simp only [succeeds, Bool.and_eq_true, Bool.not_eq_true']
    constructor
    · rintro ⟨s', h⟩
      obtain ⟨fr, s1, s2, s4, hopen, htb, hfb, _⟩ := (if_ok_iff c (run tb) (run fb) s s').mp h
      obtain ⟨hex, _, hs1⟩ := if_open_ok hopen
      have bal := run_balanced tb s1 s2 htb
      have e1 : s1.exited_block_ = false := by rw [hs1]; exact hex
      have l1 : s1.current_loop_ = s.current_loop_ := by rw [hs1]
      have t := (iht s1).mp ⟨s2, htb⟩
      rw [e1, l1] at t
      have f := (ihf _).mp ⟨s4, hfb⟩
      rw [if_middle_eq] at f
      simp only at f
      rw [bal.loop, l1] at f
      exact ⟨⟨hex, t⟩, f⟩
    · rintro ⟨⟨hex, t⟩, f⟩
      obtain ⟨fr, s1, hopen⟩ := if_open_isOk c s hex
      obtain ⟨_, _, hs1⟩ := if_open_ok hopen
      have e1 : s1.exited_block_ = false := by rw [hs1]; exact hex
      have l1 : s1.current_loop_ = s.current_loop_ := by rw [hs1]
      rw [← e1, ← l1] at t
      obtain ⟨s2, htb⟩ := (iht s1).mpr t
      have bal := run_balanced tb s1 s2 htb
      have f' : succeeds (if_middle fr s2).exited_block_
          (if_middle fr s2).current_loop_.break_block_.isSome
          (if_middle fr s2).current_loop_.continue_block_.isSome fb = true := by
        rw [if_middle_eq]
        simp only
        rw [bal.loop, l1]
        exact f
      obtain ⟨s4, hfb⟩ := (ihf _).mpr f'
      exact ⟨_, (if_ok_iff c (run tb) (run fb) s _).mpr ⟨fr, s1, s2, s4, hopen, htb, hfb, rfl⟩⟩
  | if_then c tb iht =>
    intro s
    simp only [succeeds, Bool.and_eq_true, Bool.not_eq_true']
    constructor
    · rintro ⟨s', h⟩
      obtain ⟨m, s1, s2, hopen, htb, _⟩ := (if_then_ok_iff c (run tb) s s').mp h
      obtain ⟨hex, _, hs1⟩ := if_then_open_ok hopen
      have e1 : s1.exited_block_ = false := by rw [hs1]; exact hex
      have l1 : s1.current_loop_ = s.current_loop_ := by rw [hs1]
      have t := (iht s1).mp ⟨s2, htb⟩
      rw [e1, l1] at t
      exact ⟨hex, t⟩
    · rintro ⟨hex, t⟩
      obtain ⟨m, s1, hopen⟩ := if_then_open_isOk c s hex
      obtain ⟨_, _, hs1⟩ := if_then_open_ok hopen
      have e1 : s1.exited_block_ = false := by rw [hs1]; exact hex
      have l1 : s1.current_loop_ = s.current_loop_ := by rw [hs1]
      rw [← e1, ← l1] at t
      obtain ⟨s2, htb⟩ := (iht s1).mpr t
      exact ⟨_, (if_then_ok_iff c (run tb) s _).mpr ⟨m, s1, s2, hopen, htb, rfl⟩⟩
  | while_ c body ihb =>
    intro s
    simp only [succeeds, Bool.and_eq_true, Bool.not_eq_true']
    constructor
    · rintro ⟨s', h⟩
      obtain ⟨fr, s1, s2, hopen, hbody, _⟩ := (while_ok_iff c (run body) s s').mp h
      obtain ⟨hex, e1, _, _, _, _, l1, _⟩ := while_open_ok hopen
      have t := (ihb s1).mp ⟨s2, hbody⟩
      rw [e1, l1] at t
      exact ⟨hex, t⟩
    · rintro ⟨hex, t⟩
      obtain ⟨fr, s1, hopen⟩ := while_open_isOk c s hex
      obtain ⟨_, e1, _, _, _, _, l1, _⟩ := while_open_ok hopen
      have t' : succeeds s1.exited_block_ s1.current_loop_.break_block_.isSome
          s1.current_loop_.continue_block_.isSome body = true := by
        rw [e1, l1]; exact t
      obtain ⟨s2, hbody⟩ := (ihb s1).mpr t'
      exact ⟨_, (while_ok_iff c (run body) s _).mpr ⟨fr, s1, s2, hopen, hbody, rfl⟩⟩
  | break_ =>
    intro s
    simp only [succeeds, run, break_]
    cases s.current_loop_.break_block_ <;> simp
  | continue_ =>
    intro s
    simp only [succeeds, run, continue_]
    cases s.current_loop_.continue_block_ <;> simp
  | return_ => intro s; simp [succeeds, run, return_eq]
  | return_value v => intro s; simp [succeeds, run, return_value_eq]
  | declare ty n => intro s; simp [succeeds, run]
  | set x v => intro s; simp [succeeds, run]
  | get x => intro s; simp [succeeds, run]

/-- The states in which the two forms of `if_` call the true block correspond, the
false block of the two-armed form being identified with the merge block. -/
theorem sim_init {c : Value} {s : jit_module_builder} (hwf : WellFormed s)
    {frx : if_frame} {x1 : jit_module_builder} (hx : if_open c s = Except.ok (frx, x1))
    {my : Nat} {y1 : jit_module_builder} (hy : if_then_open c s = Except.ok (my, y1)) :
    Sim (s.blocks.length + 1) x1 y1 := by
  obtain ⟨_, _, hx1⟩ := if_open_ok hx
  obtain ⟨_, _, hy1⟩ := if_then_open_ok hy
  have hcur := hwf.cursor
  have hold : s.blocks.map (BasicBlock.rename (shift (s.blocks.length + 1))) = s.blocks :=
    rename_blocks_id _ _ (fun b hb x hx t ht => by
      have := hwf.targets b hb x hx t ht
      omega)
  refine ⟨by rw [hx1]; simp, ?_, ?_, ?_, ?_, by rw [hx1]; simp, by rw [hx1, hy1],
    by rw [hx1, hy1], by rw [hx1, hy1], ?_, by rw [hx1, hy1]⟩
  · rw [hx1, hy1]
    simp only
    rw [merged_appendAt _ _ _ _ (by omega), shift_le (by omega)]
    congr 1
    · unfold merged
      rw [List.eraseIdx_append_of_length_le (by omega)]
      simp [hold, BasicBlock.rename]
    · simp [Instruction.rename, Inst.rename, shift_le]
  · rw [hx1, hy1]
    simp only
    rw [map_shift_id]
    intro b hb
    rcases List.mem_append.mp hb with hb | hb
    · have := hwf.attached b hb
      omega
    · simp at hb
      omega
  · rw [hx1]
    simp only
    intro hm
    rcases List.mem_append.mp hm with hb | hb
    · have := hwf.attached _ hb
      omega
    · simp at hb
  · rw [hx1, hy1]
    simp [shift_le]
  · rw [hx1, hy1]
    simp only [loop.rename]
    have hc : s.current_loop_.continue_block_.map (shift (s.blocks.length + 1)) =
        s.current_loop_.continue_block_ := by
      cases hcb : s.current_loop_.continue_block_ with
      | none => rfl
      | some b =>
        have := hwf.loop_continue b hcb
        simp [shift_le (show b ≤ s.blocks.length + 1 by omega)]
    have hb : s.current_loop_.break_block_.map (shift (s.blocks.length + 1)) =
        s.current_loop_.break_block_ := by
      cases hcb : s.current_loop_.break_block_ with
      | none => rfl
      | some b =>
        have := hwf.loop_break b hcb
        simp [shift_le (show b ≤ s.blocks.length + 1 by omega)]
    rw [hc, hb]

/-! ## Where a program leaves the cursor -/

theorem run_length (p : Prog) (s s' : jit_module_builder) (h : run p s = Except.ok s') :
    s'.blocks.length = s.blocks.length + blocksOf p := by
  have := congrArg List.length (run_attach p s s' h).1
  simpa [length_namesOf] using this

theorem run_exitBlock (p : Prog) : ∀ (s s' : jit_module_builder), run p s = Except.ok s' →
    s'.insert_block = exitBlock s.blocks.length s.insert_block p := by
  induction p with
  | seq a b iha ihb =>
    intro s s' h
    obtain ⟨s1, h1, h2⟩ := (run_seq_ok_iff a b s s').mp h
    rw [ihb s1 s' h2, iha s s1 h1, run_length a s s1 h1]
    rfl
  | if_ c tb fb _ _ =>
    intro s s' h
    obtain ⟨fr, s1, s2, s4, hopen, _, _, rfl⟩ := (if_ok_iff c (run tb) (run fb) s s').mp h
    obtain ⟨_, hfr, _⟩ := if_open_ok hopen
    rw [if_close_eq, hfr]
    rfl
  | if_then c tb _ =>
    intro s s' h
    obtain ⟨m, s1, s2, hopen, _, rfl⟩ := (if_then_ok_iff c (run tb) s s').mp h
    obtain ⟨_, hm, _⟩ := if_then_open_ok hopen
    rw [if_then_close_eq, hm]
    rfl
  | while_ c body _ =>
    intro s s' h
    obtain ⟨fr, s1, s2, hopen, _, rfl⟩ := (while_ok_iff c (run body) s s').mp h
    obtain ⟨_, _, _, hbr, _⟩ := while_open_ok hopen
    rw [while_close_eq, hbr]
    rfl
  | skip =>
    intro s s' h
    simp only [run, Except.ok.injEq] at h
    subst h
    rfl
  | break_ =>
    intro s s' h
    obtain ⟨b, _, rfl⟩ := break_ok h
    rfl
  | continue_ =>
    intro s s' h
    obtain ⟨b, _, rfl⟩ := continue_ok h
    rfl
  | return_ =>
    intro s s' h
    rw [run, return_eq] at h
    simp only [Except.ok.injEq] at h
    subst h
    rfl
  | return_value v =>
    intro s s' h
    rw [run, return_value_eq] at h
    simp only [Except.ok.injEq] at h
    subst h
    rfl
  | declare ty n =>
    intro s s' h
    simp only [run, Except.ok.injEq] at h
    subst h
    rw [declare_eq]
    rfl
  | set x v =>
    intro s s' h
    simp only [run, Except.ok.injEq] at h
    subst h
    rw [set_eq]
    rfl
  | get x =>
    intro s s' h
    simp only [run, Except.ok.injEq] at h
    subst h
    rw [get_eq]
    rfl

theorem exitBlock_flat (p : Prog) : ∀ n c, flat p = true → exitBlock n c p = c := by
  induction p with
  | seq a b iha ihb =>
    intro n c h
    simp only [flat, Bool.and_eq_true] at h
    simp only [exitBlock]
    rw [ihb _ _ h.2, iha _ _ h.1]
  | if_ c tb fb _ _ => intro n c h; simp [flat] at h
  | if_then c tb _ => intro n c h; simp [flat] at h
  | while_ c body _ => intro n c h; simp [flat] at h
  | skip => intro n c _; rfl
  | break_ => intro n c _; rfl
  | continue_ => intro n c _; rfl
  | return_ => intro n c _; rfl
  | return_value v => intro n c _; rfl
  | declare ty nm => intro n c _; rfl
  | set x v => intro n c _; rfl
  | get x => intro n c _; rfl

/-- A program with a nested construct leaves the cursor on a block it created. -/
theorem exitBlock_created (p : Prog) : ∀ n c, flat p = false →
    n ≤ exitBlock n c p ∧ exitBlock n c p < n + blocksOf p := by
  induction p with
  | seq a b iha ihb =>
    intro n c h
    simp only [exitBlock, blocksOf]
    cases hb : flat b with
    | false =>
      have := ihb (n + blocksOf a) (exitBlock n c a) hb
      omega
    | true =>
      have ha : flat a = false := by
        simp only [flat, hb, Bool.and_true] at h
        exact h
      rw [exitBlock_flat b _ _ hb]
      have := iha n c ha
      omega
  | if_ c tb fb _ _ => intro n c _; simp only [exitBlock, blocksOf]; omega
  | if_then c tb _ => intro n c _; simp only [exitBlock, blocksOf]; omega
  | while_ c body _ => intro n c _; simp only [exitBlock, blocksOf]; omega
  | skip => intro n c h; simp [flat] at h
  | break_ => intro n c h; simp [flat] at h
  | continue_ => intro n c h; simp [flat] at h
  | return_ => intro n c h; simp [flat] at h
  | return_value v => intro n c h; simp [flat] at h
  | declare ty nm => intro n c h; simp [flat] at h
  | set x v => intro n c h; simp [flat] at h
  | get x => intro n c h; simp [flat] at h

/-- The last instruction of the cursor block after a program that ends with a
terminating statement is the terminator of that statement. -/
theorem run_endInst (p : Prog) : ∀ (s s' : jit_module_builder),
    s.insert_block < s.blocks.length → endsExit p = true → run p s = Except.ok s' →
    ((instsAt s'.blocks s'.insert_block).getLast?).map Instruction.inst =
      endInst s.current_loop_ p ∧
    ∃ t, endInst s.current_loop_ p = some t ∧ t.isTerminator = true := by
  induction p with
  | seq a b _ ihb =>
    intro s s' hv he h
    obtain ⟨s1, h1, h2⟩ := (run_seq_ok_iff a b s s').mp h
    have := ihb s1 s' (run_grow a s s1 hv h1).valid he h2
    rw [(run_balanced a s s1 h1).loop] at this
    exact this
  | break_ =>
    intro s s' hv _ h
    obtain ⟨b, hb, rfl⟩ := break_ok h
    simp only [endInst, hb, Option.map_some']
    refine ⟨?_, _, rfl, rfl⟩
    exact congrArg (Option.map Instruction.inst)
      (last_of_appendAt s.blocks s.insert_block hv [] _)
  | continue_ =>
    intro s s' hv _ h
    obtain ⟨b, hb, rfl⟩ := continue_ok h
    simp only [endInst, hb, Option.map_some']
    refine ⟨?_, _, rfl, rfl⟩
    exact congrArg (Option.map Instruction.inst)
      (last_of_appendAt s.blocks s.insert_block hv [] _)
  | return_ =>
    intro s s' hv _ h
    simp only [run, return_eq, Except.ok.injEq] at h
    subst h
    refine ⟨?_, _, rfl, rfl⟩
    exact congrArg (Option.map Instruction.inst)
      (last_of_appendAt s.blocks s.insert_block hv [] _)
  | return_value v =>
    intro s s' hv _ h
    simp only [run, return_value_eq, Except.ok.injEq] at h
    subst h
    refine ⟨?_, _, rfl, rfl⟩
    exact congrArg (Option.map Instruction.inst)
      (last_of_appendAt s.blocks s.insert_block hv _ _)
  | skip => intro s s' _ he; simp [endsExit] at he
  | if_ c tb fb _ _ => intro s s' _ he; simp [endsExit] at he
  | if_then c tb _ => intro s s' _ he; simp [endsExit] at he
  | while_ c body _ => intro s s' _ he; simp [endsExit] at he
  | declare ty nm => intro s s' _ he; simp [endsExit] at he
  | set x v => intro s s' _ he; simp [endsExit] at he
  | get x => intro s s' _ he; simp [endsExit] at he

/-! ## Claims -/

theorem demo_start_cursorInv : CursorInv demo_start := by
  refine ⟨by decide, ?_⟩
  simp [demo_start, jit_module_builder.fresh, termsIn, BasicBlock.termCount]

theorem demo_start_allOne : ∀ i, termsIn demo_start.blocks i ≤ 1 := by
  intro i
  cases i with
  | zero => simp [demo_start, jit_module_builder.fresh, termsIn, BasicBlock.termCount]
  | succ i => simp [demo_start, jit_module_builder.fresh, termsIn]

/-- C1, as stated, fails: `return_(); return_();` runs without an assertion
failure and leaves two terminators in the entry block. -/
theorem C1_counterexample :
    ∃ s', run demo_double_return demo_start = Except.ok s' ∧ termsIn s'.blocks 0 = 2 :=
  ⟨_, rfl, by decide⟩

/-- C1, amended: when the flag `exited` agrees with the block at the cursor, every
block has at most one terminator, and every `break_`, `continue_` and `return_` of the
program is called while `exited` is false, then after every sequence and nesting of
constructs that runs without an assertion failure every block has at most one
terminator. -/
theorem C1_one_terminator_per_block (p : Prog) (s s' : jit_module_builder)
    (hcur : CursorInv s) (hall : ∀ i, termsIn s.blocks i ≤ 1)
    (hopen : callsOnOpen s.exited_block_ p = true) (hrun : run p s = Except.ok s') :
    ∀ i, termsIn s'.blocks i ≤ 1 :=
  run_allOne p s s' hcur hopen hall hrun

theorem C1_witness :
    ∃ s', run demo_if_return demo_start = Except.ok s' ∧ ∀ i, termsIn s'.blocks i ≤ 1 :=
  ⟨_, rfl, C1_one_terminator_per_block demo_if_return demo_start _ demo_start_cursorInv
    demo_start_allOne (by decide) rfl⟩

/-- C2: starting from a state in which `exited` is false and the block at the
cursor exists and has no terminator, at every construct boundary (before and after
each call that does not fail, at any nesting depth) the cursor is on an existing
block and `exited` is true if and only if that block contains a terminator. -/
theorem C2_exited_iff_cursor_block_terminated (p : Prog) (s t : jit_module_builder)
    (hcur : s.insert_block < s.blocks.length) (hex : s.exited_block_ = false)
    (h0 : termsIn s.blocks s.insert_block = 0) (hb : Boundary p s t) :
    t.insert_block < t.blocks.length ∧
      (t.exited_block_ = true ↔ 0 < termsIn t.blocks t.insert_block) :=
  boundary_cursorInv hb ⟨hcur, by rw [hex, h0]; simp⟩

theorem C2_witness :
    ∃ t, Boundary demo_if_return demo_start t ∧ t.exited_block_ = true ∧
      t.insert_block < t.blocks.length ∧
      (t.exited_block_ = true ↔ 0 < termsIn t.blocks t.insert_block) :=
  ⟨_, Boundary.if_true _ _ _ _ _ _ _ rfl (Boundary.after _ _ _ rfl), rfl,
    C2_exited_iff_cursor_block_terminated demo_if_return demo_start _ (by decide) rfl rfl
      (Boundary.if_true _ _ _ _ _ _ _ rfl (Boundary.after _ _ _ rfl))⟩

/-- C3: each of the nested blocks of `if_` (true arm, false arm), of the
one-armed `if_` and of `while_` (body) is closed the same way: a branch to the
continuation block (merge block, respectively guard block) is appended to the block
at the cursor exactly when `exited` is false as the nested block finishes, the
closing line is appended in both cases, and `exited` is false afterwards.  The
construct itself appends one opening line and one closing line for each nested block
(3 lines, 2 lines and, next to the lines its condition producer appends, 2 lines),
whether or not a nested block exited. -/
theorem C3_nested_block_closing (cnd : Value) (cfn : ConditionFn) (tb fb bdy : Block)
    (s s' : jit_module_builder) :
    (if_ cnd tb fb s = Except.ok s' →
      ∃ fr s1 s2 s4, if_open cnd s = Except.ok (fr, s1) ∧ tb s1 = Except.ok s2 ∧
        fb (if_middle fr s2) = Except.ok s4 ∧ s' = if_close fr s4 ∧
        s1.source_code_.source_code_.length = s.source_code_.source_code_.length + 1 ∧
        Closes s2 (if_middle fr s2) fr.merge_block "\x7d else \x7b" ∧
        Closes s4 s' fr.merge_block "\x7d" ∧ s'.exited_block_ = false) ∧
    (if_then cnd tb s = Except.ok s' →
      ∃ m s1 s2, if_then_open cnd s = Except.ok (m, s1) ∧ tb s1 = Except.ok s2 ∧
        s' = if_then_close m s2 ∧
        s1.source_code_.source_code_.length = s.source_code_.source_code_.length + 1 ∧
        Closes s2 s' m "\x7d" ∧ s'.exited_block_ = false) ∧
    (while_ cfn bdy s = Except.ok s' →
      ∃ fr s1 s2, while_open cfn s = Except.ok (fr, s1) ∧ bdy s1 = Except.ok s2 ∧
        s' = while_close fr s2 ∧
        s1.source_code_.source_code_.length =
          s.source_code_.source_code_.length + 2 * steps_lines cfn.steps + 1 ∧
        Closes s2 s' fr.while_continue "\x7d" ∧ s'.exited_block_ = false) := by
  refine ⟨fun h => ?_, fun h => ?_, fun h => ?_⟩
  · obtain ⟨fr, s1, s2, s4, hopen, htb, hfb, rfl⟩ := (if_ok_iff cnd tb fb s s').mp h
    refine ⟨fr, s1, s2, s4, hopen, htb, hfb, rfl, ?_, closes_if_middle fr s2,
      closes_if_close fr s4, (closes_if_close fr s4).exited⟩
    obtain ⟨_, _, rfl⟩ := if_open_ok hopen
    simp
  · obtain ⟨m, s1, s2, hopen, htb, rfl⟩ := (if_then_ok_iff cnd tb s s').mp h
    refine ⟨m, s1, s2, hopen, htb, rfl, ?_, closes_if_then_close m s2,
      (closes_if_then_close m s2).exited⟩
    obtain ⟨_, _, rfl⟩ := if_then_open_ok hopen
    simp
  · obtain ⟨fr, s1, s2, hopen, hbody, rfl⟩ := (while_ok_iff cfn bdy s s').mp h
    obtain ⟨_, _, _, _, _, _, _, _, _, _, _, _, hlines, _⟩ := while_open_ok hopen
    exact ⟨fr, s1, s2, hopen, hbody, rfl, hlines, closes_while_close fr s2,
      (closes_while_close fr s2).exited⟩

theorem C3_witness :
    ∃ s', if_ demo_cond (run Prog.return_) (run Prog.skip) demo_start = Except.ok s' ∧
      s'.exited_block_ = false ∧
      s'.source_code_.source_code_ =
        ["if (x > 0) \x7b", "    return;", "\x7d else \x7b", "\x7d"] := by
  refine ⟨_, rfl, ?_, by decide⟩
  obtain ⟨_, _, _, _, _, _, _, _, _, _, _, h⟩ :=
    (C3_nested_block_closing demo_cond demo_cond_fn (run Prog.return_) (run Prog.skip)
      (run Prog.skip) demo_start _).1 rfl
  exact h

theorem exitCall_loop {p : Prog} {s t : jit_module_builder} {L L' : loop}
    (h : ExitCall p s L t L') : s.current_loop_ = L → t.current_loop_ = L' := by
  induction h with
  | break_ s L => exact fun h => h
  | continue_ s L => exact fun h => h
  | seq_left a b s L t L' _ ih => exact ih
  | seq_right a b s s1 L t L' h1 _ ih =>
    exact fun h => ih ((run_balanced a s s1 h1).loop.trans h)
  | if_true c tb fb s fr s1 L t L' hopen _ ih =>
    intro h
    obtain ⟨_, _, rfl⟩ := if_open_ok hopen
    exact ih h
  | if_false c tb fb s fr s1 s2 L t L' hopen htb _ ih =>
    intro h
    obtain ⟨_, _, rfl⟩ := if_open_ok hopen
    have e := (run_balanced tb _ s2 htb).loop
    apply ih
    rw [if_middle_eq]
    exact e.trans h
  | if_then_true c tb s m s1 L t L' hopen _ ih =>
    intro h
    obtain ⟨_, _, rfl⟩ := if_then_open_ok hopen
    exact ih h
  | while_body c body s fr s1 L t L' hopen _ ih =>
    intro _
    obtain ⟨_, _, hwc, hwb, _, _, hl, _⟩ := while_open_ok hopen
    apply ih
    rw [hl, hwc, hwb]

/-- C5: for every nesting of `while_` loops and `if_` conditionals, when `break_` or
`continue_` is called the builder's loop context holds the guard block and the break
block of the nearest enclosing `while_` whose body is still being built, and the
branch that `break_` (`continue_`) appends at the cursor targets that break block
(that guard block): not those of an outer loop and not those of an inner loop
completed earlier in the same body. -/
theorem C5_break_continue_target_innermost_loop (p : Prog) (s t : jit_module_builder)
    (L L' : loop) (hL : s.current_loop_ = L) (h : ExitCall p s L t L') :
    t.current_loop_ = L' ∧
    (∀ t', break_ t = Except.ok t' → ∃ b, L'.break_block_ = some b ∧
      t'.blocks = appendAt t.blocks t.insert_block
        [Instruction.mk (Inst.br b) (some (t.get_debug_location t.source_code_.line_no_))]) ∧
    (∀ t', continue_ t = Except.ok t' → ∃ b, L'.continue_block_ = some b ∧
      t'.blocks = appendAt t.blocks t.insert_block
        [Instruction.mk (Inst.br b) (some (t.get_debug_location t.source_code_.line_no_))]) := by
  have hl := exitCall_loop h hL
  refine ⟨hl, ?_, ?_⟩
  · intro t' ht
    obtain ⟨b, hb, rfl⟩ := break_ok ht
    exact ⟨b, by rw [← hl]; exact hb, rfl⟩
  · intro t' ht
    obtain ⟨b, hb, rfl⟩ := continue_ok ht
    exact ⟨b, by rw [← hl]; exact hb, rfl⟩


theorem C5_witness :
    ∃ t L', ExitCall demo_nested_loops demo_start demo_start.current_loop_ t L' ∧
      t.current_loop_ = L' ∧ L'.continue_block_ = some 1 ∧ L'.break_block_ = some 3 := by
  obtain ⟨fr, s1, h1⟩ := while_open_isOk demo_cond_fn demo_start rfl
  obtain ⟨_, hex1, hwc, hwb, _⟩ := while_open_ok h1
  obtain ⟨fr2, s2, h2⟩ := while_open_isOk demo_cond_fn s1 hex1
  have hrun : run (Prog.while_ demo_cond_fn Prog.skip) s1 = Except.ok (while_close fr2 s2) :=
    (while_ok_iff demo_cond_fn (run Prog.skip) s1 _).mpr ⟨fr2, s2, s2, h2, rfl, rfl⟩
  obtain ⟨fr3, s3, h3⟩ := if_open_isOk demo_cond (while_close fr2 s2) (by rw [while_close_eq])
  have hcall : ExitCall demo_nested_loops demo_start demo_start.current_loop_ s3
      { continue_block_ := some fr.while_continue, break_block_ := some fr.while_break } :=
    ExitCall.while_body _ _ _ _ _ _ _ _ h1
      (ExitCall.seq_right _ _ _ _ _ _ _ hrun
        (ExitCall.if_true _ _ _ _ _ _ _ _ _ h3 (ExitCall.break_ _ _)))
  refine ⟨s3, _, hcall,
    (C5_break_continue_target_innermost_loop demo_nested_loops demo_start s3 _ _ rfl hcall).1,
    ?_, ?_⟩
  · rw [hwc]; rfl
  · rw [hwb]; rfl

/-- C6: when `while_` hands over to its body the builder's loop context is exactly
the guard block and the break block of that call; a body that restores the context it
finds ends with that same context; and when `while_` returns, the loop context is the
one that was current when it was entered (the enclosing loop's, or the null context). -/
theorem C6_loop_context_pushed_and_restored (cfn : ConditionFn) (bdy : Block)
    (s s' : jit_module_builder) (hv : s.insert_block < s.blocks.length)
    (h : while_ cfn bdy s = Except.ok s') :
    s'.current_loop_ = s.current_loop_ ∧
    ∃ fr s1 s2, while_open cfn s = Except.ok (fr, s1) ∧ bdy s1 = Except.ok s2 ∧
      s' = while_close fr s2 ∧ fr.parent_loop = s.current_loop_ ∧
      s1.current_loop_ =
        { continue_block_ := some fr.while_continue, break_block_ := some fr.while_break } ∧
      s1.blocks[fr.while_break]? = some { name := "while_break", insts := [] } ∧
      (∃ ys d, Plain ys ∧ s1.blocks[fr.while_continue]? = some (BasicBlock.mk
        "while_continue" (ys ++ [Instruction.mk
          (Inst.cond_br cfn.value.result s1.insert_block fr.while_break) d]))) ∧
      ((∀ x y, bdy x = Except.ok y → y.current_loop_ = x.current_loop_) →
        s2.current_loop_ =
          { continue_block_ := some fr.while_continue, break_block_ := some fr.while_break }) := by
  obtain ⟨fr, s1, s2, hopen, hbody, rfl⟩ := (while_ok_iff cfn bdy s s').mp h
  obtain ⟨_, _, hwc, hwb, hpl, _, hl, _⟩ := while_open_ok hopen
  obtain ⟨b1, _, b2⟩ := while_open_blocks hopen hv
  have hl1 : s1.current_loop_ =
      { continue_block_ := some fr.while_continue, break_block_ := some fr.while_break } := by
    rw [hl, hwc, hwb]
  refine ⟨by rw [while_close_eq]; exact hpl, fr, s1, s2, hopen, hbody, rfl, hpl, hl1, b1, b2, ?_⟩
  intro hb
  rw [hb s1 s2 hbody, hl1]

theorem C6_witness :
    ∃ s', while_ demo_cond_fn (run Prog.return_) demo_start = Except.ok s' ∧
      s'.current_loop_ = demo_start.current_loop_ := by
  obtain ⟨fr, s1, h1⟩ := while_open_isOk demo_cond_fn demo_start rfl
  have hw : while_ demo_cond_fn (run Prog.return_) demo_start =
      Except.ok (while_close fr (jit_module_builder.mk
        (appendAt s1.blocks s1.insert_block
          [Instruction.mk Inst.ret_void (some (s1.get_debug_location s1.source_code_.line_no_))])
        s1.function_blocks s1.insert_block
        (some (s1.get_debug_location s1.source_code_.line_no_)) s1.dbg_locals
        (s1.source_code_.add_line "return;").2 s1.current_loop_ true)) :=
    (while_ok_iff demo_cond_fn (run Prog.return_) demo_start _).mpr
      ⟨fr, s1, _, h1, by simp only [run, return_eq], rfl⟩
  exact ⟨_, hw,
    (C6_loop_context_pushed_and_restored demo_cond_fn (run Prog.return_) demo_start _
      (by decide) hw).1⟩
/-- C8: `break_` (`continue_`) called while the loop context's break block
(continuation block) is null fails on its assertion, and the state in which it fails
is the state it was called in: no line appended, `exited` unchanged, nothing inserted.
With a loop context present they do not fail. -/
theorem C8_break_continue_outside_loop_fail_fast (s : jit_module_builder) :
    (s.current_loop_.break_block_ = none →
      break_ s = Except.error { state := s, assertion := "mb.current_loop_.break_block_" }) ∧
    (s.current_loop_.continue_block_ = none →
      continue_ s =
        Except.error { state := s, assertion := "mb.current_loop_.continue_block_" }) ∧
    (∀ b, s.current_loop_.break_block_ = some b → ∃ s', break_ s = Except.ok s') ∧
    (∀ b, s.current_loop_.continue_block_ = some b → ∃ s', continue_ s = Except.ok s') := by
  refine ⟨fun h => ?_, fun h => ?_, fun b h => ?_, fun b h => ?_⟩
  · unfold break_
    rw [h]
  · unfold continue_
    rw [h]
  · unfold break_
    rw [h]
    exact ⟨_, rfl⟩
  · unfold continue_
    rw [h]
    exact ⟨_, rfl⟩

theorem C8_witness :
    break_ demo_start =
      Except.error { state := demo_start, assertion := "mb.current_loop_.break_block_" } :=
  (C8_break_continue_outside_loop_fail_fast demo_start).1 rfl

/-- C9 fails on the code: on a fresh builder `while_` appends its `while (x > 0) {`
text as line 1 (the number `add_line` returns), yet the branch into the guard block
and the guard's instructions carry line 2. -/
theorem C9_while_header_tagged_with_next_line :
    ∃ fr s1, while_open demo_cond_fn demo_start = Except.ok (fr, s1) ∧
      (demo_start.add_line ("while (" ++ demo_cond.name ++ ") \x7b")).1 = 1 ∧
      s1.source_code_.source_code_ = ["while (x > 0) \x7b"] ∧
      instsAt s1.blocks 0 =
        [Instruction.mk (Inst.br 1) (some (DILocation.mk 2 1 (DIScope.file "f.c")))] ∧
      instsAt s1.blocks 1 =
        [Instruction.mk (Inst.op (Op.value demo_cond.result))
           (some (DILocation.mk 2 1 (DIScope.file "f.c"))),
         Instruction.mk (Inst.cond_br demo_cond.result 2 3)
           (some (DILocation.mk 2 1 (DIScope.file "f.c")))] :=
  ⟨_, _, rfl, rfl, by decide, by decide, by decide⟩
/-- C10, as stated, fails: `if_(x > 0, [] { return_(); }, [] { return_(); })` on a
fresh builder appends 5 lines while 4 instructions carry a debug location. -/
theorem C10_counterexample :
    ∃ s', run demo_if_return demo_start = Except.ok s' ∧
      s'.source_code_.source_code_.length = 5 ∧ demo_start.source_code_.source_code_.length = 0 ∧
      taggedCount s'.blocks = 4 ∧ taggedCount demo_start.blocks = 0 :=
  ⟨_, rfl, by decide, by decide, by decide, by decide⟩

/-- C10, amended: for every sequence and nesting of the constructs run from a
cursor on an existing block, the lines appended and the terminators inserted are
related by
`lines + while_ calls = terminators + nested blocks that ended exited + lines of
declarations, assignments and calls of condition producers`,
and when every terminator carried a debug location before, every terminator carries
one afterwards. -/
theorem C10_lines_and_tagged_terminators (p : Prog) (s s' : jit_module_builder)
    (hv : s.insert_block < s.blocks.length) (h : run p s = Except.ok s') :
    s'.source_code_.source_code_.length + whileCalls p + totalTerms s.blocks =
      s.source_code_.source_code_.length + totalTerms s'.blocks + exitedBlocks p +
        plainLines p ∧
    (AllTagged s.blocks → AllTagged s'.blocks) := by
  refine ⟨?_, run_allTagged p s s' h⟩
  have h1 := (run_balanced p s s' h).lines
  have h2 := run_totalTerms p s s' hv h
  have h3 := lines_terms_identity p
  omega

theorem C10_witness :
    ∃ s', run demo_if_return demo_start = Except.ok s' ∧
      s'.source_code_.source_code_.length + whileCalls demo_if_return +
          totalTerms demo_start.blocks =
        demo_start.source_code_.source_code_.length + totalTerms s'.blocks +
          exitedBlocks demo_if_return + plainLines demo_if_return :=
  ⟨_, rfl, (C10_lines_and_tagged_terminators demo_if_return demo_start _ (by decide) rfl).1⟩

/-- C7, as stated, fails: in `if_(x > 0, [] { if_(x > 0, [] { return_(); });
return_(); }, [] { return_(); })` both arms end with `return_` and the call runs
without an assertion failure, yet the true block (block 1) ends in the conditional
branch of the nested `if_`, and the `return_` that ends the true arm is the last
instruction of the nested merge block (block 5), which is neither the true block nor
the false block (block 2). -/
theorem C7_counterexample :
    endsExit (Prog.seq (Prog.if_then demo_cond Prog.return_) Prog.return_) = true ∧
    endsExit Prog.return_ = true ∧
    finalBlockName (run demo_if_nested demo_start) 1 = some "true_block" ∧
    finalLastInst (run demo_if_nested demo_start) 1 =
      some (Inst.cond_br demo_cond.result 4 5) ∧
    finalBlockName (run demo_if_nested demo_start) 2 = some "false_block" ∧
    finalBlockName (run demo_if_nested demo_start) 5 = some "merge_block" ∧
    finalLastInst (run demo_if_nested demo_start) 5 = some Inst.ret_void := by
  decide!

/-- C7, amended: for every two-armed `if_` called in a well-formed state whose true
arm and false arm each end with a terminating statement, no instruction of any block
branches to the merge block, yet the merge block is created, is the last block
attached to the function, has no instructions when `if_` returns and holds the
cursor.  The terminator of the statement that ends an arm (`endInst`: the branch of
`break_` or `continue_`, the return) is the last instruction of the block holding the
cursor when the arm finishes (`exitBlock`), and nothing is appended to that block
afterwards.  That block is the true block (false block) when the arm contains no
nested `if_` or `while_`; otherwise it is a block created inside the arm: the merge
block of the last `if_`, respectively the break block of the last `while_`, of the
arm's statement sequence. -/
theorem C7_both_arms_exit_merge_block_dead (c : Value) (tb fb : Prog)
    (s s' : jit_module_builder) (hwf : WellFormed s) (ht : endsExit tb = true)
    (hf : endsExit fb = true) (h : run (Prog.if_ c tb fb) s = Except.ok s') :
    AllInsts (fun x => s.blocks.length + 2 ∉ x.inst.targets) s'.blocks ∧
    s'.blocks[s.blocks.length + 2]? = some { name := "merge_block", insts := [] } ∧
    s'.function_blocks.getLast? = some (s.blocks.length + 2) ∧
    s'.insert_block = s.blocks.length + 2 ∧
    ∃ fr s1 s2 s4, if_open c s = Except.ok (fr, s1) ∧ run tb s1 = Except.ok s2 ∧
      run fb (if_middle fr s2) = Except.ok s4 ∧ fr.merge_block = s.blocks.length + 2 ∧
      s'.blocks[s2.insert_block]? = s2.blocks[s2.insert_block]? ∧
      (∃ x, (instsAt s2.blocks s2.insert_block).getLast? = some x ∧
        x.inst.isTerminator = true) ∧
      s'.blocks[s4.insert_block]? = s4.blocks[s4.insert_block]? ∧
      (∃ x, (instsAt s4.blocks s4.insert_block).getLast? = some x ∧
        x.inst.isTerminator = true) ∧
      (flat tb = true → s2.insert_block = s.blocks.length) ∧
      (flat fb = true → s4.insert_block = s.blocks.length + 1) ∧
      s2.insert_block = exitBlock (s.blocks.length + 3) s.blocks.length tb ∧
      s4.insert_block =
        exitBlock (s.blocks.length + 3 + blocksOf tb) (s.blocks.length + 1) fb ∧
      ((instsAt s'.blocks s2.insert_block).getLast?).map Instruction.inst =
        endInst s.current_loop_ tb ∧
      ((instsAt s'.blocks s4.insert_block).getLast?).map Instruction.inst =
        endInst s.current_loop_ fb ∧
      (∃ t, endInst s.current_loop_ tb = some t ∧ t.isTerminator = true) ∧
      (∃ t, endInst s.current_loop_ fb = some t ∧ t.isTerminator = true) ∧
      (flat tb = false → s.blocks.length + 3 ≤ s2.insert_block ∧
        s2.insert_block < s.blocks.length + 3 + blocksOf tb) ∧
      (flat fb = false → s.blocks.length + 3 + blocksOf tb ≤ s4.insert_block ∧
        s4.insert_block < s.blocks.length + 3 + blocksOf tb + blocksOf fb) := by
  obtain ⟨fr, s1, s2, s4, hopen, htb, hfb, rfl⟩ := (if_ok_iff c (run tb) (run fb) s s').mp h
  obtain ⟨hex, hfr, hs1⟩ := if_open_ok hopen
  have hv := hwf.cursor
  have g1 := grow_if_open hopen hv
  have hl1 : s1.blocks.length = s.blocks.length + 3 := by rw [hs1]; simp
  have hc1 : s1.insert_block = s.blocks.length := by rw [hs1]
  have e1 : s1.exited_block_ = false := by rw [hs1]; exact hex
  have hd1 := grow_head g1 hwf.entry
  -- nothing refers to the merge block when the true arm starts
  have n1 : NoRef (s.blocks.length + 2) s1 := by
    refine ⟨by omega, ?_, ?_, ?_⟩
    · rw [hs1]
      refine allInsts_appendAt (allInsts_append ?_ _ (by simp)) _ _
        (all_append (noTarget_of_plain _ (plain_tagOps _ _))
          (all_single _ (by simp [Inst.targets])))
      intro b hb x hx hm
      have := hwf.targets b hb x hx _ hm
      omega
    · rw [hs1]
      intro hh
      have := hwf.loop_continue _ hh
      omega
    · rw [hs1]
      intro hh
      have := hwf.loop_break _ hh
      omega
  have m1 : s1.blocks[s.blocks.length + 2]? = some { name := "merge_block", insts := [] } := by
    rw [hs1]
    simp only
    rw [getElem?_appendAt, if_neg (by omega), List.getElem?_append_right (by omega)]
    simp
  -- the true arm
  have g12 := run_grow tb s1 s2 g1.valid htb
  have n2 := run_noRef _ tb s1 s2 n1 htb
  have e2 : s2.exited_block_ = true := by
    rw [(run_balanced tb s1 s2 htb).exited, exitsAfter_of_endsExit tb _ ht]
  have hl2 := g12.len_le
  have hd2 := grow_head g12 hd1.1
  have hhead : ∀ i, s.blocks.length ≤ i → s.function_blocks.head? ≠ some i :=
    head_lt_of_attached hwf.attached
  have m2 : s2.blocks[s.blocks.length + 2]? = some { name := "merge_block", insts := [] } := by
    rw [g12.content _ (by omega) (by omega) hd1.1 (by rw [hd1.2]; exact hhead _ (by omega)), m1]
  have c2 : s2.insert_block = s.blocks.length ∨ s.blocks.length + 3 ≤ s2.insert_block := by
    rcases g12.cursor with hc | hc
    · exact Or.inl (hc.trans hc1)
    · exact Or.inr (by omega)
  -- between the arms
  have b3 : (if_middle fr s2).blocks = s2.blocks := by rw [if_middle_eq]; simp [e2]
  have hc3 : (if_middle fr s2).insert_block = s.blocks.length + 1 := by rw [if_middle_eq, hfr]
  have hf3 : (if_middle fr s2).function_blocks = s2.function_blocks ++ [fr.false_block] := by
    rw [if_middle_eq]
  have v3 : (if_middle fr s2).insert_block < (if_middle fr s2).blocks.length := by
    rw [hc3, b3]; omega
  have hd3 : (if_middle fr s2).function_blocks ≠ [] ∧
      (if_middle fr s2).function_blocks.head? = s.function_blocks.head? := by
    rw [hf3]
    exact ⟨fun h0 => hd2.1 (List.append_eq_nil.mp h0).1,
      by rw [head?_append_of_ne_nil _ _ hd2.1, hd2.2, hd1.2]⟩
  have n3 : NoRef (s.blocks.length + 2) (if_middle fr s2) := by
    refine ⟨by rw [b3]; exact n2.1, by rw [b3]; exact n2.2.1, ?_, ?_⟩
    · rw [if_middle_eq]; exact n2.2.2.1
    · rw [if_middle_eq]; exact n2.2.2.2
  have e3 : (if_middle fr s2).exited_block_ = false := by rw [if_middle_eq]
  -- the false arm
  have g34 := run_grow fb _ s4 v3 hfb
  have n4 := run_noRef _ fb _ s4 n3 hfb
  have e4 : s4.exited_block_ = true := by
    rw [(run_balanced fb _ s4 hfb).exited, exitsAfter_of_endsExit fb _ hf]
  have hl4 := g34.len_le
  rw [b3] at hl4
  have m4 : s4.blocks[s.blocks.length + 2]? = some { name := "merge_block", insts := [] } := by
    rw [g34.content _ (by rw [b3]; omega) (by rw [hc3]; omega) hd3.1
      (by rw [hd3.2]; exact hhead _ (by omega)), b3, m2]
  have k2 : s4.blocks[s2.insert_block]? = s2.blocks[s2.insert_block]? := by
    rw [g34.content _ (by rw [b3]; exact g12.valid) (by rw [hc3]; omega) hd3.1
      (by rw [hd3.2]; exact hhead _ (by omega)), b3]
  have b5 : (if_close fr s4).blocks = s4.blocks := by rw [if_close_eq]; simp [e4]
  -- where the arms leave the cursor, and the terminators they end with
  have hlen2 : s2.blocks.length = s.blocks.length + 3 + blocksOf tb := by
    rw [run_length tb s1 s2 htb, hl1]
  have x2 : s2.insert_block = exitBlock (s.blocks.length + 3) s.blocks.length tb := by
    rw [run_exitBlock tb s1 s2 htb, hl1, hc1]
  have x4 : s4.insert_block =
      exitBlock (s.blocks.length + 3 + blocksOf tb) (s.blocks.length + 1) fb := by
    rw [run_exitBlock fb _ s4 hfb, b3, hlen2, hc3]
  have lp1 : s1.current_loop_ = s.current_loop_ := by rw [hs1]
  have lp3 : (if_middle fr s2).current_loop_ = s.current_loop_ := by
    rw [if_middle_eq]
    simp only
    rw [(run_balanced tb s1 s2 htb).loop, lp1]
  have t2 := run_endInst tb s1 s2 g1.valid ht htb
  rw [lp1] at t2
  have t4 := run_endInst fb _ s4 v3 hf hfb
  rw [lp3] at t4
  have i2 : instsAt (if_close fr s4).blocks s2.insert_block =
      instsAt s2.blocks s2.insert_block := by
    unfold instsAt
    rw [b5, k2]
  have i4 : instsAt (if_close fr s4).blocks s4.insert_block =
      instsAt s4.blocks s4.insert_block := by
    rw [b5]
  refine ⟨by rw [b5]; exact n4.2.1, by rw [b5]; exact m4, ?_, by rw [if_close_eq, hfr],
    fr, s1, s2, s4, hopen, htb, hfb, by rw [hfr], by rw [b5]; exact k2,
    run_endsExit_last tb s1 s2 g1.valid ht htb, by rw [b5],
    run_endsExit_last fb _ s4 v3 hf hfb, ?_, ?_, x2, x4, by rw [i2]; exact t2.1,
    by rw [i4]; exact t4.1, t2.2, t4.2, ?_, ?_⟩
  · rw [if_close_eq, hfr]
    simp
  · intro hflat
    rw [run_flat_cursor tb s1 s2 hflat htb, hc1]
  · intro hflat
    rw [run_flat_cursor fb _ s4 hflat hfb, hc3]
  · intro hflat
    rw [x2]
    exact exitBlock_created tb _ _ hflat
  · intro hflat
    rw [x4]
    exact exitBlock_created fb _ _ hflat

theorem demo_start_wellFormed : WellFormed demo_start :=
  { cursor := by decide
    targets := by
      intro b hb x hx
      simp [demo_start, jit_module_builder.fresh] at hb
      rw [hb] at hx
      simp at hx
    entry := by decide
    attached := by decide
    loop_continue := by intro b h; simp [demo_start, jit_module_builder.fresh] at h
    loop_break := by intro b h; simp [demo_start, jit_module_builder.fresh] at h }

theorem C7_witness :
    ∃ s', run demo_if_return demo_start = Except.ok s' ∧
      s'.blocks[demo_start.blocks.length + 2]? = some { name := "merge_block", insts := [] } ∧
      s'.insert_block = demo_start.blocks.length + 2 :=
  ⟨_, rfl,
    (C7_both_arms_exit_merge_block_dead demo_cond Prog.return_ Prog.return_ demo_start _
      demo_start_wellFormed rfl rfl rfl).2.1,
    (C7_both_arms_exit_merge_block_dead demo_cond Prog.return_ Prog.return_ demo_start _
      demo_start_wellFormed rfl rfl rfl).2.2.2.1⟩

/-! ## Claims on the loop guard, the assertions and the attached blocks -/

/-- C22: `if_` (both forms) and `while_` called while `exited` is true fail on the
assertion `!mb.exited_block_`, whatever the nested blocks are (these are not called);
called while `exited` is false they reach their nested block, and when the nested
blocks do not fail they return. -/
theorem C22_constructs_assert_not_exited (cnd : Value) (cfn : ConditionFn)
    (s : jit_module_builder) :
    (s.exited_block_ = true →
      (∃ f, f.assertion = "!mb.exited_block_" ∧ f.state.exited_block_ = true ∧
        ∀ tb fb : Block, if_ cnd tb fb s = Except.error f) ∧
      (∃ f, f.assertion = "!mb.exited_block_" ∧ f.state.exited_block_ = true ∧
        ∀ tb : Block, if_then cnd tb s = Except.error f) ∧
      (∃ f, f.assertion = "!mb.exited_block_" ∧ f.state.exited_block_ = true ∧
        ∀ bdy : Block, while_ cfn bdy s = Except.error f)) ∧
    (s.exited_block_ = false →
      (∃ fr s1, if_open cnd s = Except.ok (fr, s1) ∧
        ∀ (tb fb : Block) (s2 s4 : jit_module_builder), tb s1 = Except.ok s2 →
          fb (if_middle fr s2) = Except.ok s4 → if_ cnd tb fb s = Except.ok (if_close fr s4)) ∧
      (∃ m s1, if_then_open cnd s = Except.ok (m, s1) ∧
        ∀ (tb : Block) (s2 : jit_module_builder), tb s1 = Except.ok s2 →
          if_then cnd tb s = Except.ok (if_then_close m s2)) ∧
      (∃ fr s1, while_open cfn s = Except.ok (fr, s1) ∧
        ∀ (bdy : Block) (s2 : jit_module_builder), bdy s1 = Except.ok s2 →
          while_ cfn bdy s = Except.ok (while_close fr s2))) := by
  constructor
  · intro hex
    refine ⟨?_, ?_, ?_⟩
    · have h : ∃ f, if_open cnd s = Except.error f ∧ f.assertion = "!mb.exited_block_" ∧
          f.state.exited_block_ = true := by
        simp only [if_open]
        split
        · exact ⟨_, rfl, rfl, by simp [InsertOps_eq, hex]⟩
        · rename_i hne
          simp [InsertOps_eq, hex] at hne
      obtain ⟨f, hf, ha, he⟩ := h
      exact ⟨f, ha, he, fun tb fb => by simp [if_, hf, bind, Except.bind]⟩
    · have h : ∃ f, if_then_open cnd s = Except.error f ∧ f.assertion = "!mb.exited_block_" ∧
          f.state.exited_block_ = true := by
        simp only [if_then_open]
        split
        · exact ⟨_, rfl, rfl, by simp [InsertOps_eq, hex]⟩
        · rename_i hne
          simp [InsertOps_eq, hex] at hne
      obtain ⟨f, hf, ha, he⟩ := h
      exact ⟨f, ha, he, fun tb => by simp [if_then, hf, bind, Except.bind]⟩
    · have h : ∃ f, while_open cfn s = Except.error f ∧ f.assertion = "!mb.exited_block_" ∧
          f.state.exited_block_ = true := by
        simp only [while_open]
        split
        · exact ⟨_, rfl, rfl, by simp [InsertOps_eq, ConditionFn.invoke, hex]⟩
        · rename_i hne
          simp [InsertOps_eq, ConditionFn.invoke, hex] at hne
      obtain ⟨f, hf, ha, he⟩ := h
      exact ⟨f, ha, he, fun bdy => by simp [while_, hf, bind, Except.bind]⟩
  · intro hex
    refine ⟨?_, ?_, ?_⟩
    · obtain ⟨fr, s1, h1⟩ := if_open_isOk cnd s hex
      exact ⟨fr, s1, h1, fun tb fb s2 s4 h2 h4 =>
        (if_ok_iff cnd tb fb s _).mpr ⟨fr, s1, s2, s4, h1, h2, h4, rfl⟩⟩
    · obtain ⟨m, s1, h1⟩ := if_then_open_isOk cnd s hex
      exact ⟨m, s1, h1, fun tb s2 h2 =>
        (if_then_ok_iff cnd tb s _).mpr ⟨m, s1, s2, h1, h2, rfl⟩⟩
    · obtain ⟨fr, s1, h1⟩ := while_open_isOk cfn s hex
      exact ⟨fr, s1, h1, fun bdy s2 h2 =>
        (while_ok_iff cfn bdy s _).mpr ⟨fr, s1, s2, h1, h2, rfl⟩⟩

theorem C22_witness :
    (∃ f, f.assertion = "!mb.exited_block_" ∧
      if_ demo_cond return_ return_ { demo_start with exited_block_ := true } =
        Except.error f) ∧
    ∃ s', if_ demo_cond return_ return_ demo_start = Except.ok s' := by
  refine ⟨?_, ?_⟩
  · obtain ⟨f, ha, _, hf⟩ :=
      ((C22_constructs_assert_not_exited demo_cond demo_cond_fn
        { demo_start with exited_block_ := true }).1 rfl).1
    exact ⟨f, ha, hf _ _⟩
  · obtain ⟨fr, s1, _, hf⟩ :=
      ((C22_constructs_assert_not_exited demo_cond demo_cond_fn demo_start).2 rfl).1
    exact ⟨_, hf return_ return_ _ _ rfl rfl⟩

/-- C21: a `while_` call that does not fail invokes its condition producer twice.
The first invocation runs in a state `a` whose cursor is still on the block that was
current on entry and whose synthetic source is still that of entry, before the
`while (<cond>) {` line is appended; the second runs in a state `b` whose cursor is
on the guard block, after that line.  The block that was current on entry is ended
by an unconditional branch to the guard block, the guard block holds what the
second invocation and the evaluation of the condition insert and ends in a
conditional branch to the iteration block (true) and the break block (false), and a
body that does not exit is closed by a branch back to the guard block. -/
theorem C21_while_invokes_condition_twice (c : ConditionFn) (bdy : Block)
    (s s' : jit_module_builder) (h : while_ c bdy s = Except.ok s') :
    ∃ fr s1 s2 a b, while_open c s = Except.ok (fr, s1) ∧ bdy s1 = Except.ok s2 ∧
      s' = while_close fr s2 ∧
      fr.while_continue = s.blocks.length ∧ fr.while_break = s.blocks.length + 2 ∧
      s1.insert_block = s.blocks.length + 1 ∧
      a.insert_block = s.insert_block ∧ a.blocks = s.blocks ∧
      a.source_code_ = s.source_code_ ∧
      b.insert_block = fr.while_continue ∧
      b.source_code_.source_code_ = (c.invoke a).2.source_code_.source_code_ ++
        [String.mk (List.replicate s.source_code_.indent_ ' ') ++
          ("while (" ++ (c.invoke a).1.name ++ ") \x7b")] ∧
      b.blocks = appendAt
        ((c.invoke a).2.blocks ++
          [{ name := "while_continue", insts := [] }, { name := "while_iteration", insts := [] },
           { name := "while_break", insts := [] }])
        s.insert_block
        [Instruction.mk (Inst.br fr.while_continue) (c.invoke a).2.current_debug_location] ∧
      s1.blocks = appendAt (c.invoke b).2.blocks fr.while_continue
        (tagOps (c.invoke b).2.current_debug_location (c.invoke b).1.ops ++
          [Instruction.mk
            (Inst.cond_br (c.invoke b).1.result (s.blocks.length + 1) fr.while_break)
            (c.invoke b).2.current_debug_location]) ∧
      s1.source_code_.source_code_ = (c.invoke b).2.source_code_.source_code_ ∧
      (s2.exited_block_ = false → ∃ d3, s'.blocks =
        appendAt s2.blocks s2.insert_block [Instruction.mk (Inst.br fr.while_continue) d3]) ∧
      (s2.exited_block_ = true → s'.blocks = s2.blocks) := by
  obtain ⟨fr, s1, s2, hopen, hb, hs'⟩ := (while_ok_iff c bdy s s').mp h
  have hclose := closes_while_close fr s2
  rw [← hs'] at hclose
  have hlast : (s2.exited_block_ = false → ∃ d3, s'.blocks =
        appendAt s2.blocks s2.insert_block [Instruction.mk (Inst.br fr.while_continue) d3]) ∧
      (s2.exited_block_ = true → s'.blocks = s2.blocks) :=
    ⟨fun hex => ⟨_, hclose.branch hex⟩, hclose.no_branch⟩
  obtain ⟨a, ha⟩ : ∃ a, a = s.SetCurrentDebugLocation
      (s.get_debug_location ((s.source_code_.current_line + 1) % UNSIGNED_MOD)) := ⟨_, rfl⟩
  obtain ⟨b, hbdef⟩ : ∃ b, b = ((({ ((((((c.invoke a).2.add_line
          ("while (" ++ c.value.name ++ ") \x7b")).2.CreateBlockIn "while_continue").2.CreateBlock
            "while_iteration").2.CreateBlock "while_break").2) with
        current_loop_ := { continue_block_ := some s.blocks.length,
                           break_block_ := some (s.blocks.length + 2) } }).CreateBr
          s.blocks.length).SetInsertPoint s.blocks.length) := ⟨_, rfl⟩
  refine ⟨fr, s1, s2, a, b, hopen, hb, hs', ?_⟩
  clear hclose hs' h
  simp only [while_open] at hopen
  split at hopen
  · exact absurd hopen (by simp)
  · simp only [Except.ok.injEq, Prod.mk.injEq] at hopen
    obtain ⟨hfr, hs1⟩ := hopen
    subst hfr
    subst hs1
    subst hbdef
    subst ha
    simp [ConditionFn.invoke, InsertOps_eq] at hlast ⊢
    exact hlast

theorem C21_witness :
    ∃ s', while_ demo_cond_fn (run Prog.skip) demo_start = Except.ok s' ∧
      ∃ (fr : while_frame) (s1 s2 a b : jit_module_builder), while_open demo_cond_fn demo_start = Except.ok (fr, s1) ∧
        run Prog.skip s1 = Except.ok s2 ∧ s' = while_close fr s2 ∧
        fr.while_continue = demo_start.blocks.length ∧ a.insert_block = demo_start.insert_block ∧
        b.insert_block = fr.while_continue := by
  refine ⟨_, rfl, ?_⟩
  obtain ⟨fr, s1, s2, a, b, h1, h2, h3, h4, _, _, h7, _, _, h10, _⟩ :=
    C21_while_invokes_condition_twice demo_cond_fn (run Prog.skip) demo_start _ rfl
  exact ⟨fr, s1, s2, a, b, h1, h2, h3, h4, h7, h10⟩

/-- C24: every basic block created while a program of constructs runs is attached to
the function exactly once by the time the run returns, and no other block is
attached: the blocks attached are a permutation of the blocks created, in the order
`attachOrder`.  A two-armed `if_` creates and attaches exactly three blocks of its
own, true, false and merge, with the blocks of the true arm attached between true and
false and those of the false arm between false and merge; a one-armed `if_` exactly
two, true and merge; a `while_` exactly three, guard, iteration and break; and each
of them returns with the cursor on the last block it attached. -/
theorem C24_created_blocks_attached_once_in_order (p : Prog) (s s' : jit_module_builder)
    (h : run p s = Except.ok s') :
    s'.blocks.length = s.blocks.length + blocksOf p ∧
    s'.function_blocks = s.function_blocks ++ attachOrder s.blocks.length p ∧
    (attachOrder s.blocks.length p).Perm (List.range' s.blocks.length (blocksOf p)) ∧
    s'.insert_block = ((attachOrder s.blocks.length p).getLast?).getD s.insert_block ∧
    (∀ c tb fb, p = Prog.if_ c tb fb →
      (s'.blocks.map BasicBlock.name).drop s.blocks.length =
        ["true_block", "false_block", "merge_block"] ++ namesOf tb ++ namesOf fb ∧
      s'.function_blocks = s.function_blocks ++ [s.blocks.length] ++
        attachOrder (s.blocks.length + 3) tb ++ [s.blocks.length + 1] ++
        attachOrder (s.blocks.length + 3 + blocksOf tb) fb ++ [s.blocks.length + 2] ∧
      s'.insert_block = s.blocks.length + 2) ∧
    (∀ c tb, p = Prog.if_then c tb →
      (s'.blocks.map BasicBlock.name).drop s.blocks.length =
        ["true_block", "merge_block"] ++ namesOf tb ∧
      s'.function_blocks = s.function_blocks ++ [s.blocks.length] ++
        attachOrder (s.blocks.length + 2) tb ++ [s.blocks.length + 1] ∧
      s'.insert_block = s.blocks.length + 1) ∧
    (∀ c body, p = Prog.while_ c body →
      (s'.blocks.map BasicBlock.name).drop s.blocks.length =
        ["while_continue", "while_iteration", "while_break"] ++ namesOf body ∧
      s'.function_blocks = s.function_blocks ++ [s.blocks.length, s.blocks.length + 1] ++
        attachOrder (s.blocks.length + 3) body ++ [s.blocks.length + 2] ∧
      s'.insert_block = s.blocks.length + 2) := by
  obtain ⟨h1, h2, h3⟩ := run_attach p s s' h
  have hl : s'.blocks.length = s.blocks.length + blocksOf p := by
    have := congrArg List.length h1
    simpa [length_namesOf] using this
  have hd : (s'.blocks.map BasicBlock.name).drop s.blocks.length = namesOf p := by
    rw [h1]
    exact List.drop_left' (by simp)
  refine ⟨hl, h2, attachOrder_perm p _, h3, ?_, ?_, ?_⟩
  · rintro c tb fb rfl
    refine ⟨hd, ?_, ?_⟩
    · rw [h2]
      simp [attachOrder]
    · rw [h3]
      simp only [attachOrder]
      rw [getLast?_append_getD]
      rfl
  · rintro c tb rfl
    refine ⟨hd, ?_, ?_⟩
    · rw [h2]
      simp [attachOrder]
    · rw [h3]
      simp only [attachOrder]
      rw [getLast?_append_getD]
      rfl
  · rintro c body rfl
    refine ⟨hd, ?_, ?_⟩
    · rw [h2]
      simp [attachOrder]
    · rw [h3]
      simp only [attachOrder]
      rw [getLast?_append_getD]
      rfl

theorem C24_witness :
    ∃ s', run demo_if_return demo_start = Except.ok s' ∧
      s'.function_blocks = [0, 1, 2, 3] ∧ s'.insert_block = 3 :=
  ⟨_, rfl,
    (C24_created_blocks_attached_once_in_order demo_if_return demo_start _ rfl).2.1,
    (C24_created_blocks_attached_once_in_order demo_if_return demo_start _ rfl).2.2.2.1⟩

/-! ## Claims on variables and array elements -/

/-- C18 fails on the code: for an index type narrower than 64 bits, signed or
unsigned, `operator[]` and `setElem` have no instantiation, because the branch that
is to choose between `zext` and `sext` tests `std::is_unsigned_v<Value::value_type>`
without `typename` and is ill-formed; no zero-extension and no sign-extension is ever
inserted.  With an index of type `int32_t` or `uint32_t` on `int32_t[4]` there is no
result.  Only an index type of 8 bytes is accepted: it is used unchanged, and
nothing is inserted for it. -/
theorem C18_narrow_index_has_no_instantiation :
    (∀ (it : IndexType) (idx : LLValue) (mb : jit_module_builder),
      it.size < 8 → mb.widen_index it idx = none) ∧
    (∀ (x : Variable) (elem : TypeInfo) (it : IndexType) (v : Value) (s : jit_module_builder),
      it.size < 8 → x.index elem it v s = none) ∧
    (∀ (x : Variable) (vty : TypeInfo) (it : IndexType) (idx_v value_v : Value)
        (s : jit_module_builder),
      it.size < 8 → x.setElem vty it idx_v value_v s = none) ∧
    demo_array_var.index demo_int32 demo_index32 demo_one demo_start = none ∧
    demo_array_var.index demo_int32 demo_uindex32 demo_one demo_start = none ∧
    (∀ (it : IndexType) (idx : LLValue) (mb : jit_module_builder),
      ¬ it.size < 8 → mb.widen_index it idx = some (idx, mb)) :=
  ⟨fun it idx mb h => widen_index_narrow mb it idx h,
    fun x elem it v s h => index_narrow x elem it v s h,
    fun x vty it idx_v value_v s h => setElem_narrow x vty it idx_v value_v s h,
    index_narrow _ _ _ _ _ (by decide), index_narrow _ _ _ _ _ (by decide),
    fun it idx mb h => widen_index_wide mb it idx h⟩

theorem C18_witness :
    demo_start.widen_index demo_index32 (LLValue.const "1") = none ∧
    demo_start.widen_index demo_uindex32 (LLValue.const "1") = none ∧
    demo_start.widen_index demo_index64 (LLValue.const "1") =
      some (LLValue.const "1", demo_start) :=
  ⟨C18_narrow_index_has_no_instantiation.1 demo_index32 _ demo_start (by decide),
    C18_narrow_index_has_no_instantiation.1 demo_uindex32 _ demo_start (by decide),
    C18_narrow_index_has_no_instantiation.2.2.2.2.2 demo_index64 _ demo_start (by decide)⟩

/-- C19 fails on the code: `operator[]` (with an index of type `int64_t`, used as it
is) loads from the address that `CreateInBoundsGEP(variable_, idx)` computes, a
`getelementptr` with the single index `idx` on the pointer to the slot.  A single
index steps over whole slots, so the address is the base plus `i` times the size of
the whole array, not `i` times the size of an element: for `int32_t[4]` at base 1000
and index 1 the address is 1016, past the end of the 16-byte slot, where element 1
is at 1004. -/
theorem C19_index_steps_over_the_whole_array :
    (∀ (x : Variable) (elem : TypeInfo) (it : IndexType) (v : Value) (s : jit_module_builder),
      ¬ it.size < 8 →
      (x.index elem it v s).map (fun r => r.1) =
        some (Value.mk "test_name" []
          (LLValue.load (LLValue.gep x.variable_ v.result) elem.alignment))) ∧
    (demo_array_var.index demo_int32 demo_index64 demo_one demo_start).map
        (fun r => r.1.result) =
      some (LLValue.load (LLValue.gep demo_array_var.variable_ (LLValue.const "1")) 4) ∧
    (∀ (a : ArrayInfo) (base i : Nat),
      index_address a base i = base + i * (a.count * a.elem_size)) ∧
    index_address demo_array 1000 1 = 1016 ∧
    1000 + 1 * demo_array.elem_size = 1004 ∧
    1000 + demo_array.slot_size ≤ index_address demo_array 1000 1 := by
  refine ⟨?_, ?_, ?_, by decide, by decide, by decide⟩
  · intro x elem it v s h
    rw [index_eq x elem it v s h]
    rfl
  · rw [index_eq _ _ _ _ _ (by decide)]
    rfl
  · intro a base i
    rfl

theorem C19_witness :
    (demo_array_var.index demo_int32 demo_index64 demo_seven demo_start).map (fun r => r.1) =
      some (Value.mk "test_name" []
        (LLValue.load (LLValue.gep demo_array_var.variable_ (LLValue.const "7")) 4)) :=
  C19_index_steps_over_the_whole_array.1 demo_array_var demo_int32 demo_index64 demo_seven
    demo_start (by decide)

/-- C17: `set(v)` followed by `get()` on the same variable appends, at the cursor,
the instructions evaluating `v`, one store of `v` to the variable's slot and one load
of that slot, the load having the alignment of the store (that of the variable's
type; both access the slot with the slot's type).  `get()` inserts no store and
appends no line.  Whatever memory held before, after these instructions the slot holds
`v`, which is what the load yields. -/
theorem C17_set_then_get_yields_the_value (x : Variable) (v : Value) (s : jit_module_builder)
    (m : Memory) :
    (x.get (x.set v s)).2.blocks = appendAt s.blocks s.insert_block
      (set_insts x v s.current_debug_location ++ get_insts x s.current_debug_location) ∧
    (x.get (x.set v s)).1.result = LLValue.load x.variable_ x.type_.alignment ∧
    (x.get (x.set v s)).2.source_code_ = (x.set v s).source_code_ ∧
    exec (exec m (set_insts x v s.current_debug_location))
      (get_insts x s.current_debug_location) =
        exec m (set_insts x v s.current_debug_location) ∧
    load_value (exec m (set_insts x v s.current_debug_location ++
      get_insts x s.current_debug_location)) x.variable_ = some v.result := by
  refine ⟨?_, rfl, ?_, rfl, ?_⟩
  · rw [get_eq, set_eq]
    simp [set_insts, get_insts]
  · rw [get_eq]
  · simp [exec, set_insts, get_insts, exec_inst, load_value, List.foldl_append]

/-- C20: while a function is being built (its entry block `entry` exists), wherever
the cursor is, constructing a variable puts exactly one instruction into the block
store, the stack allocation, as the first instruction of the entry block and without
a debug location; every other block, the cursor block included when it is not the
entry block, is left as it was, and the cursor does not move.  Exactly one line
`<type name> <variable name>;` is appended.  Constructing the variable with an
initial value `v` is constructing it and then calling `set(v)`: the allocation at
the start of the entry block, then the instructions of `set(v)` at the cursor, and
the declaration line followed by the assignment line. -/
theorem C20_variable_construction (ty : TypeInfo) (n : String) (v : Value)
    (s : jit_module_builder) (entry : Nat) (rest : List Nat)
    (hf : s.function_blocks = entry :: rest) (he : entry < s.blocks.length) :
    instsAt (Variable.declare ty n s).2.blocks entry =
      Instruction.mk (Inst.op (Op.value (LLValue.alloca ty.llvm n))) none ::
        instsAt s.blocks entry ∧
    (∀ i, i ≠ entry → (Variable.declare ty n s).2.blocks[i]? = s.blocks[i]?) ∧
    (Variable.declare ty n s).2.blocks.length = s.blocks.length ∧
    (Variable.declare ty n s).2.insert_block = s.insert_block ∧
    (Variable.declare ty n s).2.source_code_.source_code_ =
      s.source_code_.source_code_ ++
        [String.mk (List.replicate s.source_code_.indent_ ' ') ++ (ty.name ++ " " ++ n ++ ";")] ∧
    (Variable.declare ty n s).1 = { variable_ := LLValue.alloca ty.llvm n, name_ := n, type_ := ty } ∧
    Variable.declare_init ty n v s =
      ((Variable.declare ty n s).1,
        (Variable.declare ty n s).1.set v (Variable.declare ty n s).2) ∧
    (Variable.declare_init ty n v s).2.blocks =
      appendAt
        (prependAt s.blocks entry
          [Instruction.mk (Inst.op (Op.value (LLValue.alloca ty.llvm n))) none])
        s.insert_block
        (set_insts (Variable.declare ty n s).1 v s.current_debug_location) ∧
    (Variable.declare_init ty n v s).2.source_code_.source_code_ =
      s.source_code_.source_code_ ++
        [String.mk (List.replicate s.source_code_.indent_ ' ') ++ (ty.name ++ " " ++ n ++ ";"),
         String.mk (List.replicate s.source_code_.indent_ ' ') ++ (n ++ " = " ++ v.name ++ ";")] := by
  have hb : (Variable.declare ty n s).2.blocks = prependAt s.blocks entry
      [Instruction.mk (Inst.op (Op.value (LLValue.alloca ty.llvm n))) none] := by
    rw [declare_eq]
    simp [jit_module_builder.InsertAtEntry, hf]
  have hx : (Variable.declare ty n s).1 =
      { variable_ := LLValue.alloca ty.llvm n, name_ := n, type_ := ty } := by
    simp [Variable.declare]
  refine ⟨?_, ?_, ?_, ?_, ?_, hx, rfl, ?_, ?_⟩
  · rw [hb]
    unfold instsAt
    rw [getElem?_prependAt, if_pos rfl, List.getElem?_eq_getElem he]
    simp [BasicBlock.prepend]
  · intro i hi
    rw [hb, getElem?_prependAt, if_neg (fun h => hi h.symm)]
  · rw [hb]
    simp
  · rw [declare_eq]
  · rw [declare_eq]
    simp
  · show ((Variable.declare ty n s).1.set v (Variable.declare ty n s).2).blocks = _
    rw [set_eq, hb]
    simp [declare_eq, set_insts]
  · show ((Variable.declare ty n s).1.set v (Variable.declare ty n s).2).source_code_.source_code_ = _
    rw [set_eq, hx]
    simp [declare_eq]

theorem C20_witness :
    instsAt (Variable.declare demo_int32 "x" demo_start).2.blocks 0 =
      [Instruction.mk (Inst.op (Op.value (LLValue.alloca "i32" "x"))) none] ∧
    (Variable.declare demo_int32 "x" demo_start).2.source_code_.source_code_ = ["i32 x;"] ∧
    (Variable.declare_init demo_int32 "x" demo_seven demo_start).2.source_code_.source_code_ =
      ["i32 x;", "x = 7;"] := by
  have h := C20_variable_construction demo_int32 "x" demo_seven demo_start 0 [] rfl (by decide)
  exact ⟨h.1, by rw [h.2.2.2.2.1]; decide, by rw [h.2.2.2.2.2.2.2.2]; decide⟩

/-! ## Claims on `build()` and on the registration of the builder -/

/-- C15 fails on the code: `build()` does not look at what `compileModule` reports.
Whatever the compile step and the builder state, it returns a module handle made from
the compiler context the step leaves; with a compile step that reports failure and
leaves the context as it was, `build()` on a fresh builder returns the handle of the
untouched session, and no result of `build()` says that compilation failed: two
compile steps that leave the same context give the same result, whether they report
success or failure. -/
theorem C15_build_returns_module_on_failure :
    (∀ (cm : compiler_context → jit_module_builder → Bool × compiler_context)
        (c : compiler_context) (s : jit_module_builder),
      build cm c s = { source_file := s.source_code_.get,
                       returned := { session_ := (cm c s).2.lljit_,
                                     mangle_ := (cm c s).2.mangle_ } }) ∧
    (demo_compile_fails demo_context demo_start).1 = false ∧
    (build demo_compile_fails demo_context demo_start).returned =
      { session_ := [], mangle_ := "mangle" } ∧
    (∀ (cm cm' : compiler_context → jit_module_builder → Bool × compiler_context)
        (c : compiler_context) (s : jit_module_builder),
      (cm c s).1 = false → (cm' c s).1 = true → (cm c s).2 = (cm' c s).2 →
      build cm c s = build cm' c s) := by
  refine ⟨fun cm c s => rfl, rfl, rfl, ?_⟩
  intro cm cm' c s _ _ h
  simp [build, h]

/-- C16: constructing a builder while a builder is registered fails on the assertion
and leaves the registered builder in place; constructing one while none is
registered registers it, so that `current_builder()` returns it; destroying a live
builder leaves no builder registered, after which a construction succeeds.  In every
thread state reachable by constructions and destructions of live builders, the live
builders are the registered one or none: at most one builder is registered, and at
most one is alive. -/
theorem C16_one_registered_builder (t : thread_state) (this : Nat) :
    (∀ b, t.current_builder_ = some b →
      thread_state.construct this t = Except.error
        { state := t, assertion := "jit_module_builder::current_builder_.get() == nullptr" } ∧
      t.current_builder = some b) ∧
    (t.current_builder_ = none →
      ∃ t', thread_state.construct this t = Except.ok t' ∧ t'.current_builder = some this) ∧
    (thread_state.destroy this t).current_builder = none ∧
    (∀ other, ∃ t', thread_state.construct other (thread_state.destroy this t) = Except.ok t' ∧
      t'.current_builder = some other) ∧
    (Reachable t → t.live = t.current_builder_.toList ∧ t.live.length ≤ 1) := by
  refine ⟨?_, ?_, rfl, ?_, ?_⟩
  · intro b hb
    simp [thread_state.construct, thread_state.current_builder, hb]
  · intro hn
    refine ⟨thread_state.register_current_builder { t with live := this :: t.live } this,
      ?_, rfl⟩
    simp [thread_state.construct, hn]
  · intro other
    refine ⟨thread_state.register_current_builder { thread_state.destroy this t with
      live := other :: (thread_state.destroy this t).live } other, ?_, rfl⟩
    simp [thread_state.construct, thread_state.destroy,
      thread_state.deregister_current_builder]
  · intro hr
    have key : t.live = t.current_builder_.toList := by
      induction hr with
      | init => rfl
      | construct b t t' _ hnot hc ih =>
        unfold thread_state.construct at hc
        split at hc
        · rename_i hnone
          simp only [Except.ok.injEq] at hc
          subst hc
          rw [hnone] at ih
          simp [thread_state.register_current_builder, ih]
        · exact absurd hc (by simp)
      | destroy b t _ hin ih =>
        cases hcb : t.current_builder_ with
        | none =>
          rw [hcb] at ih
          rw [ih] at hin
          simp at hin
        | some b' =>
          rw [hcb] at ih
          rw [ih] at hin
          simp at hin
          subst hin
          simp [thread_state.destroy, thread_state.deregister_current_builder, ih]
    refine ⟨key, ?_⟩
    rw [key]
    cases t.current_builder_ <;> simp

theorem C16_witness :
    ∃ t1, thread_state.construct 1 thread_state.init = Except.ok t1 ∧
      t1.current_builder = some 1 ∧
      thread_state.construct 2 t1 = Except.error
        { state := t1, assertion := "jit_module_builder::current_builder_.get() == nullptr" } ∧
      t1.live = t1.current_builder_.toList := by
  refine ⟨_, rfl, rfl, ?_, ?_⟩
  · exact ((C16_one_registered_builder _ 2).1 1 rfl).1
  · exact ((C16_one_registered_builder _ 2).2.2.2.2
      (Reachable.construct 1 _ _ Reachable.init (by decide) rfl)).1

/-! ## Claims on the terminating statements -/

/-- C13, as stated, fails: `return_(x > 0)` on a builder whose entry block is empty
returns without an assertion failure and leaves two instructions in that block, the
comparison that evaluates the operand and then the return, not exactly one. -/
theorem C13_counterexample :
    instsAt demo_start.blocks 0 = [] ∧
    (∃ s', return_value demo_cond demo_start = Except.ok s' ∧
      (instsAt s'.blocks 0).length = 2 ∧
      (instsAt s'.blocks 0).map Instruction.inst =
        [Inst.op (Op.value demo_cond.result), Inst.ret demo_cond.result]) :=
  ⟨rfl, _, rfl, by decide, by decide⟩

/-- C13, amended: `break_`, `continue_` (with the loop target present), `return_()` and
`return_(v)` return, set `exited`, append exactly one line (`break;`, `continue;`,
`return;`, `return <v>;`) and insert exactly one terminator at the cursor: the branch
to the break block of the loop context, the branch to its continuation block, the void
return, the return of `v`.  `return_(v)` evaluates `v` first, which inserts the
instructions of `v` when `v` is an expression still to be computed and nothing when
it is a computed value.  Every instruction inserted carries the number of the
appended line and the scope on top of the scope stack; the cursor, the loop context,
the scope stack and the indentation are unchanged. -/
theorem C13_terminating_statements (s : jit_module_builder) (v : Value) :
    (∀ b, s.current_loop_.break_block_ = some b →
      ∃ s', break_ s = Except.ok s' ∧ Terminates s s' "break;" [] (Inst.br b)) ∧
    (∀ b, s.current_loop_.continue_block_ = some b →
      ∃ s', continue_ s = Except.ok s' ∧ Terminates s s' "continue;" [] (Inst.br b)) ∧
    (∃ s', return_ s = Except.ok s' ∧ Terminates s s' "return;" [] Inst.ret_void) ∧
    (∃ s', return_value v s = Except.ok s' ∧
      Terminates s s' ("return " ++ v.name ++ ";") v.ops (Inst.ret v.result)) ∧
    (s.source_code_.add_line "return;").1 = s.source_code_.current_line := by
  refine ⟨?_, ?_, ?_, ?_, rfl⟩
  · intro b hb
    refine ⟨_, by simp only [break_, hb]; rfl, ?_⟩
    exact ⟨rfl, by simp, by simp [tagOps], rfl, rfl, rfl, rfl, rfl⟩
  · intro b hb
    refine ⟨_, by simp only [continue_, hb]; rfl, ?_⟩
    exact ⟨rfl, by simp, by simp [tagOps], rfl, rfl, rfl, rfl, rfl⟩
  · refine ⟨_, return_eq s, ?_⟩
    exact ⟨rfl, by simp, by simp [tagOps], rfl, rfl, rfl, rfl, rfl⟩
  · refine ⟨_, return_value_eq v s, ?_⟩
    exact ⟨rfl, by simp, by simp, rfl, rfl, rfl, rfl, rfl⟩

theorem C13_witness :
    ∃ s', return_ demo_start = Except.ok s' ∧
      Terminates demo_start s' "return;" [] Inst.ret_void ∧
      instsAt s'.blocks 0 =
        [Instruction.mk Inst.ret_void (some (DILocation.mk 1 1 (DIScope.file "f.c")))] := by
  obtain ⟨s', h, t⟩ := (C13_terminating_statements demo_start demo_cond).2.2.1
  refine ⟨s', h, t, ?_⟩
  rw [t.insts]
  decide

/-! ## Claims on the recorder -/

/-- C11, as stated, fails in two ways.  A line text may contain a newline: after the
single call `add_line("a\nb")` on a fresh recorder `current_line()` is 2, while the
text in the buffer, `a\nb\n`, has two lines, so one plus the number of lines is 3.
And a sequence may exhaust the `unsigned` line counter: after 4294967295 calls of
`add_line` on a fresh recorder `current_line()` is 0, not 4294967296, and the
4294967296th call returns 0. -/
theorem C11_counterexample :
    ((source_code_generator.create "f.c").add_line "a\nb").2.current_line = 2 ∧
    ((source_code_generator.create "f.c").add_line "a\nb").2.get = "a\nb\n" ∧
    source_code_generator.line_count
      ((source_code_generator.create "f.c").add_line "a\nb").2.get = 2 ∧
    ((source_code_generator.create "f.c").add_lines
      (List.replicate 4294967295 "")).2.current_line = 0 ∧
    (((source_code_generator.create "f.c").add_lines
      (List.replicate 4294967295 "")).2.add_line "").1 = 0 := by
  have key : ∀ n : Nat, 0 < n →
      ((source_code_generator.create "f.c").add_lines (List.replicate n "")).2.line_no_ =
        (1 + n) % UNSIGNED_MOD := by
    intro n hn
    rcases add_lines_line_no (List.replicate n "") (source_code_generator.create "f.c") with h | h
    · rw [h, List.length_replicate]
      rfl
    · have := congrArg List.length h
      rw [List.length_replicate] at this
      exact absurd this (by simp; omega)
  have e : (1 + 4294967295) % UNSIGNED_MOD = 0 := by decide
  have both : ∀ g : source_code_generator, g.line_no_ = 0 →
      g.current_line = 0 ∧ (g.add_line "").1 = 0 := fun g h => ⟨h, h⟩
  exact ⟨by decide, by decide, by decide, both _ ((key 4294967295 (by decide)).trans e)⟩

/-- C11, amended: for every sequence of fewer than 4294967295 `add_line` calls on a
fresh recorder, the k-th call returns k (the numbers returned are 1, 2, 3, ...), and
the text in the buffer is the line texts given, in order, each followed by one
newline (the indentation of a fresh recorder being none).  The number of lines of
that text is the number of calls plus the number of newline characters inside the
line texts; so, when no line text contains a newline character, `current_line()` is
afterwards one plus the number of lines in the buffer.  Each single call of
`add_line`, in any state of the recorder, returns `current_line()` and extends the
text by the current indentation in spaces, the line text and one newline, the old
text being a prefix of the new one. -/
theorem C11_add_line_numbers_and_buffer (source_file : String) (ls : List String)
    (hlen : ls.length < UNSIGNED_MOD - 1) :
    ((source_code_generator.create source_file).add_lines ls).1 = List.range' 1 ls.length ∧
    ((source_code_generator.create source_file).add_lines ls).2.current_line =
      1 + ls.length ∧
    ((source_code_generator.create source_file).add_lines ls).2.get =
      String.join (ls.map (fun l => l ++ "\n")) ∧
    source_code_generator.line_count
        ((source_code_generator.create source_file).add_lines ls).2.get =
      ls.length + (ls.map source_code_generator.line_count).sum ∧
    ((∀ l ∈ ls, '\n' ∉ l.data) →
      ((source_code_generator.create source_file).add_lines ls).2.current_line =
        1 + source_code_generator.line_count
          ((source_code_generator.create source_file).add_lines ls).2.get) ∧
    (∀ (g : source_code_generator) (line : String),
      (g.add_line line).1 = g.current_line ∧
      (g.add_line line).2.get =
        g.get ++ (String.mk (List.replicate g.indent_ ' ') ++ line ++ "\n") ∧
      g.get.data <+: (g.add_line line).2.get.data) := by
  have h1 : (source_code_generator.create source_file).line_no_ = 1 := rfl
  obtain ⟨a1, a2, a3, _⟩ := add_lines_spec ls (source_code_generator.create source_file)
    (by rw [h1]; simp only [UNSIGNED_MOD] at hlen ⊢; omega)
  have hs : ((source_code_generator.create source_file).add_lines ls).2.source_code_ = ls := by
    rw [a3]
    simp [source_code_generator.create]
  have hc : ((source_code_generator.create source_file).add_lines ls).2.current_line =
      1 + ls.length := by
    simp only [source_code_generator.current_line]
    rw [a2, h1]
  have hn : source_code_generator.line_count
      ((source_code_generator.create source_file).add_lines ls).2.get =
        ls.length + (ls.map source_code_generator.line_count).sum := by
    rw [add_lines_line_count]
    have : source_code_generator.line_count (source_code_generator.create source_file).get = 0 :=
      rfl
    rw [this]
    omega
  refine ⟨by rw [a1, h1], hc, ?_, hn, ?_, fun g line => ⟨rfl, add_line_get g line, ?_⟩⟩
  · simp only [source_code_generator.get]
    rw [hs]
  · intro hnl
    rw [hc, hn, line_count_sum_zero ls hnl]
    rfl
  · rw [add_line_get, String.data_append]
    exact List.prefix_append _ _

theorem C11_witness :
    ((source_code_generator.create "f.c").add_lines ["a", "b", "c"]).1 = [1, 2, 3] ∧
    ((source_code_generator.create "f.c").add_lines ["a", "b", "c"]).2.current_line = 4 ∧
    ((source_code_generator.create "f.c").add_lines ["a", "b", "c"]).2.get = "a\nb\nc\n" ∧
    source_code_generator.line_count
      ((source_code_generator.create "f.c").add_lines ["a", "b", "c"]).2.get = 3 := by
  have h := C11_add_line_numbers_and_buffer "f.c" ["a", "b", "c"] (by decide)
  have h5 := h.2.2.2.2.1 (by decide)
  rw [h.2.1] at h5
  exact ⟨h.1, h.2.1, by rw [h.2.2.1]; decide, (Nat.add_left_cancel h5).symm⟩

/-- C25, as stated, fails when 1073741824 nested blocks are open: in the state
reached from a fresh recorder by that many `enter_scope` calls the indentation has
wrapped to 0, which is not four times the number of open blocks, and the
`leave_scope` that closes the innermost block wraps the indentation below zero, to
4294967292. -/
theorem C25_counterexample :
    Recorded 1073741824 1073741824
      ((source_code_generator.create "f.c").enter_scopes 1073741824) ∧
    ((source_code_generator.create "f.c").enter_scopes 1073741824).indent_ = 0 ∧
    ((source_code_generator.create "f.c").enter_scopes 1073741824).leave_scope.indent_ =
      4294967292 := by
  have key : ∀ n : Nat, 0 < n →
      ((source_code_generator.create "f.c").enter_scopes n).indent_ =
        (0 + 4 * n) % UNSIGNED_MOD := by
    intro n hn
    rcases enter_scopes_indent (source_code_generator.create "f.c") n with h | h
    · rw [h]
      rfl
    · omega
  have e : (0 + 4 * 1073741824) % UNSIGNED_MOD = 0 := by decide
  have both : ∀ g : source_code_generator, g.indent_ = 0 →
      g.indent_ = 0 ∧ g.leave_scope.indent_ = 4294967292 := by
    intro g h
    refine ⟨h, ?_⟩
    simp only [source_code_generator.leave_scope]
    rw [h]
    decide
  exact ⟨recorded_enter_scopes 1073741824 "f.c" 1073741824 (Nat.le_refl _),
    both _ ((key 1073741824 (by decide)).trans e)⟩

/-- C25, amended: in every state reached from a fresh recorder through `add_line`
and the `enter_scope`/`leave_scope` pairs of `if_` and `while_` with fewer than
1073741824 nested blocks open at any time (`4 * B` fits the `unsigned` indentation),
the indentation is four times the number of nested blocks open and the scope stack is
one deeper than that number; so the scope stack is not empty when `debug_scope()`
reads its top, and a `leave_scope` closing an open block finds an indentation of at
least 4 and does not wrap below zero. -/
theorem C25_indent_and_scope_depth (B d : Nat) (g : source_code_generator)
    (hB : 4 * B < UNSIGNED_MOD) (h : Recorded B d g) :
    g.indent_ = 4 * d ∧ g.dbg_scopes_.length = d + 1 ∧
    (∃ top rest, g.dbg_scopes_ = top :: rest ∧ g.debug_scope = top) ∧
    (0 < d → 4 ≤ g.indent_ ∧ g.leave_scope.indent_ = 4 * (d - 1) ∧
      g.leave_scope.dbg_scopes_.length = d) := by
  obtain ⟨_, h1, h2⟩ := recorded_inv hB h
  refine ⟨h1, h2, ?_, ?_⟩
  · cases hs : g.dbg_scopes_ with
    | nil => rw [hs] at h2; simp at h2
    | cons top rest => exact ⟨top, rest, rfl, by simp [hs]⟩
  · intro hd
    refine ⟨by omega, ?_, ?_⟩
    · simp only [source_code_generator.leave_scope]
      rw [if_pos (by omega)]
      omega
    · simp [h2]

theorem C25_witness :
    ((source_code_generator.create "f.c").enter_scope.add_line "x").2.indent_ = 4 * 1 ∧
    ((source_code_generator.create "f.c").enter_scope.add_line "x").2.dbg_scopes_.length = 1 + 1 := by
  have h := C25_indent_and_scope_depth 1 1 _ (by decide)
    (Recorded.add_line 1 _ "x" (Recorded.enter_scope 0 _ (Recorded.fresh "f.c") (by decide)))
  exact ⟨h.1, h.2.1⟩

/-- C12, as stated, fails at a nesting depth of 1073741824: with that many one-armed
`if_` nested in one another, started on a fresh builder at indentation 0, the run
does not fail, and the line `return;` of the innermost block, appended while
1073741824 nested blocks are open, is written with no space in front of it, the
`unsigned` indentation having wrapped to 0. -/
theorem C12_counterexample :
    ∃ s', run (deep 1073741824) demo_start = Except.ok s' ∧
      demo_start.source_code_.indent_ = 0 ∧
      s'.source_code_.source_code_[1073741824]? = some "return;" := by
  obtain ⟨s', h⟩ := deep_ok 1073741824 demo_start rfl
  refine ⟨s', h, rfl, ?_⟩
  have ht := run_text (deep 1073741824) demo_start s' (by decide) h
  have h0 : demo_start.source_code_.source_code_ = [] := rfl
  have hi : demo_start.source_code_.indent_ = 0 := rfl
  rw [ht, h0, hi, List.nil_append]
  have key : ∀ n : Nat, 0 < n → (textAt 0 (deep n))[n]? =
      some (indented ((0 + 4 * n) % UNSIGNED_MOD) "return;") := by
    intro n hn
    rcases deep_line n 0 with hd | ⟨h0, _⟩
    · exact hd
    · omega
  have e : (0 + 4 * 1073741824) % UNSIGNED_MOD = 0 := by decide
  rw [key 1073741824 (by decide), e]
  rfl

/-- C12, amended: for every nesting of `if_` and `while_` constructs of a depth
whose indentation fits the `unsigned` counter (fewer than 1073741824 nested blocks
open at a time), run from a state in which `d` nested blocks are open and the
indentation is `4 * d` (a fresh builder: `d = 0`, indentation 0), the lines appended
are those of `textOf`: each line appended while `d'` nested blocks are open is its
statement text behind exactly `4 * d'` spaces, the opening and closing lines of a
construct at the indentation of the enclosing block and the lines of its nested
blocks four spaces deeper. -/
theorem C12_lines_indented_by_depth (p : Prog) (d : Nat) (s s' : jit_module_builder)
    (hd : s.source_code_.indent_ = 4 * d) (hfit : 4 * (d + depthOf p) < UNSIGNED_MOD)
    (h : run p s = Except.ok s') :
    s'.source_code_.source_code_ = s.source_code_.source_code_ ++ textOf d p := by
  rw [run_text p s s' (by omega) h, hd, textAt_eq_textOf p d hfit]

theorem C12_witness :
    ∃ s', run demo_if_return demo_start = Except.ok s' ∧
      s'.source_code_.source_code_ =
        ["if (x > 0) \x7b", "    return;", "\x7d else \x7b", "    return;", "\x7d"] := by
  refine ⟨_, rfl, ?_⟩
  rw [C12_lines_indented_by_depth demo_if_return 0 demo_start _ rfl (by decide) rfl]
  decide

/-! ## The claim on the one-armed `if_` -/

/-- C14: for every condition `c` and true block `tb` (a program of constructs),
called in a well-formed state, the one-armed `if_(c, tb)` fails exactly when the
two-armed `if_(c, tb, [] {})` fails, and when they do not fail: the one-armed form
branches on `c` to the true block and, as false target, to its merge block; both
forms return with `exited` false, with the scope stack, the indentation and the loop
context they were called with, and with the cursor on their merge block, which is
empty; the false block of the two-armed form holds exactly one instruction, an
unconditional branch to the merge block; and the block store of the one-armed form
is that of the two-armed form with the false block identified with the merge block
(taken out, the ids renumbered), the attached blocks being the same up to that
identification. -/
theorem C14_one_armed_if_refines_two_armed (c : Value) (tb : Prog) (s : jit_module_builder)
    (hwf : WellFormed s) (hrange : s.source_code_.indent_ < UNSIGNED_MOD) :
    ((∃ x', if_ c (run tb) (run Prog.skip) s = Except.ok x') ↔
      (∃ y', if_then c (run tb) s = Except.ok y')) ∧
    ∀ x' y', if_ c (run tb) (run Prog.skip) s = Except.ok x' →
      if_then c (run tb) s = Except.ok y' →
      (∃ m y1, if_then_open c s = Except.ok (m, y1) ∧ m = s.blocks.length + 1 ∧
        y1.blocks = appendAt
          (s.blocks ++ [{ name := "true_block", insts := [] }, { name := "merge_block", insts := [] }])
          s.insert_block
          (tagOps (some (s.get_debug_location s.source_code_.line_no_)) c.ops ++
            [Instruction.mk (Inst.cond_br c.result s.blocks.length m)
              (some (s.get_debug_location s.source_code_.line_no_))])) ∧
      x'.exited_block_ = false ∧ y'.exited_block_ = false ∧
      x'.source_code_.dbg_scopes_ = s.source_code_.dbg_scopes_ ∧
      y'.source_code_.dbg_scopes_ = s.source_code_.dbg_scopes_ ∧
      x'.source_code_.indent_ = s.source_code_.indent_ ∧
      y'.source_code_.indent_ = s.source_code_.indent_ ∧
      x'.current_loop_ = s.current_loop_ ∧ y'.current_loop_ = s.current_loop_ ∧
      x'.insert_block = s.blocks.length + 2 ∧ y'.insert_block = s.blocks.length + 1 ∧
      x'.blocks[s.blocks.length + 2]? = some { name := "merge_block", insts := [] } ∧
      y'.blocks[s.blocks.length + 1]? = some { name := "merge_block", insts := [] } ∧
      (∃ d, x'.blocks[s.blocks.length + 1]? =
        some (BasicBlock.mk "false_block" [Instruction.mk (Inst.br (s.blocks.length + 2)) d])) ∧
      y'.blocks = merged (s.blocks.length + 1) x'.blocks ∧
      y'.function_blocks =
        (x'.function_blocks.filter (fun b => b ≠ s.blocks.length + 1)).map
          (shift (s.blocks.length + 1)) := by
  constructor
  · constructor
    · rintro ⟨x', hx⟩
      obtain ⟨frx, x1, x2, x4, hopen, htb, _, _⟩ :=
        (if_ok_iff c (run tb) (run Prog.skip) s x').mp hx
      obtain ⟨hex, _, hx1⟩ := if_open_ok hopen
      obtain ⟨my, y1, gopen⟩ := if_then_open_isOk c s hex
      obtain ⟨y2, gtb, _⟩ := run_sim tb _ x1 y1 x2 (sim_init hwf hopen gopen) htb
      exact ⟨_, (if_then_ok_iff c (run tb) s _).mpr ⟨my, y1, y2, gopen, gtb, rfl⟩⟩
    · rintro ⟨y', hy⟩
      obtain ⟨my, y1, y2, gopen, gtb, _⟩ := (if_then_ok_iff c (run tb) s y').mp hy
      obtain ⟨hex, _, hy1⟩ := if_then_open_ok gopen
      obtain ⟨frx, x1, hopen⟩ := if_open_isOk c s hex
      obtain ⟨_, _, hx1⟩ := if_open_ok hopen
      have t := (run_succeeds tb y1).mp ⟨y2, gtb⟩
      have t' : succeeds x1.exited_block_ x1.current_loop_.break_block_.isSome
          x1.current_loop_.continue_block_.isSome tb = true := by
        rw [hy1] at t
        rw [hx1]
        exact t
      obtain ⟨x2, htb⟩ := (run_succeeds tb x1).mpr t'
      exact ⟨_, (if_ok_iff c (run tb) (run Prog.skip) s _).mpr
        ⟨frx, x1, x2, if_middle frx x2, hopen, htb, rfl, rfl⟩⟩
  · intro x' y' hx hy
    have balx := run_balanced (Prog.if_ c tb Prog.skip) s x' hx
    have baly := run_balanced (Prog.if_then c tb) s y' hy
    obtain ⟨frx, x1, x2, x4, hopen, htb, hfb, rfl⟩ :=
      (if_ok_iff c (run tb) (run Prog.skip) s x').mp hx
    obtain ⟨my, y1, y2, gopen, gtb, rfl⟩ := (if_then_ok_iff c (run tb) s y').mp hy
    simp only [run, Except.ok.injEq] at hfb
    subst hfb
    obtain ⟨hex, hfr, hx1⟩ := if_open_ok hopen
    obtain ⟨_, hmy, hy1⟩ := if_then_open_ok gopen
    have s1 := sim_init hwf hopen gopen
    obtain ⟨y2', gtb', s2⟩ := run_sim tb _ x1 y1 x2 s1 htb
    rw [gtb] at gtb'
    simp only [Except.ok.injEq] at gtb'
    subst gtb'
    -- the blocks of the two-armed form that the true block leaves alone
    have hv1 : x1.insert_block < x1.blocks.length := by rw [hx1]; simp
    have hl1 : x1.blocks.length = s.blocks.length + 3 := by rw [hx1]; simp
    have hc1 : x1.insert_block = s.blocks.length := by rw [hx1]
    have hf1 : x1.function_blocks ≠ [] ∧ x1.function_blocks.head? = s.function_blocks.head? := by
      rw [hx1]
      exact ⟨fun h0 => hwf.entry (List.append_eq_nil.mp h0).1,
        head?_append_of_ne_nil _ _ hwf.entry⟩
    have hhead : ∀ i, s.blocks.length ≤ i → s.function_blocks.head? ≠ some i :=
      head_lt_of_attached hwf.attached
    have g12 := run_grow tb x1 x2 hv1 htb
    have hcur := hwf.cursor
    have kF : x1.blocks[s.blocks.length + 1]? = some { name := "false_block", insts := [] } := by
      rw [hx1]
      simp only
      rw [getElem?_appendAt, if_neg (by omega), List.getElem?_append_right (by omega)]
      simp
    have kM : x1.blocks[s.blocks.length + 2]? = some { name := "merge_block", insts := [] } := by
      rw [hx1]
      simp only
      rw [getElem?_appendAt, if_neg (by omega), List.getElem?_append_right (by omega)]
      simp
    have c2 : x2.insert_block = s.blocks.length ∨ s.blocks.length + 3 ≤ x2.insert_block := by
      rcases g12.cursor with hc | hc
      · exact Or.inl (hc.trans hc1)
      · exact Or.inr (by omega)
    have kF2 : x2.blocks[s.blocks.length + 1]? = some { name := "false_block", insts := [] } := by
      rw [g12.content _ (by omega) (by omega) hf1.1 (by rw [hf1.2]; exact hhead _ (by omega)), kF]
    have kM2 : x2.blocks[s.blocks.length + 2]? = some { name := "merge_block", insts := [] } := by
      rw [g12.content _ (by omega) (by omega) hf1.1 (by rw [hf1.2]; exact hhead _ (by omega)), kM]
    -- the block store of the two-armed form when it returns
    have hxb : (if_close frx (if_middle frx x2)).blocks =
        appendAt (appendAt x2.blocks x2.insert_block
          (if x2.exited_block_ = true then []
           else [Instruction.mk (Inst.br (s.blocks.length + 2))
             (some (x2.leave_scope.get_debug_location x2.source_code_.line_no_))]))
          (s.blocks.length + 1)
          [Instruction.mk (Inst.br (s.blocks.length + 2))
            (some ((if_middle frx x2).leave_scope.get_debug_location
              (if_middle frx x2).source_code_.line_no_))] := by
      rw [if_close_eq]
      simp only
      have e3 : (if_middle frx x2).exited_block_ = false := by rw [if_middle_eq]
      have c3 : (if_middle frx x2).insert_block = s.blocks.length + 1 := by
        rw [if_middle_eq, hfr]
      have b3 : (if_middle frx x2).blocks = appendAt x2.blocks x2.insert_block
          (if x2.exited_block_ = true then []
           else [Instruction.mk (Inst.br (s.blocks.length + 2))
             (some (x2.leave_scope.get_debug_location x2.source_code_.line_no_))]) := by
        rw [if_middle_eq, hfr]
      rw [e3, c3, b3, hfr]
      simp
    have hyb : (if_then_close my y2).blocks =
        merged (s.blocks.length + 1) (if_close frx (if_middle frx x2)).blocks := by
      rw [hxb, merged_appendAt_self, merged_appendAt _ _ _ _ s2.cursor_ne, ← s2.blocks,
        ← s2.cursor, if_then_close_eq, hmy, s2.exited, s2.source]
      simp only
      congr 1
      cases x2.exited_block_
      · simp [Instruction.rename, Inst.rename, shift_gt, s2.source]
      · simp
    have hxM : (if_close frx (if_middle frx x2)).blocks[s.blocks.length + 2]? =
        some { name := "merge_block", insts := [] } := by
      rw [hxb, getElem?_appendAt, if_neg (by omega), getElem?_appendAt,
        if_neg (by omega), kM2]
    refine ⟨⟨my, y1, gopen, hmy, by rw [hy1, hmy]⟩, ?_, ?_, balx.scopes, baly.scopes,
      balx.indent hrange, baly.indent hrange, balx.loop, baly.loop, ?_, ?_, hxM, ?_, ?_, hyb, ?_⟩
    · rw [if_close_eq]
    · rw [if_then_close_eq]
    · rw [if_close_eq, hfr]
    · rw [if_then_close_eq, hmy]
    · rw [hyb]
      unfold merged
      rw [List.getElem?_map, List.getElem?_eraseIdx, if_neg (by omega), hxM]
      rfl
    · refine ⟨some ((if_middle frx x2).leave_scope.get_debug_location
        (if_middle frx x2).source_code_.line_no_), ?_⟩
      rw [hxb, getElem?_appendAt, if_pos rfl, getElem?_appendAt, if_neg (by omega), kF2]
      rfl
    · rw [if_then_close_eq, if_close_eq, if_middle_eq, hfr, hmy]
      simp only
      rw [s2.fblocks, List.filter_append, List.filter_append, List.map_append, List.map_append]
      have hfil : x2.function_blocks.filter (fun b => b ≠ s.blocks.length + 1) =
          x2.function_blocks := by
        rw [List.filter_eq_self]
        intro b hb
        simp only [ne_eq, decide_not, Bool.not_eq_true', decide_eq_false_iff_not]
        intro hbk
        exact s2.detached (hbk ▸ hb)
      rw [hfil]
      simp [shift_gt]

theorem C14_witness :
    ∃ x' y', if_ demo_cond (run Prog.return_) (run Prog.skip) demo_start = Except.ok x' ∧
      if_then demo_cond (run Prog.return_) demo_start = Except.ok y' ∧
      x'.insert_block = demo_start.blocks.length + 2 ∧
      y'.insert_block = demo_start.blocks.length + 1 ∧
      y'.blocks = merged (demo_start.blocks.length + 1) x'.blocks := by
  refine ⟨_, _, rfl, rfl, ?_⟩
  obtain ⟨_, _, _, _, _, _, _, _, _, h10, h11, _, _, _, h15, _⟩ :=
    (C14_one_armed_if_refines_two_armed demo_cond Prog.return_ demo_start demo_start_wellFormed
      (by decide)).2 _ _ rfl rfl
  exact ⟨h10, h11, h15⟩

end codegen
